import Mathlib

/-! # Dependency resolution and validation of report generation queries

A shallow embedding of `pkg/operator/reporting/validate.go` and proofs about it.

Conventions of the embedding:

* Go pointers to API objects are modelled by the objects themselves (the code never mutates
  them), slices by `List`, `map[string]*T` by an association list with unique keys
  (`GoMap`), and the Go `error` interface by `Option GoError` (`none` is `nil`); a function
  returning `(value, error)` returns an `Except GoError value`.
* A getter (`reportGenerationQueryGetter` and its siblings) is a pure function
  `namespace → name → Except GoError object`: the store does not change during a call.
* The accumulator maps that the traversal mutates are passed in and returned.
* The recursion of `GetDependentGenerationQueriesWithDataSourcesMemoized` is on the number
  of levels left, `maxDepth - depth`; the lemma
  `GetDependentGenerationQueriesWithDataSourcesMemoized_unfold` gives back the source form.
* The hooks of `UninitialiedDependendenciesHandler` are state transformers on an arbitrary
  state `σ`; the validator threads that state through the calls it makes.
* `sort.Slice` with the comparison `x[i].Name < x[j].Name` is modelled by an insertion sort
  on the same comparison. The theorems use only that the result is sorted and is a
  permutation of the input.
* Ranging over a Go map visits the entries in an unspecified order; the model visits them
  in insertion order. The lemmas `sortByName_order_independent` and
  `dataSources_order_independent` show that the order does not change what is returned.
-/

namespace Reporting

/-! ## API objects (package `metering/v1alpha1`, as far as the code reads them) -/

/-- Input definition of a query: `ReportGenerationQueryInputDefinition` (its field `Type`
is spelled `Type_` here). -/
structure ReportGenerationQueryInputDefinition where
  Name : String
  Type_ : String
  Required : Bool
deriving DecidableEq, Repr

/-- The `Spec.View` part of a query. -/
structure ReportGenerationQueryView where
  Disabled : Bool
deriving DecidableEq, Repr

/-- The `Spec` of a `ReportGenerationQuery`. -/
structure ReportGenerationQuerySpec where
  ReportQueries : List String
  DynamicReportQueries : List String
  DataSources : List String
  Reports : List String
  View : ReportGenerationQueryView
  Inputs : List ReportGenerationQueryInputDefinition
deriving DecidableEq, Repr

/-- The `Status` of a `ReportGenerationQuery`. -/
structure ReportGenerationQueryStatus where
  ViewName : String
deriving DecidableEq, Repr

/-- A `metering.ReportGenerationQuery`. -/
structure ReportGenerationQuery where
  Namespace : String
  Name : String
  Spec : ReportGenerationQuerySpec
  Status : ReportGenerationQueryStatus
deriving DecidableEq, Repr

/-- The `Status` of a `ReportDataSource`. -/
structure ReportDataSourceStatus where
  TableName : String
deriving DecidableEq, Repr

/-- A `metering.ReportDataSource`. -/
structure ReportDataSource where
  Namespace : String
  Name : String
  Status : ReportDataSourceStatus
deriving DecidableEq, Repr

/-- The `Status` of a `Report`. -/
structure ReportStatus where
  TableName : String
deriving DecidableEq, Repr

/-- A `metering.Report`. -/
structure Report where
  Namespace : String
  Name : String
  Status : ReportStatus
deriving DecidableEq, Repr

/-! ## Errors -/

/-- The type `reportGenerationQueryDependenciesValidationError`. -/
structure reportGenerationQueryDependenciesValidationError where
  uninitializedQueryNames : List String
  disabledViewQueryNames : List String
  uninitializedDataSourceNames : List String
  uninitializedReportNames : List String
deriving DecidableEq, Repr

/-- The dynamic types of the error values the package handles. `getter` is an error handed
back by a lookup; `cycleDetected depth name` is the value built by
`fmt.Errorf("detected a cycle at depth %d for generationQuery %s", depth, name)`;
`validation` is a `*reportGenerationQueryDependenciesValidationError`; `other` is any other
error value. The last three are the values built by `fmt.Errorf` in the validation of query
inputs, kept with the arguments of their format strings:
`unsupportedInputType inputType` for `"unsupported input type %s"`,
`inputNotValid name inputType value err` for
`"inputs Name: %s is not valid a %s: value: %s, err: %s"`, and
`missingInputs query expected given` for `"unable to validate ReportGenerationQuery %s
inputs: requires %s as inputs, got %s"`, where the two lists are the ones joined by commas. -/
inductive GoError where
  | getter (msg : String)
  | cycleDetected (depth : Int) (name : String)
  | validation (e : reportGenerationQueryDependenciesValidationError)
  | other (msg : String)
  | unsupportedInputType (inputType : String)
  | inputNotValid (name inputType value err : String)
  | missingInputs (query : String) (expected given : List String)
deriving DecidableEq, Repr

/-! ## The struct `ReportGenerationQueryDependencies` -/

/-- The result of a resolution. -/
structure ReportGenerationQueryDependencies where
  ReportGenerationQueries : List ReportGenerationQuery
  DynamicReportGenerationQueries : List ReportGenerationQuery
  ReportDataSources : List ReportDataSource
  Reports : List Report
deriving DecidableEq, Repr

/-! ## Validation -/

/-- The struct `UninitialiedDependendenciesHandler`: two hooks, acting on a state `σ`. -/
structure UninitialiedDependendenciesHandler (σ : Type) where
  HandleUninitializedReportGenerationQuery : ReportGenerationQuery → σ → σ
  HandleUninitializedReportDataSource : ReportDataSource → σ → σ

/-- The local variables of `ValidateGenerationQueryDependencies` that its loops update. -/
structure validateLocals where
  uninitializedQueries : List ReportGenerationQuery
  uninitializedDataSources : List ReportDataSource
  validationErr : reportGenerationQueryDependenciesValidationError

/-- Body of the loop over `deps.ReportGenerationQueries` (lines 64-77). -/
def validateQueryStep (v : validateLocals) (query : ReportGenerationQuery) : validateLocals :=
  if query.Spec.View.Disabled then
    { v with validationErr :=
        { v.validationErr with
          disabledViewQueryNames := v.validationErr.disabledViewQueryNames ++ [query.Name] } }
  else if !query.Spec.View.Disabled && query.Status.ViewName == "" then
    { v with
      uninitializedQueries := v.uninitializedQueries ++ [query]
      validationErr :=
        { v.validationErr with
          uninitializedQueryNames := v.validationErr.uninitializedQueryNames ++ [query.Name] } }
  else v

/-- Body of the loop over `deps.ReportDataSources` (lines 79-84). -/
def validateDataSourceStep (v : validateLocals) (ds : ReportDataSource) : validateLocals :=
  if ds.Status.TableName == "" then
    { v with
      uninitializedDataSources := v.uninitializedDataSources ++ [ds]
      validationErr :=
        { v.validationErr with
          uninitializedDataSourceNames :=
            v.validationErr.uninitializedDataSourceNames ++ [ds.Name] } }
  else v

/-- Body of the loop over `deps.Reports` (lines 85-89). -/
def validateReportStep (v : validateLocals) (report : Report) : validateLocals :=
  if report.Status.TableName == "" then
    { v with validationErr :=
        { v.validationErr with
          uninitializedReportNames := v.validationErr.uninitializedReportNames ++ [report.Name] } }
  else v

/-- The three classification loops of `ValidateGenerationQueryDependencies`, run in order
from empty lists. -/
def validateClassify (deps : ReportGenerationQueryDependencies) : validateLocals :=
  let v0 : validateLocals := ⟨[], [], ⟨[], [], [], []⟩⟩
  let v1 := deps.ReportGenerationQueries.foldl validateQueryStep v0
  let v2 := deps.ReportDataSources.foldl validateDataSourceStep v1
  deps.Reports.foldl validateReportStep v2

/-- The hook calls of lines 91-99, threaded through the state. -/
def validateNotify {σ : Type} (handler : Option (UninitialiedDependendenciesHandler σ))
    (v : validateLocals) (s : σ) : σ :=
  match handler with
  | none => s
  | some h =>
    let s1 := v.uninitializedQueries.foldl
      (fun s query => h.HandleUninitializedReportGenerationQuery query s) s
    v.uninitializedDataSources.foldl
      (fun s dataSource => h.HandleUninitializedReportDataSource dataSource s) s1

/-- The function `ValidateGenerationQueryDependencies`: the returned error and the state
the hooks leave behind. -/
def ValidateGenerationQueryDependencies {σ : Type} (deps : ReportGenerationQueryDependencies)
    (handler : Option (UninitialiedDependendenciesHandler σ)) (s : σ) : Option GoError × σ :=
  let v := validateClassify deps
  let s' := validateNotify handler v s
  if v.validationErr.disabledViewQueryNames.length != 0 ||
      v.validationErr.uninitializedQueryNames.length != 0 ||
      v.validationErr.uninitializedDataSourceNames.length != 0 ||
      v.validationErr.uninitializedReportNames.length != 0 ||
      v.validationErr.uninitializedReportNames.length != 0 then
    (some (GoError.validation v.validationErr), s')
  else (none, s')

/-- The function `IsUninitializedDependencyError`. -/
def IsUninitializedDependencyError (err : Option GoError) : Bool :=
  match err with
  | some (GoError.validation validationErr) =>
    validationErr.uninitializedQueryNames.length != 0 ||
      validationErr.uninitializedDataSourceNames.length != 0 ||
      validationErr.uninitializedReportNames.length != 0 ||
      validationErr.uninitializedReportNames.length != 0
  | _ => false

/-- The function `IsInvalidDependencyError`. -/
def IsInvalidDependencyError (err : Option GoError) : Bool :=
  match err with
  | some (GoError.validation validationErr) => validationErr.disabledViewQueryNames.length != 0
  | _ => false

/-! ## Go maps keyed by strings -/

/-- A `map[string]V`: an association list. Only `GoMap.insert` adds entries, so keys stay
unique. The order of the entries stands for one iteration order of the Go map. -/
abbrev GoMap (V : Type) := List (String × V)

/-- The test `_, exists := m[k]`. -/
def GoMap.contains {V : Type} (m : GoMap V) (k : String) : Bool :=
  m.any (fun e => e.1 == k)

/-- The assignment `m[k] = v`. -/
def GoMap.insert {V : Type} : GoMap V → String → V → GoMap V
  | [], k, v => [(k, v)]
  | (k', v') :: t, k, v => if k' == k then (k, v) :: t else (k', v') :: GoMap.insert t k v

/-- The values met by `for _, v := range m`. -/
def GoMap.values {V : Type} (m : GoMap V) : List V := m.map Prod.snd

/-- The keys of the map. -/
def GoMap.keys {V : Type} (m : GoMap V) : List String := m.map Prod.fst

/-! ## Sorting by name -/

/-- The comparison `a < b` of two Go strings: lexicographic order of their characters
(for valid UTF-8 the order of the bytes and the order of the code points agree). It is the
order `<` of `String`, see `nameLess_iff`. -/
def nameLess (a b : String) : Bool := decide (a.toList < b.toList)

/-- Model of `sort.Slice(xs, func(i, j) { return xs[i].Name < xs[j].Name })`: an insertion
sort; `a` may stay in front of `b` when `b.Name < a.Name` is false. -/
def sortByName {α : Type} (name : α → String) (xs : List α) : List α :=
  xs.insertionSort (fun a b => nameLess (name b) (name a) = false)

/-! ## Getters -/

/-- The interface `reportGenerationQueryGetter`. -/
abbrev reportGenerationQueryGetter := String → String → Except GoError ReportGenerationQuery

/-- The interface `reportDataSourceGetter`. -/
abbrev reportDataSourceGetter := String → String → Except GoError ReportDataSource

/-- The interface `reportGetter`. -/
abbrev reportGetter := String → String → Except GoError Report

/-! ## Resolution -/

/-- The constant `maxDepth`. -/
def maxDepth : Int := 100

/-- The loop of `GetDependentDataSourcesMemoized` over the remaining data source names. -/
def dataSourcesLoop (dataSourceGetter : reportDataSourceGetter) (ns : String) :
    List String → GoMap ReportDataSource → Except GoError (GoMap ReportDataSource)
  | [], dataSourceAccumulator => .ok dataSourceAccumulator
  | dataSourceName :: rest, dataSourceAccumulator =>
    if dataSourceAccumulator.contains dataSourceName then
      dataSourcesLoop dataSourceGetter ns rest dataSourceAccumulator
    else
      match dataSourceGetter ns dataSourceName with
      | .error err => .error err
      | .ok dataSource =>
        dataSourcesLoop dataSourceGetter ns rest
          (dataSourceAccumulator.insert dataSource.Name dataSource)

/-- The function `GetDependentDataSourcesMemoized`; the accumulator is passed and returned. -/
def GetDependentDataSourcesMemoized (dataSourceGetter : reportDataSourceGetter)
    (generationQuery : ReportGenerationQuery) (dataSourceAccumulator : GoMap ReportDataSource) :
    Except GoError (GoMap ReportDataSource) :=
  dataSourcesLoop dataSourceGetter generationQuery.Namespace generationQuery.Spec.DataSources
    dataSourceAccumulator

/-- The function `GetDependentDataSources`. -/
def GetDependentDataSources (dataSourceGetter : reportDataSourceGetter)
    (generationQuery : ReportGenerationQuery) : Except GoError (List ReportDataSource) :=
  match GetDependentDataSourcesMemoized dataSourceGetter generationQuery [] with
  | .error err => .error err
  | .ok dataSourceAccumulator => .ok dataSourceAccumulator.values

/-- The three accumulators handed through the traversal. -/
structure Accumulators where
  viewQueriesAccumulator : GoMap ReportGenerationQuery
  dynamicQueriesAccumulator : GoMap ReportGenerationQuery
  dataSourceAccumulator : GoMap ReportDataSource
deriving DecidableEq, Repr

/-- The accumulator `input.accum` of one entry of `loopInput`: the view queries for the
first entry (`dynamic = false`), the dynamic queries for the second. -/
def Accumulators.accum (a : Accumulators) (dynamic : Bool) : GoMap ReportGenerationQuery :=
  if dynamic then a.dynamicQueriesAccumulator else a.viewQueriesAccumulator

/-- The assignment `input.accum[k] = v`. -/
def Accumulators.setAccum (a : Accumulators) (dynamic : Bool) (k : String)
    (v : ReportGenerationQuery) : Accumulators :=
  if dynamic then { a with dynamicQueriesAccumulator := a.dynamicQueriesAccumulator.insert k v }
  else { a with viewQueriesAccumulator := a.viewQueriesAccumulator.insert k v }

/-- The inner loop (lines 280-298) over the remaining `input.queryNames`; `recurse` is the
recursive call at `depth+1`. -/
def queryNamesLoop (queryGetter : reportGenerationQueryGetter)
    (dataSourceGetter : reportDataSourceGetter)
    (recurse : ReportGenerationQuery → Accumulators → Except GoError Accumulators)
    (ns : String) (dynamic : Bool) : List String → Accumulators → Except GoError Accumulators
  | [], a => .ok a
  | queryName :: rest, a =>
    if (a.accum dynamic).contains queryName then
      queryNamesLoop queryGetter dataSourceGetter recurse ns dynamic rest a
    else
      match queryGetter ns queryName with
      | .error err => .error err
      | .ok genQuery =>
        match GetDependentDataSourcesMemoized dataSourceGetter genQuery a.dataSourceAccumulator with
        | .error err => .error err
        | .ok dataSourceAccumulator =>
          match recurse genQuery { a with dataSourceAccumulator := dataSourceAccumulator } with
          | .error err => .error err
          | .ok a' =>
            queryNamesLoop queryGetter dataSourceGetter recurse ns dynamic rest
              (a'.setAccum dynamic genQuery.Name genQuery)

/-- The recursion of `GetDependentGenerationQueriesWithDataSourcesMemoized`, on the number
`fuel` of levels left before `depth` reaches `maxDepth`. -/
def memoizedWalk (queryGetter : reportGenerationQueryGetter)
    (dataSourceGetter : reportDataSourceGetter) :
    Nat → Int → ReportGenerationQuery → Accumulators → Except GoError Accumulators
  | 0, depth, generationQuery, _ => .error (GoError.cycleDetected depth generationQuery.Name)
  | fuel + 1, depth, generationQuery, a =>
    match queryNamesLoop queryGetter dataSourceGetter
        (memoizedWalk queryGetter dataSourceGetter fuel (depth + 1))
        generationQuery.Namespace false generationQuery.Spec.ReportQueries a with
    | .error err => .error err
    | .ok a1 =>
      queryNamesLoop queryGetter dataSourceGetter
        (memoizedWalk queryGetter dataSourceGetter fuel (depth + 1))
        generationQuery.Namespace true generationQuery.Spec.DynamicReportQueries a1

/-- The function `GetDependentGenerationQueriesWithDataSourcesMemoized`. The test
`depth >= maxDepth` is the test that no level is left: `(maxDepth - depth).toNat = 0`. -/
def GetDependentGenerationQueriesWithDataSourcesMemoized
    (queryGetter : reportGenerationQueryGetter) (dataSourceGetter : reportDataSourceGetter)
    (generationQuery : ReportGenerationQuery) (depth maxDepth : Int) (a : Accumulators) :
    Except GoError Accumulators :=
  memoizedWalk queryGetter dataSourceGetter (maxDepth - depth).toNat depth generationQuery a

/-- The function `GetDependentGenerationQueries`. -/
def GetDependentGenerationQueries (queryGetter : reportGenerationQueryGetter)
    (dataSourceGetter : reportDataSourceGetter) (generationQuery : ReportGenerationQuery) :
    Except GoError
      (List ReportGenerationQuery × List ReportGenerationQuery × List ReportDataSource) :=
  match GetDependentGenerationQueriesWithDataSourcesMemoized queryGetter dataSourceGetter
      generationQuery 0 maxDepth ⟨[], [], []⟩ with
  | .error err => .error err
  | .ok a =>
    .ok (a.viewQueriesAccumulator.values, a.dynamicQueriesAccumulator.values,
      a.dataSourceAccumulator.values)

/-- The loop of `GetDependentReports` over the remaining report names: the reports looked
up, in the order of the names, unless a lookup fails. -/
def reportsLoop (reportGetter : reportGetter) (ns : String) :
    List String → Except GoError (List Report)
  | [] => .ok []
  | reportName :: rest =>
    match reportGetter ns reportName with
    | .error err => .error err
    | .ok report =>
      match reportsLoop reportGetter ns rest with
      | .error err => .error err
      | .ok reports => .ok (report :: reports)

/-- The function `GetDependentReports`. -/
def GetDependentReports (reportGetter : reportGetter) (generationQuery : ReportGenerationQuery) :
    Except GoError (List Report) :=
  reportsLoop reportGetter generationQuery.Namespace generationQuery.Spec.Reports

/-- The deduplication loop of lines 176-186 over the remaining data sources: `seen` holds
the names met so far, `dataSources` the slice being built. -/
def dedupDataSources : List ReportDataSource → List String → List ReportDataSource →
    List ReportDataSource
  | [], _, dataSources => dataSources
  | ds :: rest, seen, dataSources =>
    if seen.contains ds.Name then dedupDataSources rest seen dataSources
    else dedupDataSources rest (ds.Name :: seen) (dataSources ++ [ds])

/-- The function `GetGenerationQueryDependencies`. -/
def GetGenerationQueryDependencies (queryGetter : reportGenerationQueryGetter)
    (dataSourceGetter : reportDataSourceGetter) (reportGetter : reportGetter)
    (generationQuery : ReportGenerationQuery) : Except GoError ReportGenerationQueryDependencies :=
  match GetDependentDataSources dataSourceGetter generationQuery with
  | .error err => .error err
  | .ok dataSourceDeps =>
    match GetDependentGenerationQueries queryGetter dataSourceGetter generationQuery with
    | .error err => .error err
    | .ok (viewQueries, dynamicQueries, queriesDataSources) =>
      let dataSources := dedupDataSources (dataSourceDeps ++ queriesDataSources) [] []
      match GetDependentReports reportGetter generationQuery with
      | .error err => .error err
      | .ok reports =>
        .ok {
          ReportGenerationQueries := sortByName ReportGenerationQuery.Name viewQueries
          DynamicReportGenerationQueries := sortByName ReportGenerationQuery.Name dynamicQueries
          ReportDataSources := sortByName ReportDataSource.Name dataSources
          Reports := sortByName Report.Name reports }

/-- The function `GetAndValidateGenerationQueryDependencies`. -/
def GetAndValidateGenerationQueryDependencies {σ : Type}
    (queryGetter : reportGenerationQueryGetter) (dataSourceGetter : reportDataSourceGetter)
    (reportGetter : reportGetter) (generationQuery : ReportGenerationQuery)
    (handler : Option (UninitialiedDependendenciesHandler σ)) (s : σ) :
    Except GoError ReportGenerationQueryDependencies × σ :=
  match GetGenerationQueryDependencies queryGetter dataSourceGetter reportGetter
      generationQuery with
  | .error err => (.error err, s)
  | .ok deps =>
    match ValidateGenerationQueryDependencies deps handler s with
    | (some err, s') => (.error err, s')
    | (none, s') => (.ok deps, s')

/-! ## Specification-side definitions -/

/-- The classification in the words of the specification: the four name lists, each a
filtered sublist of one sequence of the dependency set, in sequence order. -/
def expectedClassification (deps : ReportGenerationQueryDependencies) :
    reportGenerationQueryDependenciesValidationError where
  disabledViewQueryNames :=
    (deps.ReportGenerationQueries.filter (fun q => q.Spec.View.Disabled)).map
      ReportGenerationQuery.Name
  uninitializedQueryNames :=
    (deps.ReportGenerationQueries.filter
      (fun q => q.Spec.View.Disabled = false ∧ q.Status.ViewName = "")).map
      ReportGenerationQuery.Name
  uninitializedDataSourceNames :=
    (deps.ReportDataSources.filter (fun d => d.Status.TableName = "")).map ReportDataSource.Name
  uninitializedReportNames :=
    (deps.Reports.filter (fun r => r.Status.TableName = "")).map Report.Name

/-! ## Concrete inputs -/

/-- A dependency set whose only member is a static query with a disabled view. -/
def depsDisabledStatic : ReportGenerationQueryDependencies where
  ReportGenerationQueries :=
    [{ Namespace := "ns", Name := "a",
       Spec := { ReportQueries := [], DynamicReportQueries := [], DataSources := [],
                 Reports := [], View := { Disabled := true }, Inputs := [] },
       Status := { ViewName := "" } }]
  DynamicReportGenerationQueries := []
  ReportDataSources := []
  Reports := []

/-- A dependency set whose members are all initialized: a static query with a view, a
dynamic query with a disabled view, a data source and a report with tables. -/
def depsAllInitialized : ReportGenerationQueryDependencies where
  ReportGenerationQueries :=
    [{ Namespace := "ns", Name := "a",
       Spec := { ReportQueries := [], DynamicReportQueries := [], DataSources := [],
                 Reports := [], View := { Disabled := false }, Inputs := [] },
       Status := { ViewName := "view_a" } }]
  DynamicReportGenerationQueries :=
    [{ Namespace := "ns", Name := "b",
       Spec := { ReportQueries := [], DynamicReportQueries := [], DataSources := [],
                 Reports := [], View := { Disabled := true }, Inputs := [] },
       Status := { ViewName := "" } }]
  ReportDataSources := [{ Namespace := "ns", Name := "d", Status := { TableName := "table_d" } }]
  Reports := [{ Namespace := "ns", Name := "r", Status := { TableName := "table_r" } }]

/-! ## Reference graph (specification side) -/

/-- The names a query refers to, static refs first. -/
def queryRefs (q : ReportGenerationQuery) : List String :=
  q.Spec.ReportQueries ++ q.Spec.DynamicReportQueries

/-- One edge of the reference graph: `q` lists a name (as a static or a dynamic ref) that
the query lookup, in the namespace of `q`, resolves to `g`. -/
def Step (queryGetter : reportGenerationQueryGetter) (q g : ReportGenerationQuery) : Prop :=
  ∃ n ∈ queryRefs q, queryGetter q.Namespace n = .ok g

/-- The query `g` is reachable from `root` by following one or more refs. -/
def Reachable (queryGetter : reportGenerationQueryGetter) (root g : ReportGenerationQuery) :
    Prop :=
  Relation.TransGen (Step queryGetter) root g

/-- The query `g` is `root` or is reachable from it. -/
def ReachableOrRoot (queryGetter : reportGenerationQueryGetter)
    (root g : ReportGenerationQuery) : Prop :=
  Relation.ReflTransGen (Step queryGetter) root g

/-- A path of exactly `k` edges of the reference graph from `q` to `g`. -/
inductive RefPath (queryGetter : reportGenerationQueryGetter) :
    Nat → ReportGenerationQuery → ReportGenerationQuery → Prop where
  | nil (q : ReportGenerationQuery) : RefPath queryGetter 0 q q
  | cons {k : Nat} {q m g : ReportGenerationQuery} :
      Step queryGetter q m → RefPath queryGetter k m g → RefPath queryGetter (k + 1) q g

/-- A faithful query lookup: what it returns for `(namespace, name)` carries them. -/
def FaithfulQueryGetter (queryGetter : reportGenerationQueryGetter) : Prop :=
  ∀ ns n g, queryGetter ns n = .ok g → g.Namespace = ns ∧ g.Name = n

/-- A faithful data source lookup. -/
def FaithfulDataSourceGetter (dataSourceGetter : reportDataSourceGetter) : Prop :=
  ∀ ns n d, dataSourceGetter ns n = .ok d → d.Namespace = ns ∧ d.Name = n

/-- A faithful report lookup. -/
def FaithfulReportGetter (reportGetter : reportGetter) : Prop :=
  ∀ ns n r, reportGetter ns n = .ok r → r.Namespace = ns ∧ r.Name = n

/-- A map filled by assignments `m[v.Name] = v`: keys are unique and each key is the name
of its value. -/
def GoMap.KeyedByName {V : Type} (name : V → String) (m : GoMap V) : Prop :=
  m.keys.Nodup ∧ ∀ k v, (k, v) ∈ m → name v = k

/-- All three accumulators are keyed by the names of their values. -/
def Accumulators.KeyedByName (a : Accumulators) : Prop :=
  GoMap.KeyedByName ReportGenerationQuery.Name a.viewQueriesAccumulator ∧
    GoMap.KeyedByName ReportGenerationQuery.Name a.dynamicQueriesAccumulator ∧
    GoMap.KeyedByName ReportDataSource.Name a.dataSourceAccumulator

/-- The list `input.queryNames` of one entry of `loopInput`. -/
def kindRefs (dynamic : Bool) (q : ReportGenerationQuery) : List String :=
  if dynamic then q.Spec.DynamicReportQueries else q.Spec.ReportQueries

/-- The accumulators only grew: every key of `a` is a key of `a'`. -/
def Accumulators.Le (a a' : Accumulators) : Prop :=
  (∀ dyn k, k ∈ (a.accum dyn).keys → k ∈ (a'.accum dyn).keys) ∧
    ∀ k, k ∈ a.dataSourceAccumulator.keys → k ∈ a'.dataSourceAccumulator.keys

/-- The refs of `g` are all resolved in `a`: static refs are keys of the view accumulator,
dynamic refs are keys of the dynamic accumulator. -/
def Accumulators.Resolves (a : Accumulators) (g : ReportGenerationQuery) : Prop :=
  ∀ dyn, ∀ n ∈ kindRefs dyn g, n ∈ (a.accum dyn).keys

/-- The invariant of the traversal from `root` under faithful lookups. -/
structure Accumulators.Inv (queryGetter : reportGenerationQueryGetter)
    (dataSourceGetter : reportDataSourceGetter) (root : ReportGenerationQuery)
    (a : Accumulators) : Prop where
  /-- Each entry is what the lookup returns for its key. -/
  query_lookup : ∀ dyn k v, (k, v) ∈ a.accum dyn → queryGetter root.Namespace k = .ok v
  /-- Each key is a ref, of the kind of its accumulator, of the root or of a reachable query. -/
  query_source : ∀ dyn k v, (k, v) ∈ a.accum dyn →
    ∃ q, ReachableOrRoot queryGetter root q ∧ k ∈ kindRefs dyn q
  /-- The refs and data sources of each entry are resolved. -/
  closed : ∀ dyn k v, (k, v) ∈ a.accum dyn →
    a.Resolves v ∧ ∀ n ∈ v.Spec.DataSources, n ∈ a.dataSourceAccumulator.keys
  /-- Each data source entry is what the lookup returns for its key, and the key is a data
  source ref of a reachable query. -/
  ds_lookup : ∀ k d, (k, d) ∈ a.dataSourceAccumulator →
    dataSourceGetter root.Namespace k = .ok d ∧
      ∃ q, Reachable queryGetter root q ∧ k ∈ q.Spec.DataSources
  /-- The entries can be ranked so that every ref goes to a lower rank. -/
  ranked : ∃ h : String → Nat, ∀ dyn k v, (k, v) ∈ a.accum dyn → ∀ dyn', ∀ n ∈ kindRefs dyn' v,
    h n < h k

/-- A query object with the given refs, an enabled view and no view name yet. -/
def mkQuery (ns name : String) (reportQueries dynamicReportQueries dataSources
    reports : List String) : ReportGenerationQuery where
  Namespace := ns
  Name := name
  Spec := { ReportQueries := reportQueries, DynamicReportQueries := dynamicReportQueries,
            DataSources := dataSources, Reports := reports, View := { Disabled := false },
            Inputs := [] }
  Status := { ViewName := "" }

/-- A small store of queries: `a` refers to `c` (static) and reads `d2`; `b` refers to `c`
(static) and reads `d1`; `c` is a leaf; no other name is found. -/
def sampleQueryGetter : reportGenerationQueryGetter := fun ns name =>
  if name = "a" then .ok (mkQuery ns "a" ["c"] [] ["d2"] [])
  else if name = "b" then .ok (mkQuery ns "b" ["c"] [] ["d1"] [])
  else if name = "c" then .ok (mkQuery ns "c" [] [] [] [])
  else .error (GoError.getter "not found")

/-- A store of data sources holding `d1` and `d2`. -/
def sampleDataSourceGetter : reportDataSourceGetter := fun ns name =>
  if name = "d1" ∨ name = "d2" then
    .ok { Namespace := ns, Name := name, Status := { TableName := "t" } }
  else .error (GoError.getter "not found")

/-- A store of reports holding `r1` and `r2`. -/
def sampleReportGetter : reportGetter := fun ns name =>
  if name = "r1" ∨ name = "r2" then
    .ok { Namespace := ns, Name := name, Status := { TableName := "t" } }
  else .error (GoError.getter "not found")

/-- A root query with the static ref `a`, the dynamic ref `b`, the data source `d1` and the
reports `r2`, `r1`. -/
def sampleRoot : ReportGenerationQuery :=
  mkQuery "ns" "root" ["a"] ["b"] ["d1"] ["r2", "r1"]

/-- The dependencies of `sampleRoot` in the sample stores. -/
def sampleDeps : ReportGenerationQueryDependencies where
  ReportGenerationQueries := [mkQuery "ns" "a" ["c"] [] ["d2"] [], mkQuery "ns" "c" [] [] [] []]
  DynamicReportGenerationQueries := [mkQuery "ns" "b" ["c"] [] ["d1"] []]
  ReportDataSources :=
    [{ Namespace := "ns", Name := "d1", Status := { TableName := "t" } },
     { Namespace := "ns", Name := "d2", Status := { TableName := "t" } }]
  Reports :=
    [{ Namespace := "ns", Name := "r1", Status := { TableName := "t" } },
     { Namespace := "ns", Name := "r2", Status := { TableName := "t" } }]

/-- A root query that lists the report `r1` twice. -/
def rootDuplicateReport : ReportGenerationQuery :=
  mkQuery "ns" "root" [] [] [] ["r1", "r1"]

/-- What resolving `rootDuplicateReport` in the sample stores returns. -/
def depsDuplicateReport : ReportGenerationQueryDependencies where
  ReportGenerationQueries := []
  DynamicReportGenerationQueries := []
  ReportDataSources := []
  Reports := [{ Namespace := "ns", Name := "r1", Status := { TableName := "t" } },
              { Namespace := "ns", Name := "r1", Status := { TableName := "t" } }]

/-- A store in which every name is a query: the query named `s` has a single static ref,
to `s` followed by the letter `q`, as long as `s` has fewer than 100 characters, and no ref
otherwise. From the name `q` on, this is a chain of 100 queries. -/
def chainQueryGetter : reportGenerationQueryGetter := fun ns name =>
  .ok (mkQuery ns name (if name.length < 100 then [name.push 'q'] else []) [] [] [])

/-- The name made of `k` letters `q`. -/
def chainName (k : Nat) : String := String.mk (List.replicate k 'q')

/-- A root whose single ref is the head `q` of the chain: the last query of the chain is
100 edges away. -/
def chainRoot : ReportGenerationQuery := mkQuery "ns" "root" [chainName 1] [] [] []

/-- A root that lists the last query of the chain before its head. -/
def shortcutRoot : ReportGenerationQuery :=
  mkQuery "ns" "root" [chainName 100, chainName 1] [] [] []

/-- The same root with the two refs in the other order. -/
def shortcutRootSwapped : ReportGenerationQuery :=
  mkQuery "ns" "root" [chainName 1, chainName 100] [] [] []

/-- The queries of the chain store: a single static ref, to the name extended by `q`, as
long as the name has fewer than 100 characters. -/
def IsChainQuery (g : ReportGenerationQuery) : Prop :=
  g = mkQuery g.Namespace g.Name (if g.Name.length < 100 then [g.Name.push 'q'] else [])
    [] [] []

/-- A measure that decreases along every edge out of a query of the sample store. -/
def sampleMeasure (q : ReportGenerationQuery) : Nat :=
  if queryRefs q = [] then 0 else if queryRefs q = ["c"] then 1 else 2

/-- A store in which every name is a query: `a` has the dynamic ref `b`, and every other
query has the static ref `a`. So `a` and `b` lie on a cycle made of a dynamic and a static
ref. -/
def cyclicQueryGetter : reportGenerationQueryGetter := fun ns name =>
  if name = "a" then .ok (mkQuery ns "a" [] ["b"] [] [])
  else .ok (mkQuery ns name ["a"] [] [] [])

/-- A root with the single static ref `a`. -/
def cyclicRoot : ReportGenerationQuery := mkQuery "ns" "root" ["a"] [] [] []

/-- Every lookup the resolution of `root` asks for succeeds: the data sources of the root,
the refs of the root and of every reachable query, the data sources of every reachable
query, and the reports of the root. -/
def AllLookupsSucceed (queryGetter : reportGenerationQueryGetter)
    (dataSourceGetter : reportDataSourceGetter) (reportGetter : reportGetter)
    (root : ReportGenerationQuery) : Prop :=
  (∀ n ∈ root.Spec.DataSources, ∃ d, dataSourceGetter root.Namespace n = .ok d) ∧
    (∀ q, ReachableOrRoot queryGetter root q →
      ∀ n ∈ queryRefs q, ∃ g, queryGetter q.Namespace n = .ok g) ∧
    (∀ q, Reachable queryGetter root q →
      ∀ n ∈ q.Spec.DataSources, ∃ d, dataSourceGetter q.Namespace n = .ok d) ∧
    (∀ n ∈ root.Spec.Reports, ∃ r, reportGetter root.Namespace n = .ok r)

/-- The sample root with a second static ref, `missing`, that the sample store lacks. -/
def rootMissingRef : ReportGenerationQuery :=
  mkQuery "ns" "root" ["a", "missing"] ["b"] ["d1"] ["r2", "r1"]

/-- Two queries that differ at most in the order in which names are listed inside their
four ref lists. -/
def SameUpToListingOrder (r1 r2 : ReportGenerationQuery) : Prop :=
  r1.Namespace = r2.Namespace ∧ r1.Name = r2.Name ∧ r1.Status = r2.Status ∧
    r1.Spec.View = r2.Spec.View ∧ r1.Spec.Inputs = r2.Spec.Inputs ∧
    r1.Spec.ReportQueries.Perm r2.Spec.ReportQueries ∧
    r1.Spec.DynamicReportQueries.Perm r2.Spec.DynamicReportQueries ∧
    r1.Spec.DataSources.Perm r2.Spec.DataSources ∧
    r1.Spec.Reports.Perm r2.Spec.Reports

/-- The sample root with its reports listed in the other order. -/
def sampleRootSwapped : ReportGenerationQuery :=
  mkQuery "ns" "root" ["a"] ["b"] ["d1"] ["r1", "r2"]

/-! ## Rendering of the validation error, and hook traces -/

/-- The method `Error` of `reportGenerationQueryDependenciesValidationError`: the message,
or `none` where the code reaches `panic("zero uninitialized or invalid dependencies")`.
`strings.Join` is `String.intercalate`, and `fmt.Sprintf` with `%s` is concatenation. -/
def reportGenerationQueryDependenciesValidationError.Error
    (e : reportGenerationQueryDependenciesValidationError) : Option String :=
  let errs : List String := []
  let errs :=
    if e.uninitializedDataSourceNames.length != 0 then
      errs ++ ["uninitialized ReportDataSource dependencies: " ++
        ", ".intercalate e.uninitializedDataSourceNames]
    else errs
  let errs :=
    if e.disabledViewQueryNames.length != 0 then
      errs ++ ["invalid ReportGenerationQuery dependencies (disabled view): " ++
        ", ".intercalate e.disabledViewQueryNames]
    else errs
  let errs :=
    if e.uninitializedQueryNames.length != 0 then
      errs ++ ["uninitialized ReportGenerationQuery dependencies: " ++
        ", ".intercalate e.uninitializedQueryNames]
    else errs
  let errs :=
    if e.uninitializedReportNames.length != 0 then
      errs ++ ["uninitialized Report dependencies: " ++
        ", ".intercalate e.uninitializedReportNames]
    else errs
  let errs :=
    if e.uninitializedReportNames.length != 0 then
      errs ++ ["uninitialized Report dependencies: " ++
        ", ".intercalate e.uninitializedReportNames]
    else errs
  if errs.length != 0 then
    some ("ReportGenerationQueryDependencyValidationError: " ++ ", ".intercalate errs)
  else none

/-- One invocation of a hook of the handler, with its argument. -/
inductive HookCall where
  | HandleUninitializedReportGenerationQuery (query : ReportGenerationQuery)
  | HandleUninitializedReportDataSource (dataSource : ReportDataSource)
deriving DecidableEq, Repr

/-- The handler whose hooks do nothing but append their invocation to a trace. -/
def recordingHandler : UninitialiedDependendenciesHandler (List HookCall) where
  HandleUninitializedReportGenerationQuery := fun query trace =>
    trace ++ [HookCall.HandleUninitializedReportGenerationQuery query]
  HandleUninitializedReportDataSource := fun dataSource trace =>
    trace ++ [HookCall.HandleUninitializedReportDataSource dataSource]

/-- The static queries the specification calls uninitialized: view enabled, no view name. -/
def uninitializedStaticQueries (deps : ReportGenerationQueryDependencies) :
    List ReportGenerationQuery :=
  deps.ReportGenerationQueries.filter
    (fun q => q.Spec.View.Disabled = false ∧ q.Status.ViewName = "")

/-- The data sources the specification calls uninitialized: no table name. -/
def uninitializedDataSourcesOf (deps : ReportGenerationQueryDependencies) :
    List ReportDataSource :=
  deps.ReportDataSources.filter (fun d => d.Status.TableName = "")

/-- A dependency set with a disabled static query `a`, an uninitialized static query `b`,
a dynamic query `c` without a view, an uninitialized data source `d`, an initialized data
source `e` and an uninitialized report `r`. -/
def depsMixed : ReportGenerationQueryDependencies where
  ReportGenerationQueries :=
    [{ Namespace := "ns", Name := "a",
       Spec := { ReportQueries := [], DynamicReportQueries := [], DataSources := [],
                 Reports := [], View := { Disabled := true }, Inputs := [] },
       Status := { ViewName := "" } },
     { Namespace := "ns", Name := "b",
       Spec := { ReportQueries := [], DynamicReportQueries := [], DataSources := [],
                 Reports := [], View := { Disabled := false }, Inputs := [] },
       Status := { ViewName := "" } }]
  DynamicReportGenerationQueries :=
    [{ Namespace := "ns", Name := "c",
       Spec := { ReportQueries := [], DynamicReportQueries := [], DataSources := [],
                 Reports := [], View := { Disabled := false }, Inputs := [] },
       Status := { ViewName := "" } }]
  ReportDataSources :=
    [{ Namespace := "ns", Name := "d", Status := { TableName := "" } },
     { Namespace := "ns", Name := "e", Status := { TableName := "table_e" } }]
  Reports := [{ Namespace := "ns", Name := "r", Status := { TableName := "" } }]

/-! ## Query inputs -/

/-- A `json.RawMessage`: the raw bytes of a JSON value, kept as the text `string(raw)`. -/
abbrev RawMessage := String

/-- A `metering.ReportGenerationQueryInputValue`; its `Value` is a `*json.RawMessage`, and
`none` is the nil pointer. -/
structure ReportGenerationQueryInputValue where
  Name : String
  Value : Option RawMessage
deriving DecidableEq, Repr

/-- What `convertQueryInputValueFromDefinition` returns as `interface{}`, for a type `T` of
times: the untyped nil, or the pointer `dst` to a decoded string, time or int. -/
inductive InputValue (T : Type) where
  | null
  | string (s : String)
  | time (t : T)
  | int (i : Int)
deriving DecidableEq, Repr

/-- What the validation of inputs takes from outside the file: the two constants
`ReportingStartInputName` and `ReportingEndInputName` of the package, the function
`strings.ToLower`, and `json.Unmarshal` into a `*string`, a `*time.Time` and an `*int`,
each returning the decoded value or the text of its error. -/
structure InputsEnv (T : Type) where
  ReportingStartInputName : String
  ReportingEndInputName : String
  ToLower : String → String
  unmarshalString : RawMessage → Except String String
  unmarshalTime : RawMessage → Except String T
  unmarshalInt : RawMessage → Except String Int

/-- The function `convertQueryInputValueFromDefinition`. -/
def convertQueryInputValueFromDefinition {T : Type} (env : InputsEnv T)
    (inputVal : ReportGenerationQueryInputValue)
    (inputDef : ReportGenerationQueryInputDefinition) : Except GoError (InputValue T) :=
  match inputVal.Value with
  | none => .ok InputValue.null
  | some raw =>
    let inputType := env.ToLower inputDef.Type_
    let inputType :=
      if inputVal.Name = env.ReportingStartInputName ∨
          inputVal.Name = env.ReportingEndInputName then "time"
      else inputType
    if inputType = "" ∨ inputType = "string" then
      match env.unmarshalString raw with
      | .error err => .error (GoError.inputNotValid inputVal.Name inputType raw err)
      | .ok dst => .ok (InputValue.string dst)
    else if inputType = "time" then
      match env.unmarshalTime raw with
      | .error err => .error (GoError.inputNotValid inputVal.Name inputType raw err)
      | .ok dst => .ok (InputValue.time dst)
    else if inputType = "int" ∨ inputType = "integer" then
      match env.unmarshalInt raw with
      | .error err => .error (GoError.inputNotValid inputVal.Name inputType raw err)
      | .ok dst => .ok (InputValue.int dst)
    else .error (GoError.unsupportedInputType inputType)

/-- The read `m[k]` of a map, if the key is present. -/
def GoMap.find? {V : Type} : GoMap V → String → Option V
  | [], _ => none
  | (k', v) :: t, k => if k' == k then some v else GoMap.find? t k

/-- The zero value of `ReportGenerationQueryInputDefinition`, which reading an absent key
of `inputDefinitions` gives. -/
def zeroInputDefinition : ReportGenerationQueryInputDefinition :=
  { Name := "", Type_ := "", Required := false }

/-- The map `inputDefinitions` after the loop of lines 391-393. -/
def inputDefinitionsOf (generationQuery : ReportGenerationQuery) :
    GoMap ReportGenerationQueryInputDefinition :=
  generationQuery.Spec.Inputs.foldl (fun m inputDef => m.insert inputDef.Name inputDef) []

/-- The read `inputDefinitions[name]`. -/
def inputDefinitionFor (generationQuery : ReportGenerationQuery) (name : String) :
    ReportGenerationQueryInputDefinition :=
  ((inputDefinitionsOf generationQuery).find? name).getD zeroInputDefinition

/-- The loop of lines 395-403 over the remaining supplied values: the map
`reportQueryInputs` and the slice `givenInputs`, unless a conversion fails. -/
def inputsLoop {T : Type} (env : InputsEnv T) (generationQuery : ReportGenerationQuery) :
    List ReportGenerationQueryInputValue → GoMap (InputValue T) → List String →
    Except GoError (GoMap (InputValue T) × List String)
  | [], reportQueryInputs, givenInputs => .ok (reportQueryInputs, givenInputs)
  | inputVal :: rest, reportQueryInputs, givenInputs =>
    let inputDef := inputDefinitionFor generationQuery inputVal.Name
    match convertQueryInputValueFromDefinition env inputVal inputDef with
    | .error err => .error err
    | .ok val =>
      inputsLoop env generationQuery rest (reportQueryInputs.insert inputVal.Name val)
        (givenInputs ++ [inputVal.Name])

/-- The loop of lines 406-415 over the remaining input definitions: the slices
`missingInputs` and `expectedInputs`. -/
def expectedLoop {V : Type} (reportQueryInputs : GoMap V) :
    List ReportGenerationQueryInputDefinition → List String → List String →
    List String × List String
  | [], missingInputs, expectedInputs => (missingInputs, expectedInputs)
  | input :: rest, missingInputs, expectedInputs =>
    if !input.Required then
      expectedLoop reportQueryInputs rest missingInputs (expectedInputs ++ [input.Name])
    else if reportQueryInputs.contains input.Name then
      expectedLoop reportQueryInputs rest missingInputs (expectedInputs ++ [input.Name])
    else
      expectedLoop reportQueryInputs rest (missingInputs ++ [input.Name])
        (expectedInputs ++ [input.Name])

/-- Model of `sort.Strings`. -/
def sortStrings (xs : List String) : List String := sortByName id xs

/-- The function `ValidateReportGenerationQueryInputs`. -/
def ValidateReportGenerationQueryInputs {T : Type} (env : InputsEnv T)
    (generationQuery : ReportGenerationQuery) (inputs : List ReportGenerationQueryInputValue) :
    Except GoError (GoMap (InputValue T)) :=
  match inputsLoop env generationQuery inputs [] [] with
  | .error err => .error err
  | .ok (reportQueryInputs, givenInputs) =>
    match expectedLoop reportQueryInputs generationQuery.Spec.Inputs [] [] with
    | (missingInputs, expectedInputs) =>
      if missingInputs.length != 0 then
        .error (GoError.missingInputs generationQuery.Name (sortStrings expectedInputs)
          (sortStrings givenInputs))
      else .ok reportQueryInputs

/-- The text between the quotes of a raw message that starts and ends with a double quote. -/
def sampleUnquote (raw : RawMessage) : Option String :=
  match raw.toList with
  | '"' :: rest => if rest.getLast? = some '"' then some (String.mk rest.dropLast) else none
  | _ => none

/-- A small environment for the examples: the reserved names are `ReportingStart` and
`ReportingEnd`, letters `A`-`Z` are lowered, a string is a quoted text, a time is a quoted
text of 20 characters (kept as that text), an int is a non-empty run of digits. -/
def sampleInputsEnv : InputsEnv String where
  ReportingStartInputName := "ReportingStart"
  ReportingEndInputName := "ReportingEnd"
  ToLower := fun s => String.mk (s.toList.map Char.toLower)
  unmarshalString := fun raw =>
    match sampleUnquote raw with
    | some s => .ok s
    | none => .error "not a string"
  unmarshalTime := fun raw =>
    match sampleUnquote raw with
    | some s => if s.length = 20 then .ok s else .error "not a time"
    | none => .error "not a time"
  unmarshalInt := fun raw =>
    if raw.toList ≠ [] ∧ raw.toList.all Char.isDigit = true then
      .ok (raw.toList.foldl (fun n c => 10 * n + ((c.toNat : Int) - 48)) 0)
    else .error "not a number"

/-- A query that declares the inputs `defs` and has no refs. -/
def queryWithInputs (defs : List ReportGenerationQueryInputDefinition) :
    ReportGenerationQuery where
  Namespace := "ns"
  Name := "query"
  Spec := { ReportQueries := [], DynamicReportQueries := [], DataSources := [], Reports := [],
            View := { Disabled := false }, Inputs := defs }
  Status := { ViewName := "" }

/-- The names of the supplied values, in order. -/
def suppliedNames (inputs : List ReportGenerationQueryInputValue) : List String :=
  inputs.map ReportGenerationQueryInputValue.Name

/-- The type a non-nil payload is decoded as: `time` for the two reserved names, else the
declared type in lower case. -/
def resolvedInputType {T : Type} (env : InputsEnv T) (name : String)
    (inputDef : ReportGenerationQueryInputDefinition) : String :=
  if name = env.ReportingStartInputName ∨ name = env.ReportingEndInputName then "time"
  else env.ToLower inputDef.Type_

/-- Decoding `raw` as the type `inputType` fails with the error text `err`. -/
def DecodeFails {T : Type} (env : InputsEnv T) (inputType : String) (raw : RawMessage)
    (err : String) : Prop :=
  ((inputType = "" ∨ inputType = "string") ∧ env.unmarshalString raw = .error err) ∨
    (inputType = "time" ∧ env.unmarshalTime raw = .error err) ∨
    ((inputType = "int" ∨ inputType = "integer") ∧ env.unmarshalInt raw = .error err)

/-- A query with a required input `ReportingStart` declared as a string, an input `limit`
declared twice, first as a string and last as an int, and an optional input `note`. -/
def sampleInputsQuery : ReportGenerationQuery :=
  queryWithInputs [⟨"ReportingStart", "string", true⟩, ⟨"limit", "string", false⟩,
    ⟨"limit", "int", false⟩, ⟨"note", "string", false⟩]

/-- Supplied values: a timestamp for `ReportingStart`, a number for the declared input
`limit`, and two strings for the undeclared name `x`; nothing for `note`. -/
def sampleInputs : List ReportGenerationQueryInputValue :=
  [⟨"ReportingStart", some "\"2020-01-01T00:00:00Z\""⟩, ⟨"limit", some "7"⟩,
   ⟨"x", some "\"hello\""⟩, ⟨"x", some "\"bye\""⟩]

/-- The map returned for `sampleInputs`. -/
def sampleInputsResult : GoMap (InputValue String) :=
  [("ReportingStart", InputValue.time "2020-01-01T00:00:00Z"), ("limit", InputValue.int 7),
   ("x", InputValue.string "bye")]

/-- The queries `chain 0` (the root), `chain 1`, ..., `chain n` form a simple chain in the
store: each of the first `n` has a single ref, static or dynamic, which the lookup resolves
to the next one, and the last has no ref. -/
structure SimpleChain (queryGetter : reportGenerationQueryGetter)
    (chain : Nat → ReportGenerationQuery) (n : Nat) : Prop where
  next : ∀ i, i < n → queryRefs (chain i) = [(chain (i + 1)).Name] ∧
    queryGetter (chain i).Namespace (chain (i + 1)).Name = .ok (chain (i + 1))
  last : queryRefs (chain n) = []

/-- The chain of the chain store below `chainRoot`: the query number `i` is named by `i`
letters `q`. -/
def chainNode (i : Nat) : ReportGenerationQuery :=
  if i = 0 then chainRoot
  else mkQuery "ns" (chainName i) (if i < 100 then [chainName (i + 1)] else []) [] [] []

/-! ## Validation with the pointers kept as pointers

`ValidateGenerationQueryDependencies` above works on the objects a dependency set points
to. The code holds pointers, and hands pointers to the hooks, which may write through them
(and to anything else they can reach). The definitions below keep that: objects live in a
memory, a dependency set is slices of addresses, and a hook is a transformer of the whole
memory. -/

/-- The memory: the objects at the addresses of each pointer type, and the rest of the
state that hooks can reach. -/
structure Memory (τ : Type) where
  queries : Nat → ReportGenerationQuery
  dataSources : Nat → ReportDataSource
  reports : Nat → Report
  ext : τ

/-- The struct `ReportGenerationQueryDependencies` as slices of pointers. -/
structure ReportGenerationQueryDependenciesAt where
  ReportGenerationQueries : List Nat
  DynamicReportGenerationQueries : List Nat
  ReportDataSources : List Nat
  Reports : List Nat
deriving DecidableEq, Repr

/-- The objects a dependency set points to in a memory. -/
def Memory.load {τ : Type} (mem : Memory τ) (deps : ReportGenerationQueryDependenciesAt) :
    ReportGenerationQueryDependencies where
  ReportGenerationQueries := deps.ReportGenerationQueries.map mem.queries
  DynamicReportGenerationQueries := deps.DynamicReportGenerationQueries.map mem.queries
  ReportDataSources := deps.ReportDataSources.map mem.dataSources
  Reports := deps.Reports.map mem.reports

/-- The struct `UninitialiedDependendenciesHandler` with hooks that receive a pointer and
may change the memory. -/
structure UninitialiedDependendenciesHandlerAt (τ : Type) where
  HandleUninitializedReportGenerationQuery : Nat → Memory τ → Memory τ
  HandleUninitializedReportDataSource : Nat → Memory τ → Memory τ

/-- The local variables of `ValidateGenerationQueryDependencies`, the two slices holding
pointers. -/
structure validateLocalsAt where
  uninitializedQueries : List Nat
  uninitializedDataSources : List Nat
  validationErr : reportGenerationQueryDependenciesValidationError

/-- Body of the loop of lines 64-77, reading the query behind the pointer. -/
def validateQueryStepAt {τ : Type} (mem : Memory τ) (v : validateLocalsAt) (query : Nat) :
    validateLocalsAt :=
  if (mem.queries query).Spec.View.Disabled then
    { v with validationErr :=
        { v.validationErr with
          disabledViewQueryNames :=
            v.validationErr.disabledViewQueryNames ++ [(mem.queries query).Name] } }
  else if !(mem.queries query).Spec.View.Disabled &&
      (mem.queries query).Status.ViewName == "" then
    { v with
      uninitializedQueries := v.uninitializedQueries ++ [query]
      validationErr :=
        { v.validationErr with
          uninitializedQueryNames :=
            v.validationErr.uninitializedQueryNames ++ [(mem.queries query).Name] } }
  else v

/-- Body of the loop of lines 79-84, reading the data source behind the pointer. -/
def validateDataSourceStepAt {τ : Type} (mem : Memory τ) (v : validateLocalsAt) (ds : Nat) :
    validateLocalsAt :=
  if (mem.dataSources ds).Status.TableName == "" then
    { v with
      uninitializedDataSources := v.uninitializedDataSources ++ [ds]
      validationErr :=
        { v.validationErr with
          uninitializedDataSourceNames :=
            v.validationErr.uninitializedDataSourceNames ++ [(mem.dataSources ds).Name] } }
  else v

/-- Body of the loop of lines 85-89, reading the report behind the pointer. -/
def validateReportStepAt {τ : Type} (mem : Memory τ) (v : validateLocalsAt) (report : Nat) :
    validateLocalsAt :=
  if (mem.reports report).Status.TableName == "" then
    { v with validationErr :=
        { v.validationErr with
          uninitializedReportNames :=
            v.validationErr.uninitializedReportNames ++ [(mem.reports report).Name] } }
  else v

/-- The three classification loops of lines 64-89 on pointers, in source order; they read
the memory and do not change it. -/
def validateClassifyAt {τ : Type} (mem : Memory τ) (deps : ReportGenerationQueryDependenciesAt) :
    validateLocalsAt :=
  let v0 : validateLocalsAt := ⟨[], [], ⟨[], [], [], []⟩⟩
  let v1 := deps.ReportGenerationQueries.foldl (validateQueryStepAt mem) v0
  let v2 := deps.ReportDataSources.foldl (validateDataSourceStepAt mem) v1
  deps.Reports.foldl (validateReportStepAt mem) v2

/-- The hook calls of lines 91-99 on pointers, each hook working on the memory the
previous one left. -/
def validateNotifyAt {τ : Type} (handler : Option (UninitialiedDependendenciesHandlerAt τ))
    (v : validateLocalsAt) (mem : Memory τ) : Memory τ :=
  match handler with
  | none => mem
  | some h =>
    let mem1 := v.uninitializedQueries.foldl
      (fun m query => h.HandleUninitializedReportGenerationQuery query m) mem
    v.uninitializedDataSources.foldl
      (fun m dataSource => h.HandleUninitializedReportDataSource dataSource m) mem1

/-- The function `ValidateGenerationQueryDependencies` on pointers: the returned error and
the memory the hooks leave behind. The slices of `deps` and the objects are read by the
loops of lines 64-89; the hooks of lines 91-99 run on the local slices, which no hook can
reach; the test of lines 101-108 reads the local `validationErr`. -/
def ValidateGenerationQueryDependenciesAt {τ : Type}
    (deps : ReportGenerationQueryDependenciesAt)
    (handler : Option (UninitialiedDependendenciesHandlerAt τ)) (mem : Memory τ) :
    Option GoError × Memory τ :=
  let v := validateClassifyAt mem deps
  let mem' := validateNotifyAt handler v mem
  if v.validationErr.disabledViewQueryNames.length != 0 ||
      v.validationErr.uninitializedQueryNames.length != 0 ||
      v.validationErr.uninitializedDataSourceNames.length != 0 ||
      v.validationErr.uninitializedReportNames.length != 0 ||
      v.validationErr.uninitializedReportNames.length != 0 then
    (some (GoError.validation v.validationErr), mem')
  else (none, mem')

/-- A handler of the object-level model as a handler on pointers: each hook is given the
object behind its pointer and changes only the rest of the state. -/
def UninitialiedDependendenciesHandler.onPointers {σ : Type}
    (h : UninitialiedDependendenciesHandler σ) : UninitialiedDependendenciesHandlerAt σ where
  HandleUninitializedReportGenerationQuery := fun query m =>
    { m with ext := h.HandleUninitializedReportGenerationQuery (m.queries query) m.ext }
  HandleUninitializedReportDataSource := fun dataSource m =>
    { m with ext := h.HandleUninitializedReportDataSource (m.dataSources dataSource) m.ext }

/-- The pointers to the static queries that are uninitialized in the memory `mem`. -/
def uninitializedQueryPointers {τ : Type} (mem : Memory τ)
    (deps : ReportGenerationQueryDependenciesAt) : List Nat :=
  deps.ReportGenerationQueries.filter
    (fun p => (mem.queries p).Spec.View.Disabled = false ∧ (mem.queries p).Status.ViewName = "")

/-- The pointers to the data sources that are uninitialized in the memory `mem`. -/
def uninitializedDataSourcePointers {τ : Type} (mem : Memory τ)
    (deps : ReportGenerationQueryDependenciesAt) : List Nat :=
  deps.ReportDataSources.filter (fun p => (mem.dataSources p).Status.TableName = "")

/-- A memory with, at address 0, an uninitialized query `b`, an uninitialized data source
`d` and an uninitialized report `r`, and an empty trace of hook calls. -/
def sampleMemory : Memory (List HookCall) where
  queries := fun _ =>
    { Namespace := "ns", Name := "b",
      Spec := { ReportQueries := [], DynamicReportQueries := [], DataSources := [],
                Reports := [], View := { Disabled := false }, Inputs := [] },
      Status := { ViewName := "" } }
  dataSources := fun _ => { Namespace := "ns", Name := "d", Status := { TableName := "" } }
  reports := fun _ => { Namespace := "ns", Name := "r", Status := { TableName := "" } }
  ext := []

/-- The dependency set pointing to the three objects of `sampleMemory`. -/
def samplePointers : ReportGenerationQueryDependenciesAt where
  ReportGenerationQueries := [0]
  DynamicReportGenerationQueries := []
  ReportDataSources := [0]
  Reports := [0]

/-- A handler that writes through its pointers: the query hook gives every query a view
name and every data source and report a table name, and both hooks append the object they
find behind their pointer to the trace. -/
def initializingHandler : UninitialiedDependendenciesHandlerAt (List HookCall) where
  HandleUninitializedReportGenerationQuery := fun query m =>
    { queries := fun a => { m.queries a with Status := { ViewName := "view" } }
      dataSources := fun a => { m.dataSources a with Status := { TableName := "table" } }
      reports := fun a => { m.reports a with Status := { TableName := "table" } }
      ext := m.ext ++ [HookCall.HandleUninitializedReportGenerationQuery (m.queries query)] }
  HandleUninitializedReportDataSource := fun dataSource m =>
    { m with
      ext := m.ext ++ [HookCall.HandleUninitializedReportDataSource (m.dataSources dataSource)] }

/-! # Theorems -/

/-! ## Validation: lemmas -/

theorem foldl_validateQueryStep (qs : List ReportGenerationQuery) (v : validateLocals) :
    (qs.foldl validateQueryStep v).validationErr.disabledViewQueryNames =
        v.validationErr.disabledViewQueryNames ++
          (qs.filter (fun q => q.Spec.View.Disabled)).map ReportGenerationQuery.Name ∧
      (qs.foldl validateQueryStep v).validationErr.uninitializedQueryNames =
        v.validationErr.uninitializedQueryNames ++
          (qs.filter (fun q => q.Spec.View.Disabled = false ∧ q.Status.ViewName = "")).map
            ReportGenerationQuery.Name ∧
      (qs.foldl validateQueryStep v).uninitializedQueries =
        v.uninitializedQueries ++
          qs.filter (fun q => q.Spec.View.Disabled = false ∧ q.Status.ViewName = "") ∧
      (qs.foldl validateQueryStep v).validationErr.uninitializedDataSourceNames =
        v.validationErr.uninitializedDataSourceNames ∧
      (qs.foldl validateQueryStep v).validationErr.uninitializedReportNames =
        v.validationErr.uninitializedReportNames ∧
      (qs.foldl validateQueryStep v).uninitializedDataSources = v.uninitializedDataSources := by
  induction qs generalizing v with
  | nil => simp
  | cons q qs ih =>
    rw [List.foldl_cons]
    obtain ⟨h1, h2, h3, h4, h5, h6⟩ := ih (validateQueryStep v q)
    rw [h1, h2, h3, h4, h5, h6]
    by_cases hd : q.Spec.View.Disabled = true
    · simp [validateQueryStep, hd]
    · have hd' : q.Spec.View.Disabled = false := by simpa using hd
      by_cases hv : q.Status.ViewName = ""
      · simp [validateQueryStep, hd', hv]
      · simp [validateQueryStep, hd', hv]

theorem foldl_validateDataSourceStep (ds : List ReportDataSource) (v : validateLocals) :
    (ds.foldl validateDataSourceStep v).validationErr.disabledViewQueryNames =
        v.validationErr.disabledViewQueryNames ∧
      (ds.foldl validateDataSourceStep v).validationErr.uninitializedQueryNames =
        v.validationErr.uninitializedQueryNames ∧
      (ds.foldl validateDataSourceStep v).uninitializedQueries = v.uninitializedQueries ∧
      (ds.foldl validateDataSourceStep v).validationErr.uninitializedDataSourceNames =
        v.validationErr.uninitializedDataSourceNames ++
          (ds.filter (fun d => d.Status.TableName = "")).map ReportDataSource.Name ∧
      (ds.foldl validateDataSourceStep v).validationErr.uninitializedReportNames =
        v.validationErr.uninitializedReportNames ∧
      (ds.foldl validateDataSourceStep v).uninitializedDataSources =
        v.uninitializedDataSources ++ ds.filter (fun d => d.Status.TableName = "") := by
  induction ds generalizing v with
  | nil => simp
  | cons d ds ih =>
    rw [List.foldl_cons]
    obtain ⟨h1, h2, h3, h4, h5, h6⟩ := ih (validateDataSourceStep v d)
    rw [h1, h2, h3, h4, h5, h6]
    by_cases ht : d.Status.TableName = ""
    · simp [validateDataSourceStep, ht]
    · simp [validateDataSourceStep, ht]

theorem foldl_validateReportStep (rs : List Report) (v : validateLocals) :
    (rs.foldl validateReportStep v).validationErr.disabledViewQueryNames =
        v.validationErr.disabledViewQueryNames ∧
      (rs.foldl validateReportStep v).validationErr.uninitializedQueryNames =
        v.validationErr.uninitializedQueryNames ∧
      (rs.foldl validateReportStep v).uninitializedQueries = v.uninitializedQueries ∧
      (rs.foldl validateReportStep v).validationErr.uninitializedDataSourceNames =
        v.validationErr.uninitializedDataSourceNames ∧
      (rs.foldl validateReportStep v).validationErr.uninitializedReportNames =
        v.validationErr.uninitializedReportNames ++
          (rs.filter (fun r => r.Status.TableName = "")).map Report.Name ∧
      (rs.foldl validateReportStep v).uninitializedDataSources = v.uninitializedDataSources := by
  induction rs generalizing v with
  | nil => simp
  | cons r rs ih =>
    rw [List.foldl_cons]
    obtain ⟨h1, h2, h3, h4, h5, h6⟩ := ih (validateReportStep v r)
    rw [h1, h2, h3, h4, h5, h6]
    by_cases ht : r.Status.TableName = ""
    · simp [validateReportStep, ht]
    · simp [validateReportStep, ht]

/-- The error value the classification loops build is the expected classification. -/
theorem validateClassify_validationErr (deps : ReportGenerationQueryDependencies) :
    (validateClassify deps).validationErr = expectedClassification deps := by
  obtain ⟨a1, a2, _, a4, a5, _⟩ := foldl_validateQueryStep deps.ReportGenerationQueries
    ⟨[], [], ⟨[], [], [], []⟩⟩
  obtain ⟨b1, b2, _, b4, b5, _⟩ := foldl_validateDataSourceStep deps.ReportDataSources
    (deps.ReportGenerationQueries.foldl validateQueryStep ⟨[], [], ⟨[], [], [], []⟩⟩)
  obtain ⟨c1, c2, _, c4, c5, _⟩ := foldl_validateReportStep deps.Reports
    (deps.ReportDataSources.foldl validateDataSourceStep
      (deps.ReportGenerationQueries.foldl validateQueryStep ⟨[], [], ⟨[], [], [], []⟩⟩))
  have e : ∀ x y : reportGenerationQueryDependenciesValidationError,
      x.uninitializedQueryNames = y.uninitializedQueryNames →
      x.disabledViewQueryNames = y.disabledViewQueryNames →
      x.uninitializedDataSourceNames = y.uninitializedDataSourceNames →
      x.uninitializedReportNames = y.uninitializedReportNames → x = y := by
    intro x y h1 h2 h3 h4
    cases x; cases y; simp_all
  apply e
  · simp only [validateClassify]; rw [c2, b2, a2]; simp [expectedClassification]
  · simp only [validateClassify]; rw [c1, b1, a1]; simp [expectedClassification]
  · simp only [validateClassify]; rw [c4, b4, a4]; simp [expectedClassification]
  · simp only [validateClassify]; rw [c5, b5, a5]; simp [expectedClassification]

/-- The queries and data sources handed to the hooks are the uninitialized ones, in
sequence order. -/
theorem validateClassify_uninitialized (deps : ReportGenerationQueryDependencies) :
    (validateClassify deps).uninitializedQueries =
        deps.ReportGenerationQueries.filter
          (fun q => q.Spec.View.Disabled = false ∧ q.Status.ViewName = "") ∧
      (validateClassify deps).uninitializedDataSources =
        deps.ReportDataSources.filter (fun d => d.Status.TableName = "") := by
  obtain ⟨_, _, a3, _, _, a6⟩ := foldl_validateQueryStep deps.ReportGenerationQueries
    ⟨[], [], ⟨[], [], [], []⟩⟩
  obtain ⟨_, _, b3, _, _, b6⟩ := foldl_validateDataSourceStep deps.ReportDataSources
    (deps.ReportGenerationQueries.foldl validateQueryStep ⟨[], [], ⟨[], [], [], []⟩⟩)
  obtain ⟨_, _, c3, _, _, c6⟩ := foldl_validateReportStep deps.Reports
    (deps.ReportDataSources.foldl validateDataSourceStep
      (deps.ReportGenerationQueries.foldl validateQueryStep ⟨[], [], ⟨[], [], [], []⟩⟩))
  constructor
  · simp only [validateClassify]; rw [c3, b3, a3]; simp
  · simp only [validateClassify]; rw [c6, b6, a6]; simp

/-- The returned error in terms of the classification the loops build. -/
theorem validate_fst {σ : Type} (deps : ReportGenerationQueryDependencies)
    (handler : Option (UninitialiedDependendenciesHandler σ)) (s : σ) :
    (ValidateGenerationQueryDependencies deps handler s).1 =
      if (expectedClassification deps).disabledViewQueryNames = [] ∧
          (expectedClassification deps).uninitializedQueryNames = [] ∧
          (expectedClassification deps).uninitializedDataSourceNames = [] ∧
          (expectedClassification deps).uninitializedReportNames = [] then none
      else some (GoError.validation (expectedClassification deps)) := by
  unfold ValidateGenerationQueryDependencies
  simp only [validateClassify_validationErr]
  by_cases h : (expectedClassification deps).disabledViewQueryNames = [] ∧
      (expectedClassification deps).uninitializedQueryNames = [] ∧
      (expectedClassification deps).uninitializedDataSourceNames = [] ∧
      (expectedClassification deps).uninitializedReportNames = []
  · obtain ⟨h1, h2, h3, h4⟩ := h
    simp [h1, h2, h3, h4]
  · rw [if_neg h]
    have : ((expectedClassification deps).disabledViewQueryNames.length != 0 ||
        (expectedClassification deps).uninitializedQueryNames.length != 0 ||
        (expectedClassification deps).uninitializedDataSourceNames.length != 0 ||
        (expectedClassification deps).uninitializedReportNames.length != 0 ||
        (expectedClassification deps).uninitializedReportNames.length != 0) = true := by
      by_contra hc
      apply h
      simp only [bne_iff_ne, ne_eq, Bool.or_eq_true, decide_eq_true_eq, not_or, not_not,
        List.length_eq_zero] at hc
      tauto
    rw [if_pos this]

/-- C8. Classification is exact: for every dependency set, every handler (present or
absent) and every initial hook state, the error returned by
`ValidateGenerationQueryDependencies` is `nil` iff the four name lists of the
specification (disabled static queries; static queries that are not disabled and have an
empty view name; data sources with an empty table name; reports with an empty table name;
each in sequence order) are all empty, and otherwise it is one validation error carrying
exactly these four lists. A disabled query is never listed as uninitialized. -/
theorem C8_classification_exact {σ : Type} (deps : ReportGenerationQueryDependencies)
    (handler : Option (UninitialiedDependendenciesHandler σ)) (s : σ) :
    ((ValidateGenerationQueryDependencies deps handler s).1 = none ↔
        ((expectedClassification deps).disabledViewQueryNames = [] ∧
          (expectedClassification deps).uninitializedQueryNames = [] ∧
          (expectedClassification deps).uninitializedDataSourceNames = [] ∧
          (expectedClassification deps).uninitializedReportNames = [])) ∧
      ((ValidateGenerationQueryDependencies deps handler s).1 ≠ none →
        (ValidateGenerationQueryDependencies deps handler s).1 =
          some (GoError.validation (expectedClassification deps))) ∧
      (∀ q ∈ deps.ReportGenerationQueries, q.Spec.View.Disabled = true →
        q ∉ deps.ReportGenerationQueries.filter
          (fun q => q.Spec.View.Disabled = false ∧ q.Status.ViewName = "")) := by
  rw [validate_fst]
  refine ⟨?_, ?_, ?_⟩
  · split <;> simp_all
  · split <;> simp_all
  · intro q _ hd hmem
    simp [hd] at hmem

/-- C9, as stated, fails: the dependency set `depsDisabledStatic`, whose single static
query has a disabled view, satisfies the hypothesis "disabled or non-empty view name" (and
has no data source and no report), yet validation returns an error that lists the query
as a disabled-view dependency. -/
theorem C9_counterexample :
    (∀ q ∈ depsDisabledStatic.ReportGenerationQueries,
        q.Spec.View.Disabled = true ∨ q.Status.ViewName ≠ "") ∧
      (∀ d ∈ depsDisabledStatic.ReportDataSources, d.Status.TableName ≠ "") ∧
      (∀ r ∈ depsDisabledStatic.Reports, r.Status.TableName ≠ "") ∧
      (ValidateGenerationQueryDependencies depsDisabledStatic
          (none : Option (UninitialiedDependendenciesHandler Unit)) ()).1 =
        some (GoError.validation
          { uninitializedQueryNames := [], disabledViewQueryNames := ["a"],
            uninitializedDataSourceNames := [], uninitializedReportNames := [] }) := by
  refine ⟨by decide, by decide, by decide, by decide⟩

/-- C9, amended. If every static query has an enabled view (`View.Disabled` false) and a
non-empty view name, and every data source and every report has a non-empty table name,
then `ValidateGenerationQueryDependencies` returns `nil`, for any handler. -/
theorem C9_all_initialized_validates {σ : Type} (deps : ReportGenerationQueryDependencies)
    (handler : Option (UninitialiedDependendenciesHandler σ)) (s : σ)
    (hq : ∀ q ∈ deps.ReportGenerationQueries,
      q.Spec.View.Disabled = false ∧ q.Status.ViewName ≠ "")
    (hd : ∀ d ∈ deps.ReportDataSources, d.Status.TableName ≠ "")
    (hr : ∀ r ∈ deps.Reports, r.Status.TableName ≠ "") :
    (ValidateGenerationQueryDependencies deps handler s).1 = none := by
  rw [validate_fst, if_pos]
  simp only [expectedClassification, List.map_eq_nil_iff, List.filter_eq_nil_iff]
  refine ⟨?_, ?_, ?_, ?_⟩
  · intro q hmem; simp [(hq q hmem).1]
  · intro q hmem; simp [(hq q hmem).2]
  · intro d hmem; simpa using hd d hmem
  · intro r hmem; simpa using hr r hmem

/-- Witness for C9 (amended): a set with an initialized static query, a disabled dynamic
query, an initialized data source and report. -/
theorem C9_all_initialized_validates_witness :
    (∀ q ∈ depsAllInitialized.ReportGenerationQueries,
        q.Spec.View.Disabled = false ∧ q.Status.ViewName ≠ "") ∧
      (ValidateGenerationQueryDependencies depsAllInitialized
        (none : Option (UninitialiedDependendenciesHandler Unit)) ()).1 = none :=
  ⟨by decide, C9_all_initialized_validates depsAllInitialized none () (by decide) (by decide)
    (by decide)⟩

/-- C10. Invalid-dependency predicate: `IsInvalidDependencyError` of the validation result
is true iff some static query has a disabled view; the dynamic sequence never changes the
validation result (so a disabled query listed only there never makes the predicate true);
and the predicate is false for `nil` and for every error that is not a validation error. -/
theorem C10_invalid_dependency_predicate {σ : Type} (deps : ReportGenerationQueryDependencies)
    (handler : Option (UninitialiedDependendenciesHandler σ)) (s : σ) :
    (IsInvalidDependencyError (ValidateGenerationQueryDependencies deps handler s).1 = true ↔
        ∃ q ∈ deps.ReportGenerationQueries, q.Spec.View.Disabled = true) ∧
      (∀ dyn : List ReportGenerationQuery,
        ValidateGenerationQueryDependencies
            { deps with DynamicReportGenerationQueries := dyn } handler s =
          ValidateGenerationQueryDependencies deps handler s) ∧
      IsInvalidDependencyError none = false ∧
      (∀ e : GoError, (∀ v, e ≠ GoError.validation v) →
        IsInvalidDependencyError (some e) = false) := by
  refine ⟨?_, ?_, rfl, ?_⟩
  · rw [validate_fst]
    split
    · rename_i h
      have h1 := h.1
      simp only [expectedClassification, List.map_eq_nil_iff, List.filter_eq_nil_iff] at h1
      simp only [IsInvalidDependencyError]
      constructor
      · intro hc; cases hc
      · rintro ⟨q, hq, hd⟩
        exact absurd hd (h1 q hq)
    · simp only [IsInvalidDependencyError, expectedClassification, bne_iff_ne, ne_eq,
        List.length_eq_zero, List.map_eq_nil_iff, List.filter_eq_nil_iff]
      constructor
      · intro hc
        by_contra hne
        apply hc
        intro q hq hd
        exact hne ⟨q, hq, hd⟩
      · rintro ⟨q, hq, hd⟩ hall
        exact hall q hq hd
  · intro dyn
    rfl
  · intro e he
    cases e <;> first | rfl | exact absurd rfl (he _)

/-! ## Go maps: lemmas -/

theorem GoMap.contains_iff {V : Type} (m : GoMap V) (k : String) :
    m.contains k = true ↔ k ∈ m.keys := by
  simp only [GoMap.contains, GoMap.keys, List.any_eq_true, beq_iff_eq, List.mem_map]

theorem GoMap.mem_keys_of_mem {V : Type} {m : GoMap V} {k : String} {v : V}
    (h : (k, v) ∈ m) : k ∈ m.keys :=
  List.mem_map.2 ⟨(k, v), h, rfl⟩

theorem GoMap.exists_of_mem_keys {V : Type} {m : GoMap V} {k : String} (h : k ∈ m.keys) :
    ∃ v, (k, v) ∈ m := by
  obtain ⟨⟨k', v⟩, he, rfl⟩ := List.mem_map.1 h
  exact ⟨v, he⟩

theorem GoMap.mem_insert_self {V : Type} (m : GoMap V) (k : String) (v : V) :
    (k, v) ∈ m.insert k v := by
  induction m with
  | nil => simp [GoMap.insert]
  | cons e t ih =>
    obtain ⟨k', v'⟩ := e
    by_cases h : k' = k
    · simp [GoMap.insert, h]
    · simp only [GoMap.insert, beq_iff_eq, h, if_false, List.mem_cons]
      exact Or.inr ih

theorem GoMap.mem_insert_of_mem {V : Type} {m : GoMap V} {k k' : String} {v v' : V}
    (h : (k', v') ∈ m) (hne : k' ≠ k) : (k', v') ∈ m.insert k v := by
  induction m with
  | nil => cases h
  | cons e t ih =>
    obtain ⟨k1, v1⟩ := e
    by_cases h1 : k1 = k
    · subst h1
      simp only [GoMap.insert, beq_self_eq_true, if_true, List.mem_cons]
      rcases List.mem_cons.1 h with h2 | h2
      · exact absurd (congrArg Prod.fst h2) hne
      · exact Or.inr h2
    · simp only [GoMap.insert, beq_iff_eq, h1, if_false, List.mem_cons]
      rcases List.mem_cons.1 h with h2 | h2
      · exact Or.inl h2
      · exact Or.inr (ih h2)

theorem GoMap.of_mem_insert {V : Type} {m : GoMap V} {k k' : String} {v v' : V}
    (h : (k', v') ∈ m.insert k v) : (k' = k ∧ v' = v) ∨ (k', v') ∈ m := by
  induction m with
  | nil =>
    simp only [GoMap.insert, List.mem_singleton, Prod.mk.injEq] at h
    exact Or.inl h
  | cons e t ih =>
    obtain ⟨k1, v1⟩ := e
    by_cases h1 : k1 = k
    · subst h1
      simp only [GoMap.insert, beq_self_eq_true, if_true, List.mem_cons, Prod.mk.injEq] at h
      rcases h with h2 | h2
      · exact Or.inl h2
      · exact Or.inr (List.mem_cons_of_mem _ h2)
    · simp only [GoMap.insert, beq_iff_eq, h1, if_false, List.mem_cons] at h
      rcases h with h2 | h2
      · exact Or.inr (by rw [h2]; exact List.mem_cons_self _ _)
      · rcases ih h2 with h3 | h3
        · exact Or.inl h3
        · exact Or.inr (List.mem_cons_of_mem _ h3)

theorem GoMap.mem_keys_insert {V : Type} (m : GoMap V) (k k' : String) (v : V) :
    k' ∈ (m.insert k v).keys ↔ k' = k ∨ k' ∈ m.keys := by
  constructor
  · intro h
    obtain ⟨v', hv'⟩ := GoMap.exists_of_mem_keys h
    rcases GoMap.of_mem_insert hv' with h1 | h1
    · exact Or.inl h1.1
    · exact Or.inr (GoMap.mem_keys_of_mem h1)
  · rintro (h | h)
    · subst h; exact GoMap.mem_keys_of_mem (GoMap.mem_insert_self m k' v)
    · by_cases hk : k' = k
      · subst hk; exact GoMap.mem_keys_of_mem (GoMap.mem_insert_self m k' v)
      · obtain ⟨v', hv'⟩ := GoMap.exists_of_mem_keys h
        exact GoMap.mem_keys_of_mem (GoMap.mem_insert_of_mem hv' hk)

theorem GoMap.nodup_keys_insert {V : Type} (m : GoMap V) (k : String) (v : V)
    (h : m.keys.Nodup) : (m.insert k v).keys.Nodup := by
  induction m with
  | nil => simp [GoMap.insert, GoMap.keys]
  | cons e t ih =>
    obtain ⟨k1, v1⟩ := e
    have ht : GoMap.keys t = List.map Prod.fst t := rfl
    simp only [GoMap.keys, List.map_cons, List.nodup_cons] at h
    by_cases h1 : k1 = k
    · subst h1
      simp only [GoMap.insert, beq_self_eq_true, if_true, GoMap.keys, List.map_cons,
        List.nodup_cons]
      exact h
    · simp only [GoMap.insert, beq_iff_eq, h1, if_false, GoMap.keys, List.map_cons,
        List.nodup_cons]
      refine ⟨?_, ih h.2⟩
      intro hmem
      rcases (GoMap.mem_keys_insert t k k1 v).1 hmem with h2 | h2
      · exact h1 h2
      · exact h.1 h2

theorem GoMap.keyedByName_nil {V : Type} (name : V → String) :
    GoMap.KeyedByName name ([] : GoMap V) :=
  ⟨List.nodup_nil, fun _ _ h => by cases h⟩

theorem GoMap.KeyedByName.insert {V : Type} {name : V → String} {m : GoMap V}
    (h : GoMap.KeyedByName name m) (v : V) : GoMap.KeyedByName name (m.insert (name v) v) := by
  refine ⟨GoMap.nodup_keys_insert m _ v h.1, ?_⟩
  intro k' v' hmem
  rcases GoMap.of_mem_insert hmem with h1 | h1
  · rw [h1.1, h1.2]
  · exact h.2 k' v' h1

theorem GoMap.KeyedByName.map_name_values {V : Type} {name : V → String} {m : GoMap V}
    (h : GoMap.KeyedByName name m) : m.values.map name = m.keys := by
  simp only [GoMap.values, GoMap.keys, List.map_map]
  apply List.map_congr_left
  rintro ⟨k, v⟩ hmem
  exact h.2 k v hmem

theorem GoMap.KeyedByName.nodup_names {V : Type} {name : V → String} {m : GoMap V}
    (h : GoMap.KeyedByName name m) : (m.values.map name).Nodup := by
  rw [h.map_name_values]; exact h.1

/-! ## Sorting: lemmas -/

theorem nameLess_iff (a b : String) : nameLess a b = true ↔ a < b := by
  simp [nameLess, String.lt_iff_toList_lt]

theorem nameLess_eq_false_iff (a b : String) : nameLess a b = false ↔ b ≤ a := by
  rw [← not_lt, ← nameLess_iff, Bool.not_eq_true]

theorem sortByName_perm {α : Type} (name : α → String) (xs : List α) :
    (sortByName name xs).Perm xs :=
  List.perm_insertionSort _ xs

theorem mem_sortByName {α : Type} (name : α → String) (xs : List α) (x : α) :
    x ∈ sortByName name xs ↔ x ∈ xs :=
  (sortByName_perm name xs).mem_iff

theorem sortByName_sorted {α : Type} (name : α → String) (xs : List α) :
    (sortByName name xs).Pairwise (fun a b => name a ≤ name b) := by
  have tot : IsTotal α (fun a b => nameLess (name b) (name a) = false) :=
    ⟨fun a b => by
      simp only [nameLess_eq_false_iff]
      exact le_total (name a) (name b)⟩
  have tr : IsTrans α (fun a b => nameLess (name b) (name a) = false) :=
    ⟨fun a b c h1 h2 => by
      simp only [nameLess_eq_false_iff] at h1 h2 ⊢
      exact le_trans h1 h2⟩
  have h := List.sorted_insertionSort (fun a b => nameLess (name b) (name a) = false) xs
  exact List.Pairwise.imp (fun h => (nameLess_eq_false_iff _ _).1 h) h

theorem sortByName_strict {α : Type} (name : α → String) (xs : List α)
    (hnd : (xs.map name).Nodup) :
    (sortByName name xs).Pairwise (fun a b => name a < name b) := by
  have hs := sortByName_sorted name xs
  have hnd' : ((sortByName name xs).map name).Nodup :=
    ((sortByName_perm name xs).map name).nodup_iff.2 hnd
  rw [List.Nodup, List.pairwise_map] at hnd'
  exact (hs.and hnd').imp (fun h => lt_of_le_of_ne h.1 h.2)

/-- A strictly sorted list has no two entries with the same name. -/
theorem nodup_names_of_strict {α : Type} (name : α → String) (xs : List α)
    (h : xs.Pairwise (fun a b => name a < name b)) : (xs.map name).Nodup := by
  rw [List.Nodup, List.pairwise_map]
  exact h.imp (fun h => ne_of_lt h)

/-- Two lists strictly sorted by name with the same members are equal. -/
theorem eq_of_strict_of_mem_iff {α : Type} (name : α → String) (xs ys : List α)
    (hx : xs.Pairwise (fun a b => name a < name b))
    (hy : ys.Pairwise (fun a b => name a < name b))
    (h : ∀ a, a ∈ xs ↔ a ∈ ys) : xs = ys := by
  have hxn : xs.Nodup := (nodup_names_of_strict name xs hx).of_map name
  have hyn : ys.Nodup := (nodup_names_of_strict name ys hy).of_map name
  have hp : xs.Perm ys := (List.perm_ext_iff_of_nodup hxn hyn).2 h
  have hasym : IsAntisymm α (fun a b => name a < name b) :=
    ⟨fun a b h1 h2 => absurd h1 (lt_asymm h2)⟩
  exact List.eq_of_perm_of_sorted hp hx hy

/-! ## Accumulators: lemmas -/

theorem Accumulators.Le.refl (a : Accumulators) : a.Le a :=
  ⟨fun _ _ h => h, fun _ h => h⟩

theorem Accumulators.Le.trans {a b c : Accumulators} (h1 : a.Le b) (h2 : b.Le c) : a.Le c :=
  ⟨fun dyn k h => h2.1 dyn k (h1.1 dyn k h), fun k h => h2.2 k (h1.2 k h)⟩

theorem Accumulators.Resolves.mono {a b : Accumulators} {g : ReportGenerationQuery}
    (h : a.Resolves g) (hle : a.Le b) : b.Resolves g :=
  fun dyn n hn => hle.1 dyn n (h dyn n hn)

theorem Accumulators.accum_setAccum_same (a : Accumulators) (dyn : Bool) (k : String)
    (v : ReportGenerationQuery) :
    (a.setAccum dyn k v).accum dyn = (a.accum dyn).insert k v := by
  cases dyn <;> simp [Accumulators.setAccum, Accumulators.accum]

theorem Accumulators.accum_setAccum_other (a : Accumulators) (dyn dyn' : Bool) (k : String)
    (v : ReportGenerationQuery) (h : dyn' ≠ dyn) :
    (a.setAccum dyn k v).accum dyn' = a.accum dyn' := by
  cases dyn <;> cases dyn' <;> simp_all [Accumulators.setAccum, Accumulators.accum]

theorem Accumulators.dataSourceAccumulator_setAccum (a : Accumulators) (dyn : Bool)
    (k : String) (v : ReportGenerationQuery) :
    (a.setAccum dyn k v).dataSourceAccumulator = a.dataSourceAccumulator := by
  cases dyn <;> simp [Accumulators.setAccum]

theorem Accumulators.of_mem_accum_setAccum {a : Accumulators} {dyn dyn' : Bool}
    {k k' : String} {v v' : ReportGenerationQuery}
    (h : (k', v') ∈ (a.setAccum dyn k v).accum dyn') :
    (dyn' = dyn ∧ k' = k ∧ v' = v) ∨ (k', v') ∈ a.accum dyn' := by
  by_cases hd : dyn' = dyn
  · subst hd
    rw [Accumulators.accum_setAccum_same] at h
    rcases GoMap.of_mem_insert h with h1 | h1
    · exact Or.inl ⟨rfl, h1⟩
    · exact Or.inr h1
  · rw [Accumulators.accum_setAccum_other a dyn dyn' k v hd] at h
    exact Or.inr h

theorem Accumulators.le_setAccum (a : Accumulators) (dyn : Bool) (k : String)
    (v : ReportGenerationQuery) : a.Le (a.setAccum dyn k v) := by
  refine ⟨?_, ?_⟩
  · intro dyn' k' h
    by_cases hd : dyn' = dyn
    · subst hd
      rw [Accumulators.accum_setAccum_same]
      exact (GoMap.mem_keys_insert _ k k' v).2 (Or.inr h)
    · rw [Accumulators.accum_setAccum_other a dyn dyn' k v hd]; exact h
  · intro k' h
    rw [Accumulators.dataSourceAccumulator_setAccum]; exact h

theorem Accumulators.mem_keys_setAccum_self (a : Accumulators) (dyn : Bool) (k : String)
    (v : ReportGenerationQuery) : k ∈ ((a.setAccum dyn k v).accum dyn).keys := by
  rw [Accumulators.accum_setAccum_same]
  exact (GoMap.mem_keys_insert _ k k v).2 (Or.inl rfl)

/-! ## Reference graph: lemmas -/

theorem mem_queryRefs_of_mem_kindRefs {dyn : Bool} {q : ReportGenerationQuery} {n : String}
    (h : n ∈ kindRefs dyn q) : n ∈ queryRefs q := by
  cases dyn
  · exact List.mem_append_left _ h
  · exact List.mem_append_right _ h

theorem exists_kindRefs_of_mem_queryRefs {q : ReportGenerationQuery} {n : String}
    (h : n ∈ queryRefs q) : ∃ dyn, n ∈ kindRefs dyn q := by
  rcases List.mem_append.1 h with h1 | h1
  · exact ⟨false, h1⟩
  · exact ⟨true, h1⟩

theorem Step.target_namespace {queryGetter : reportGenerationQueryGetter}
    (hf : FaithfulQueryGetter queryGetter) {q g : ReportGenerationQuery}
    (h : Step queryGetter q g) : g.Namespace = q.Namespace := by
  obtain ⟨n, _, hn⟩ := h
  exact (hf _ _ _ hn).1

theorem ReachableOrRoot.namespace_eq {queryGetter : reportGenerationQueryGetter}
    (hf : FaithfulQueryGetter queryGetter) {root q : ReportGenerationQuery}
    (h : ReachableOrRoot queryGetter root q) : q.Namespace = root.Namespace := by
  induction h with
  | refl => rfl
  | tail _ hs ih => rw [Step.target_namespace hf hs, ih]

theorem Reachable.reachableOrRoot {queryGetter : reportGenerationQueryGetter}
    {root q : ReportGenerationQuery} (h : Reachable queryGetter root q) :
    ReachableOrRoot queryGetter root q :=
  Relation.TransGen.to_reflTransGen h

theorem ReachableOrRoot.step {queryGetter : reportGenerationQueryGetter}
    {root q g : ReportGenerationQuery} (h : ReachableOrRoot queryGetter root q)
    (hs : Step queryGetter q g) : Reachable queryGetter root g :=
  Relation.TransGen.tail' h hs

/-! ## The data source loop -/

theorem dataSourcesLoop_keyedByName (dataSourceGetter : reportDataSourceGetter) (ns : String) :
    ∀ (names : List String) (acc acc' : GoMap ReportDataSource),
      GoMap.KeyedByName ReportDataSource.Name acc →
      dataSourcesLoop dataSourceGetter ns names acc = .ok acc' →
      GoMap.KeyedByName ReportDataSource.Name acc' := by
  intro names
  induction names with
  | nil =>
    intro acc acc' hk h
    simp only [dataSourcesLoop, Except.ok.injEq] at h
    exact h ▸ hk
  | cons n rest ih =>
    intro acc acc' hk h
    unfold dataSourcesLoop at h
    split at h
    · exact ih acc acc' hk h
    · split at h
      · cases h
      · exact ih _ acc' (hk.insert _) h

/-- Under a faithful lookup the loop keeps every entry equal to the lookup of its key,
keeps every key inside a set `Src` that holds the names it is run on, never drops a key,
and ends with all the names it was run on among the keys. -/
theorem dataSourcesLoop_spec {dataSourceGetter : reportDataSourceGetter}
    (hf : FaithfulDataSourceGetter dataSourceGetter) (ns : String) (Src : String → Prop) :
    ∀ (names : List String) (acc acc' : GoMap ReportDataSource),
      (∀ n ∈ names, Src n) →
      (∀ k d, (k, d) ∈ acc → dataSourceGetter ns k = .ok d ∧ Src k) →
      dataSourcesLoop dataSourceGetter ns names acc = .ok acc' →
      (∀ k d, (k, d) ∈ acc' → dataSourceGetter ns k = .ok d ∧ Src k) ∧
        (∀ k, k ∈ acc.keys → k ∈ acc'.keys) ∧ (∀ n ∈ names, n ∈ acc'.keys) := by
  intro names
  induction names with
  | nil =>
    intro acc acc' _ hacc h
    simp only [dataSourcesLoop, Except.ok.injEq] at h
    subst h
    exact ⟨hacc, fun _ h => h, fun _ h => by cases h⟩
  | cons n rest ih =>
    intro acc acc' hsrc hacc h
    unfold dataSourcesLoop at h
    have hrest : ∀ m ∈ rest, Src m := fun m hm => hsrc m (List.mem_cons_of_mem _ hm)
    split at h
    · rename_i hc
      obtain ⟨h1, h2, h3⟩ := ih acc acc' hrest hacc h
      refine ⟨h1, h2, ?_⟩
      intro m hm
      rcases List.mem_cons.1 hm with rfl | hm
      · exact h2 _ ((GoMap.contains_iff acc _).1 hc)
      · exact h3 m hm
    · split at h
      · cases h
      · rename_i d hd
        have hname : d.Name = n := (hf _ _ _ hd).2
        have hacc' : ∀ k d', (k, d') ∈ acc.insert d.Name d →
            dataSourceGetter ns k = .ok d' ∧ Src k := by
          intro k d' hmem
          rcases GoMap.of_mem_insert hmem with h1 | h1
          · rw [h1.1, h1.2, hname]
            exact ⟨hd, hsrc n (List.mem_cons_self _ _)⟩
          · exact hacc k d' h1
        obtain ⟨h1, h2, h3⟩ := ih _ acc' hrest hacc' h
        refine ⟨h1, ?_, ?_⟩
        · intro k hk
          exact h2 k ((GoMap.mem_keys_insert acc d.Name k d).2 (Or.inr hk))
        · intro m hm
          rcases List.mem_cons.1 hm with rfl | hm
          · exact h2 _ ((GoMap.mem_keys_insert acc d.Name _ d).2 (Or.inl hname.symm))
          · exact h3 m hm

/-- The loop succeeds when every name it is run on can be looked up. -/
theorem dataSourcesLoop_ok (dataSourceGetter : reportDataSourceGetter) (ns : String) :
    ∀ (names : List String) (acc : GoMap ReportDataSource),
      (∀ n ∈ names, ∃ d, dataSourceGetter ns n = .ok d) →
      ∃ acc', dataSourcesLoop dataSourceGetter ns names acc = .ok acc' := by
  intro names
  induction names with
  | nil => intro acc _; exact ⟨acc, rfl⟩
  | cons n rest ih =>
    intro acc hall
    have hrest : ∀ m ∈ rest, ∃ d, dataSourceGetter ns m = .ok d :=
      fun m hm => hall m (List.mem_cons_of_mem _ hm)
    obtain ⟨d, hd⟩ := hall n (List.mem_cons_self _ _)
    unfold dataSourcesLoop
    split
    · exact ih acc hrest
    · rw [hd]
      exact ih _ hrest

/-! ## The traversal invariant -/

theorem Accumulators.inv_empty (queryGetter : reportGenerationQueryGetter)
    (dataSourceGetter : reportDataSourceGetter) (root : ReportGenerationQuery) :
    Accumulators.Inv queryGetter dataSourceGetter root ⟨[], [], []⟩ where
  query_lookup := by intro dyn k v h; cases dyn <;> cases h
  query_source := by intro dyn k v h; cases dyn <;> cases h
  closed := by intro dyn k v h; cases dyn <;> cases h
  ds_lookup := by intro k d h; cases h
  ranked := ⟨fun _ => 0, by intro dyn k v h; cases dyn <;> cases h⟩

/-- Replacing the data source accumulator by a larger one with good entries keeps the
invariant. -/
theorem Accumulators.Inv.withDataSources {queryGetter : reportGenerationQueryGetter}
    {dataSourceGetter : reportDataSourceGetter} {root : ReportGenerationQuery}
    {a : Accumulators} (hinv : a.Inv queryGetter dataSourceGetter root)
    (ds : GoMap ReportDataSource)
    (hle : ∀ k, k ∈ a.dataSourceAccumulator.keys → k ∈ ds.keys)
    (hds : ∀ k d, (k, d) ∈ ds → dataSourceGetter root.Namespace k = .ok d ∧
      ∃ q, Reachable queryGetter root q ∧ k ∈ q.Spec.DataSources) :
    Accumulators.Inv queryGetter dataSourceGetter root { a with dataSourceAccumulator := ds } where
  query_lookup := fun dyn k v h => hinv.query_lookup dyn k v (by cases dyn <;> exact h)
  query_source := fun dyn k v h => hinv.query_source dyn k v (by cases dyn <;> exact h)
  closed := by
    intro dyn k v h
    have h' : (k, v) ∈ a.accum dyn := by cases dyn <;> exact h
    obtain ⟨h1, h2⟩ := hinv.closed dyn k v h'
    refine ⟨?_, fun n hn => hle n (h2 n hn)⟩
    intro dyn' n hn
    have := h1 dyn' n hn
    cases dyn' <;> exact this
  ds_lookup := hds
  ranked := by
    obtain ⟨h, hh⟩ := hinv.ranked
    exact ⟨h, fun dyn k v hm => hh dyn k v (by cases dyn <;> exact hm)⟩

/-- Recording a looked-up query whose refs and data sources are already resolved keeps the
invariant. -/
theorem Accumulators.Inv.setAccum {queryGetter : reportGenerationQueryGetter}
    {dataSourceGetter : reportDataSourceGetter} {root : ReportGenerationQuery}
    {a : Accumulators} (hinv : a.Inv queryGetter dataSourceGetter root)
    (dyn : Bool) (g : ReportGenerationQuery)
    (hg : queryGetter root.Namespace g.Name = .ok g)
    (hsrc : ∃ q, ReachableOrRoot queryGetter root q ∧ g.Name ∈ kindRefs dyn q)
    (hres : a.Resolves g)
    (hds : ∀ n ∈ g.Spec.DataSources, n ∈ a.dataSourceAccumulator.keys) :
    (a.setAccum dyn g.Name g).Inv queryGetter dataSourceGetter root where
  query_lookup := by
    intro dyn' k v h
    rcases Accumulators.of_mem_accum_setAccum h with ⟨_, hk, hv⟩ | h1
    · rw [hk, hv]; exact hg
    · exact hinv.query_lookup dyn' k v h1
  query_source := by
    intro dyn' k v h
    rcases Accumulators.of_mem_accum_setAccum h with ⟨hd, hk, _⟩ | h1
    · rw [hk, hd]; exact hsrc
    · exact hinv.query_source dyn' k v h1
  closed := by
    intro dyn' k v h
    have hle := Accumulators.le_setAccum a dyn g.Name g
    rcases Accumulators.of_mem_accum_setAccum h with ⟨_, _, hv⟩ | h1
    · rw [hv]
      exact ⟨hres.mono hle, fun n hn => hle.2 n (hds n hn)⟩
    · obtain ⟨h2, h3⟩ := hinv.closed dyn' k v h1
      exact ⟨h2.mono hle, fun n hn => hle.2 n (h3 n hn)⟩
  ds_lookup := by
    intro k d h
    rw [Accumulators.dataSourceAccumulator_setAccum] at h
    exact hinv.ds_lookup k d h
  ranked := by
    obtain ⟨h, hh⟩ := hinv.ranked
    by_cases hin : ∃ d, g.Name ∈ (a.accum d).keys
    · -- the name is already ranked, as a key of one of the two accumulators
      obtain ⟨d, hd⟩ := hin
      obtain ⟨v, hv⟩ := GoMap.exists_of_mem_keys hd
      have hvg : v = g := by
        have := hinv.query_lookup d _ v hv
        rw [hg] at this
        exact (Except.ok.inj this).symm
      subst hvg
      refine ⟨h, ?_⟩
      intro dyn' k v' hm dyn'' n hn
      rcases Accumulators.of_mem_accum_setAccum hm with ⟨_, hk, hv'⟩ | h1
      · rw [hk]; rw [hv'] at hn
        exact hh d _ v hv dyn'' n hn
      · exact hh dyn' k v' h1 dyn'' n hn
    · -- a new name: rank it above all its refs
      have hnot : ∀ d, g.Name ∉ (a.accum d).keys := fun d hd => hin ⟨d, hd⟩
      refine ⟨Function.update h g.Name (((queryRefs g).map h).sum + 1), ?_⟩
      intro dyn' k v' hm dyn'' n hn
      have hne : ∀ v'' : ReportGenerationQuery, a.Resolves v'' → n ∈ kindRefs dyn'' v'' →
          n ≠ g.Name := by
        intro v'' hr hn' heq
        exact hnot dyn'' (heq ▸ hr dyn'' n hn')
      rcases Accumulators.of_mem_accum_setAccum hm with ⟨_, hk, hv'⟩ | h1
      · rw [hv'] at hn
        rw [hk, Function.update_same, Function.update_noteq (hne g hres hn)]
        have : h n ≤ ((queryRefs g).map h).sum :=
          List.single_le_sum (fun _ _ => Nat.zero_le _) _
            (List.mem_map_of_mem h (mem_queryRefs_of_mem_kindRefs hn))
        omega
      · have hkne : k ≠ g.Name := fun heq =>
          hnot dyn' (heq ▸ GoMap.mem_keys_of_mem h1)
        rw [Function.update_noteq hkne,
          Function.update_noteq (hne v' (hinv.closed dyn' k v' h1).1 hn)]
        exact hh dyn' k v' h1 dyn'' n hn

/-- What a successful visit of `g` from a state with the invariant guarantees. -/
theorem queryNamesLoop_inv {queryGetter : reportGenerationQueryGetter}
    {dataSourceGetter : reportDataSourceGetter} (hfq : FaithfulQueryGetter queryGetter)
    (hfd : FaithfulDataSourceGetter dataSourceGetter) (root : ReportGenerationQuery)
    (recurse : ReportGenerationQuery → Accumulators → Except GoError Accumulators)
    (hrec : ∀ g a a', Reachable queryGetter root g →
      a.Inv queryGetter dataSourceGetter root → recurse g a = .ok a' →
      a'.Inv queryGetter dataSourceGetter root ∧ a.Le a' ∧ a'.Resolves g)
    (q : ReportGenerationQuery) (hq : ReachableOrRoot queryGetter root q) (dyn : Bool) :
    ∀ (names : List String) (a a' : Accumulators),
      (∀ n ∈ names, n ∈ kindRefs dyn q) →
      a.Inv queryGetter dataSourceGetter root →
      queryNamesLoop queryGetter dataSourceGetter recurse root.Namespace dyn names a = .ok a' →
      a'.Inv queryGetter dataSourceGetter root ∧ a.Le a' ∧
        ∀ n ∈ names, n ∈ (a'.accum dyn).keys := by
  intro names
  induction names with
  | nil =>
    intro a a' _ hinv h
    simp only [queryNamesLoop, Except.ok.injEq] at h
    subst h
    exact ⟨hinv, Accumulators.Le.refl a, fun _ h => by cases h⟩
  | cons n rest ih =>
    intro a a' hnames hinv h
    have hrest : ∀ m ∈ rest, m ∈ kindRefs dyn q :=
      fun m hm => hnames m (List.mem_cons_of_mem _ hm)
    unfold queryNamesLoop at h
    split at h
    · rename_i hc
      obtain ⟨h1, h2, h3⟩ := ih a a' hrest hinv h
      refine ⟨h1, h2, ?_⟩
      intro m hm
      rcases List.mem_cons.1 hm with rfl | hm
      · exact h2.1 dyn _ ((GoMap.contains_iff _ _).1 hc)
      · exact h3 m hm
    · split at h
      · cases h
      · rename_i g hg
        split at h
        · cases h
        · rename_i ds hds
          split at h
          · cases h
          · rename_i a2 ha2
            have hqns : q.Namespace = root.Namespace := hq.namespace_eq hfq
            have hgn : g.Namespace = root.Namespace := (hfq _ _ _ hg).1
            have hname : g.Name = n := (hfq _ _ _ hg).2
            have hnq : n ∈ kindRefs dyn q := hnames n (List.mem_cons_self _ _)
            have hstep : Step queryGetter q g :=
              ⟨n, mem_queryRefs_of_mem_kindRefs hnq, by rw [hqns]; exact hg⟩
            have hreach : Reachable queryGetter root g := hq.step hstep
            -- the data sources of `g`
            unfold GetDependentDataSourcesMemoized at hds
            rw [hgn] at hds
            obtain ⟨d1, d2, d3⟩ := dataSourcesLoop_spec hfd root.Namespace
              (fun k => ∃ q, Reachable queryGetter root q ∧ k ∈ q.Spec.DataSources)
              g.Spec.DataSources a.dataSourceAccumulator ds
              (fun k hk => ⟨g, hreach, hk⟩) hinv.ds_lookup hds
            have hinv1 := hinv.withDataSources ds d2 d1
            have hle1 : a.Le { a with dataSourceAccumulator := ds } :=
              ⟨fun d k hk => by cases d <;> exact hk, d2⟩
            -- the recursive visit
            obtain ⟨hinv2, hle2, hres2⟩ := hrec g _ a2 hreach hinv1 ha2
            -- the insertion
            have hinv3 := hinv2.setAccum dyn g (by rw [hname]; exact hg)
              ⟨q, hq, by rw [hname]; exact hnq⟩ hres2
              (fun m hm => hle2.2 m (d3 m hm))
            have hle3 := Accumulators.le_setAccum a2 dyn g.Name g
            obtain ⟨h1, h2, h3⟩ := ih _ a' hrest hinv3 h
            refine ⟨h1, ((hle1.trans hle2).trans hle3).trans h2, ?_⟩
            intro m hm
            rcases List.mem_cons.1 hm with rfl | hm
            · exact h2.1 dyn _ (hname ▸ Accumulators.mem_keys_setAccum_self a2 dyn g.Name g)
            · exact h3 m hm

/-- A successful traversal from a reachable query keeps the invariant, only adds entries,
and resolves every ref of the query. -/
theorem memoizedWalk_inv {queryGetter : reportGenerationQueryGetter}
    {dataSourceGetter : reportDataSourceGetter} (hfq : FaithfulQueryGetter queryGetter)
    (hfd : FaithfulDataSourceGetter dataSourceGetter) (root : ReportGenerationQuery) :
    ∀ (fuel : Nat) (depth : Int) (q : ReportGenerationQuery) (a a' : Accumulators),
      ReachableOrRoot queryGetter root q →
      a.Inv queryGetter dataSourceGetter root →
      memoizedWalk queryGetter dataSourceGetter fuel depth q a = .ok a' →
      a'.Inv queryGetter dataSourceGetter root ∧ a.Le a' ∧ a'.Resolves q := by
  intro fuel
  induction fuel with
  | zero =>
    intro depth q a a' _ _ h
    simp [memoizedWalk] at h
  | succ fuel ih =>
    intro depth q a a' hq hinv h
    have hqns : q.Namespace = root.Namespace := hq.namespace_eq hfq
    have hrec : ∀ g b b', Reachable queryGetter root g →
        b.Inv queryGetter dataSourceGetter root →
        memoizedWalk queryGetter dataSourceGetter fuel (depth + 1) g b = .ok b' →
        b'.Inv queryGetter dataSourceGetter root ∧ b.Le b' ∧ b'.Resolves g :=
      fun g b b' hg hb hw => ih (depth + 1) g b b' hg.reachableOrRoot hb hw
    unfold memoizedWalk at h
    rw [hqns] at h
    split at h
    · cases h
    · rename_i a1 ha1
      obtain ⟨i1, l1, r1⟩ := queryNamesLoop_inv hfq hfd root _ hrec q hq false _ a a1
        (fun _ hn => hn) hinv ha1
      obtain ⟨i2, l2, r2⟩ := queryNamesLoop_inv hfq hfd root _ hrec q hq true _ a1 a'
        (fun _ hn => hn) i1 h
      refine ⟨i2, l1.trans l2, ?_⟩
      intro dyn n hn
      cases dyn
      · exact l2.1 false n (r1 n hn)
      · exact r2 n hn

/-! ## Decomposition of a successful resolution -/

/-- A successful `GetGenerationQueryDependencies` is made of a successful pass over the
data sources of the root, a successful traversal from empty accumulators with 100 levels,
and a successful pass over the reports of the root. -/
theorem GetGenerationQueryDependencies_ok {queryGetter : reportGenerationQueryGetter}
    {dataSourceGetter : reportDataSourceGetter} {reportGetter : reportGetter}
    {root : ReportGenerationQuery} {deps : ReportGenerationQueryDependencies}
    (h : GetGenerationQueryDependencies queryGetter dataSourceGetter reportGetter root =
      .ok deps) :
    ∃ (rootDs : GoMap ReportDataSource) (a : Accumulators) (reports : List Report),
      dataSourcesLoop dataSourceGetter root.Namespace root.Spec.DataSources [] = .ok rootDs ∧
      memoizedWalk queryGetter dataSourceGetter 100 0 root ⟨[], [], []⟩ = .ok a ∧
      reportsLoop reportGetter root.Namespace root.Spec.Reports = .ok reports ∧
      deps =
        { ReportGenerationQueries :=
            sortByName ReportGenerationQuery.Name a.viewQueriesAccumulator.values
          DynamicReportGenerationQueries :=
            sortByName ReportGenerationQuery.Name a.dynamicQueriesAccumulator.values
          ReportDataSources :=
            sortByName ReportDataSource.Name
              (dedupDataSources (rootDs.values ++ a.dataSourceAccumulator.values) [] [])
          Reports := sortByName Report.Name reports } := by
  unfold GetGenerationQueryDependencies GetDependentDataSources GetDependentDataSourcesMemoized
    GetDependentGenerationQueries GetDependentGenerationQueriesWithDataSourcesMemoized
    GetDependentReports at h
  cases h1 : dataSourcesLoop dataSourceGetter root.Namespace root.Spec.DataSources [] with
  | error e => simp [h1] at h
  | ok rootDs =>
    have hfuel : (maxDepth - 0).toNat = 100 := by decide
    rw [hfuel] at h
    cases h2 : memoizedWalk queryGetter dataSourceGetter 100 0 root ⟨[], [], []⟩ with
    | error e => simp [h1, h2] at h
    | ok a =>
      cases h3 : reportsLoop reportGetter root.Namespace root.Spec.Reports with
      | error e => simp [h1, h2, h3] at h
      | ok reports =>
        simp only [h1, h2, h3, Except.ok.injEq] at h
        exact ⟨rootDs, a, reports, rfl, rfl, rfl, h.symm⟩

/-- Every query reachable from the root is recorded, under its name, after a successful
traversal from the root. -/
theorem Accumulators.Inv.mem_of_step {queryGetter : reportGenerationQueryGetter}
    {dataSourceGetter : reportDataSourceGetter} (hfq : FaithfulQueryGetter queryGetter)
    {root : ReportGenerationQuery} {a : Accumulators}
    (hinv : a.Inv queryGetter dataSourceGetter root) {m q : ReportGenerationQuery}
    (hm : ReachableOrRoot queryGetter root m) (hres : a.Resolves m)
    (hs : Step queryGetter m q) : ∃ dyn, (q.Name, q) ∈ a.accum dyn := by
  obtain ⟨n, hn, hq⟩ := hs
  rw [hm.namespace_eq hfq] at hq
  obtain ⟨dyn, hdyn⟩ := exists_kindRefs_of_mem_queryRefs hn
  obtain ⟨v, hv⟩ := GoMap.exists_of_mem_keys (hres dyn n hdyn)
  have hvq : v = q := by
    have := hinv.query_lookup dyn n v hv
    rw [hq] at this
    exact (Except.ok.inj this).symm
  subst hvq
  rw [(hfq _ _ _ hq).2]
  exact ⟨dyn, hv⟩

theorem Accumulators.Inv.mem_of_reachable {queryGetter : reportGenerationQueryGetter}
    {dataSourceGetter : reportDataSourceGetter} (hfq : FaithfulQueryGetter queryGetter)
    {root : ReportGenerationQuery} {a : Accumulators}
    (hinv : a.Inv queryGetter dataSourceGetter root) (hroot : a.Resolves root)
    {q : ReportGenerationQuery} (hq : Reachable queryGetter root q) :
    ∃ dyn, (q.Name, q) ∈ a.accum dyn := by
  induction hq with
  | single hs => exact hinv.mem_of_step hfq Relation.ReflTransGen.refl hroot hs
  | tail hprev hs ih =>
    obtain ⟨d, hd⟩ := ih
    exact hinv.mem_of_step hfq (Reachable.reachableOrRoot hprev) (hinv.closed d _ _ hd).1 hs

theorem Accumulators.Inv.resolves_of_reachableOrRoot
    {queryGetter : reportGenerationQueryGetter}
    {dataSourceGetter : reportDataSourceGetter} (hfq : FaithfulQueryGetter queryGetter)
    {root : ReportGenerationQuery} {a : Accumulators}
    (hinv : a.Inv queryGetter dataSourceGetter root) (hroot : a.Resolves root)
    {q : ReportGenerationQuery} (hq : ReachableOrRoot queryGetter root q) :
    a.Resolves q := by
  rcases Relation.reflTransGen_iff_eq_or_transGen.1 hq with h | h
  · rw [h]; exact hroot
  · obtain ⟨d, hd⟩ := hinv.mem_of_reachable hfq hroot h
    exact (hinv.closed d _ _ hd).1

/-- The keys of an accumulator after a successful traversal from the root: exactly the
refs, of its kind, of the root and of the reachable queries. -/
theorem Accumulators.Inv.mem_keys_iff {queryGetter : reportGenerationQueryGetter}
    {dataSourceGetter : reportDataSourceGetter} (hfq : FaithfulQueryGetter queryGetter)
    {root : ReportGenerationQuery} {a : Accumulators}
    (hinv : a.Inv queryGetter dataSourceGetter root) (hroot : a.Resolves root)
    (dyn : Bool) (n : String) :
    n ∈ (a.accum dyn).keys ↔
      ∃ q, ReachableOrRoot queryGetter root q ∧ n ∈ kindRefs dyn q := by
  constructor
  · intro h
    obtain ⟨v, hv⟩ := GoMap.exists_of_mem_keys h
    exact hinv.query_source dyn n v hv
  · rintro ⟨q, hq, hn⟩
    exact hinv.resolves_of_reachableOrRoot hfq hroot hq dyn n hn

/-- Under a faithful lookup the entries of an accumulator are keyed by their names. -/
theorem Accumulators.Inv.name_eq {queryGetter : reportGenerationQueryGetter}
    {dataSourceGetter : reportDataSourceGetter} (hfq : FaithfulQueryGetter queryGetter)
    {root : ReportGenerationQuery} {a : Accumulators}
    (hinv : a.Inv queryGetter dataSourceGetter root) {dyn : Bool} {k : String}
    {v : ReportGenerationQuery} (h : (k, v) ∈ a.accum dyn) : v.Name = k :=
  (hfq _ _ _ (hinv.query_lookup dyn k v h)).2

theorem Accumulators.Inv.mem_names_iff {queryGetter : reportGenerationQueryGetter}
    {dataSourceGetter : reportDataSourceGetter} (hfq : FaithfulQueryGetter queryGetter)
    {root : ReportGenerationQuery} {a : Accumulators}
    (hinv : a.Inv queryGetter dataSourceGetter root) (dyn : Bool) (n : String) :
    n ∈ (a.accum dyn).values.map ReportGenerationQuery.Name ↔ n ∈ (a.accum dyn).keys := by
  simp only [GoMap.values, GoMap.keys, List.mem_map]
  constructor
  · rintro ⟨v, ⟨⟨k, v'⟩, hm, rfl⟩, rfl⟩
    exact ⟨(k, v'), hm, (hinv.name_eq hfq hm).symm⟩
  · rintro ⟨⟨k, v⟩, hm, rfl⟩
    exact ⟨v, ⟨(k, v), hm, rfl⟩, hinv.name_eq hfq hm⟩

/-! ## C1: query closure -/

/-- C1. Query closure: under faithful lookups, when `GetGenerationQueryDependencies`
succeeds on `root`, the names in the returned static sequence are exactly the names
occurring in `Spec.ReportQueries` of the root or of a query reachable from it through
static or dynamic refs, the names in the returned dynamic sequence are exactly the names
occurring in `Spec.DynamicReportQueries` of the root or of such a query, and every entry of
either sequence is the object the query lookup returns for its name. Reachability follows
both kinds of refs, so a query reached through a dynamic ref contributes its own static
and dynamic refs like any other. -/
theorem C1_query_closure {queryGetter : reportGenerationQueryGetter}
    {dataSourceGetter : reportDataSourceGetter} {reportGetter : reportGetter}
    (hfq : FaithfulQueryGetter queryGetter) (hfd : FaithfulDataSourceGetter dataSourceGetter)
    (root : ReportGenerationQuery) (deps : ReportGenerationQueryDependencies)
    (h : GetGenerationQueryDependencies queryGetter dataSourceGetter reportGetter root =
      .ok deps) :
    (∀ n, n ∈ deps.ReportGenerationQueries.map ReportGenerationQuery.Name ↔
        ∃ q, ReachableOrRoot queryGetter root q ∧ n ∈ q.Spec.ReportQueries) ∧
      (∀ n, n ∈ deps.DynamicReportGenerationQueries.map ReportGenerationQuery.Name ↔
        ∃ q, ReachableOrRoot queryGetter root q ∧ n ∈ q.Spec.DynamicReportQueries) ∧
      (∀ e ∈ deps.ReportGenerationQueries, queryGetter root.Namespace e.Name = .ok e) ∧
      (∀ e ∈ deps.DynamicReportGenerationQueries,
        queryGetter root.Namespace e.Name = .ok e) := by
  obtain ⟨rootDs, a, reports, _, hw, _, hdeps⟩ := GetGenerationQueryDependencies_ok h
  obtain ⟨hinv, _, hroot⟩ := memoizedWalk_inv hfq hfd root 100 0 root _ a
    Relation.ReflTransGen.refl (Accumulators.inv_empty _ _ _) hw
  subst hdeps
  have hnames : ∀ (dyn : Bool) (n : String),
      n ∈ (sortByName ReportGenerationQuery.Name (a.accum dyn).values).map
          ReportGenerationQuery.Name ↔
        ∃ q, ReachableOrRoot queryGetter root q ∧ n ∈ kindRefs dyn q := by
    intro dyn n
    rw [((sortByName_perm ReportGenerationQuery.Name (a.accum dyn).values).map _).mem_iff,
      hinv.mem_names_iff hfq dyn n, hinv.mem_keys_iff hfq hroot dyn n]
  have hentry : ∀ (dyn : Bool) (e : ReportGenerationQuery),
      e ∈ sortByName ReportGenerationQuery.Name (a.accum dyn).values →
        queryGetter root.Namespace e.Name = .ok e := by
    intro dyn e he
    rw [mem_sortByName] at he
    obtain ⟨⟨k, v⟩, hm, rfl⟩ := List.mem_map.1 he
    have := hinv.query_lookup dyn k v hm
    rw [hinv.name_eq hfq hm]
    exact this
  exact ⟨hnames false, hnames true, hentry false, hentry true⟩


/-! ## Deduplication of the data sources -/

theorem dedupDataSources_spec :
    ∀ (l : List ReportDataSource) (seen : List String) (acc : List ReportDataSource),
      (∀ n, n ∈ seen ↔ n ∈ acc.map ReportDataSource.Name) →
      (∀ n, n ∈ (dedupDataSources l seen acc).map ReportDataSource.Name ↔
          n ∈ acc.map ReportDataSource.Name ∨ n ∈ l.map ReportDataSource.Name) ∧
        ((acc.map ReportDataSource.Name).Nodup →
          ((dedupDataSources l seen acc).map ReportDataSource.Name).Nodup) ∧
        (∀ x ∈ dedupDataSources l seen acc, x ∈ acc ∨ x ∈ l) := by
  intro l
  induction l with
  | nil =>
    intro seen acc _
    simp [dedupDataSources]
  | cons d rest ih =>
    intro seen acc hseen
    unfold dedupDataSources
    split
    · rename_i hc
      have hd : d.Name ∈ acc.map ReportDataSource.Name :=
        (hseen _).1 (by simpa using hc)
      obtain ⟨h1, h2, h3⟩ := ih seen acc hseen
      refine ⟨?_, h2, ?_⟩
      · intro n
        rw [h1 n, List.map_cons, List.mem_cons]
        constructor
        · rintro (h | h)
          · exact Or.inl h
          · exact Or.inr (Or.inr h)
        · rintro (h | h | h)
          · exact Or.inl h
          · exact Or.inl (h ▸ hd)
          · exact Or.inr h
      · intro x hx
        rcases h3 x hx with h | h
        · exact Or.inl h
        · exact Or.inr (List.mem_cons_of_mem _ h)
    · rename_i hc
      have hd : d.Name ∉ acc.map ReportDataSource.Name := fun hmem =>
        hc (by simpa using (hseen _).2 hmem)
      have hseen' : ∀ n, n ∈ d.Name :: seen ↔
          n ∈ (acc ++ [d]).map ReportDataSource.Name := by
        intro n
        simp only [List.mem_cons, hseen n, List.map_append, List.map_cons, List.map_nil,
          List.mem_append, List.mem_singleton]
        tauto
      obtain ⟨h1, h2, h3⟩ := ih (d.Name :: seen) (acc ++ [d]) hseen'
      refine ⟨?_, ?_, ?_⟩
      · intro n
        rw [h1 n]
        simp only [List.map_append, List.map_cons, List.map_nil, List.mem_append,
          List.mem_singleton, List.mem_cons]
        tauto
      · intro hnd
        apply h2
        rw [List.map_append, List.nodup_append]
        refine ⟨hnd, by simp, ?_⟩
        intro x hx hx'
        simp only [List.map_cons, List.map_nil, List.mem_singleton] at hx'
        exact hd (hx' ▸ hx)
      · intro x hx
        rcases h3 x hx with h | h
        · rcases List.mem_append.1 h with h | h
          · exact Or.inl h
          · exact Or.inr (by rw [List.mem_singleton.1 h]; exact List.mem_cons_self _ _)
        · exact Or.inr (List.mem_cons_of_mem _ h)

/-- The loop of `GetDependentReports` returns the results of the lookups, in order. -/
theorem reportsLoop_ok (reportGetter : reportGetter) (ns : String) :
    ∀ (names : List String) (reports : List Report),
      reportsLoop reportGetter ns names = .ok reports →
      names.map (reportGetter ns) = reports.map Except.ok := by
  intro names
  induction names with
  | nil =>
    intro reports h
    simp only [reportsLoop, Except.ok.injEq] at h
    subst h; rfl
  | cons n rest ih =>
    intro reports h
    unfold reportsLoop at h
    split at h
    · cases h
    · rename_i r hr
      split at h
      · cases h
      · rename_i rs hrs
        simp only [Except.ok.injEq] at h
        subst h
        simp [hr, ih rs hrs]

/-- The loop of `GetDependentReports` succeeds when every name can be looked up. -/
theorem reportsLoop_succeeds (reportGetter : reportGetter) (ns : String) :
    ∀ (names : List String), (∀ n ∈ names, ∃ r, reportGetter ns n = .ok r) →
      ∃ reports, reportsLoop reportGetter ns names = .ok reports := by
  intro names
  induction names with
  | nil => intro _; exact ⟨[], rfl⟩
  | cons n rest ih =>
    intro hall
    obtain ⟨r, hr⟩ := hall n (List.mem_cons_self _ _)
    obtain ⟨rs, hrs⟩ := ih (fun m hm => hall m (List.mem_cons_of_mem _ hm))
    exact ⟨r :: rs, by simp [reportsLoop, hr, hrs]⟩

/-! ## C2: data source closure -/

/-- The data sources gathered for the root alone: what the lookup returns for the names in
`Spec.DataSources` of the root. -/
theorem rootDataSources_spec {dataSourceGetter : reportDataSourceGetter}
    (hfd : FaithfulDataSourceGetter dataSourceGetter) (root : ReportGenerationQuery)
    (rootDs : GoMap ReportDataSource)
    (h : dataSourcesLoop dataSourceGetter root.Namespace root.Spec.DataSources [] = .ok rootDs) :
    (∀ n, n ∈ rootDs.values.map ReportDataSource.Name ↔ n ∈ root.Spec.DataSources) ∧
      ∀ d ∈ rootDs.values, dataSourceGetter root.Namespace d.Name = .ok d := by
  obtain ⟨h1, _, h3⟩ := dataSourcesLoop_spec hfd root.Namespace (· ∈ root.Spec.DataSources)
    root.Spec.DataSources [] rootDs (fun _ hn => hn) (fun _ _ hm => by cases hm) h
  constructor
  · intro n
    simp only [GoMap.values, List.map_map, List.mem_map, Function.comp]
    constructor
    · rintro ⟨⟨k, d⟩, hm, rfl⟩
      obtain ⟨hl, hs⟩ := h1 k d hm
      rw [(hfd _ _ _ hl).2]; exact hs
    · intro hn
      obtain ⟨d, hd⟩ := GoMap.exists_of_mem_keys (h3 n hn)
      exact ⟨(n, d), hd, (hfd _ _ _ (h1 n d hd).1).2⟩
  · intro d hd
    obtain ⟨⟨k, d'⟩, hm, rfl⟩ := List.mem_map.1 hd
    obtain ⟨hl, _⟩ := h1 k d' hm
    rw [(hfd _ _ _ hl).2]; exact hl

/-- The data sources gathered by the traversal: what the lookup returns for the names in
`Spec.DataSources` of the queries reachable from the root. -/
theorem Accumulators.Inv.dataSources_spec {queryGetter : reportGenerationQueryGetter}
    {dataSourceGetter : reportDataSourceGetter} (hfq : FaithfulQueryGetter queryGetter)
    (hfd : FaithfulDataSourceGetter dataSourceGetter)
    {root : ReportGenerationQuery} {a : Accumulators}
    (hinv : a.Inv queryGetter dataSourceGetter root) (hroot : a.Resolves root) :
    (∀ n, n ∈ a.dataSourceAccumulator.values.map ReportDataSource.Name ↔
        ∃ q, Reachable queryGetter root q ∧ n ∈ q.Spec.DataSources) ∧
      ∀ d ∈ a.dataSourceAccumulator.values, dataSourceGetter root.Namespace d.Name = .ok d := by
  constructor
  · intro n
    simp only [GoMap.values, List.map_map, List.mem_map, Function.comp]
    constructor
    · rintro ⟨⟨k, d⟩, hm, rfl⟩
      obtain ⟨hl, hs⟩ := hinv.ds_lookup k d hm
      rw [(hfd _ _ _ hl).2]; exact hs
    · rintro ⟨q, hq, hn⟩
      obtain ⟨dyn, hd⟩ := hinv.mem_of_reachable hfq hroot hq
      obtain ⟨d, hd'⟩ := GoMap.exists_of_mem_keys ((hinv.closed dyn _ _ hd).2 n hn)
      exact ⟨(n, d), hd', (hfd _ _ _ (hinv.ds_lookup n d hd').1).2⟩
  · intro d hd
    obtain ⟨⟨k, d'⟩, hm, rfl⟩ := List.mem_map.1 hd
    obtain ⟨hl, _⟩ := hinv.ds_lookup k d' hm
    rw [(hfd _ _ _ hl).2]; exact hl

/-- C2. Data source closure: under faithful lookups, when `GetGenerationQueryDependencies`
succeeds on `root`, the names in the returned `ReportDataSources` are exactly the names in
`Spec.DataSources` of the root together with those of every query reachable from the root
through static or dynamic refs, each returned data source is what the lookup returns for
its name, and the returned `Reports` are, up to order, exactly the results of looking up
the names in `Spec.Reports` of the root (and of no other query). -/
theorem C2_data_source_closure {queryGetter : reportGenerationQueryGetter}
    {dataSourceGetter : reportDataSourceGetter} {reportGetter : reportGetter}
    (hfq : FaithfulQueryGetter queryGetter) (hfd : FaithfulDataSourceGetter dataSourceGetter)
    (root : ReportGenerationQuery) (deps : ReportGenerationQueryDependencies)
    (h : GetGenerationQueryDependencies queryGetter dataSourceGetter reportGetter root =
      .ok deps) :
    (∀ n, n ∈ deps.ReportDataSources.map ReportDataSource.Name ↔
        n ∈ root.Spec.DataSources ∨
          ∃ q, Reachable queryGetter root q ∧ n ∈ q.Spec.DataSources) ∧
      (∀ d ∈ deps.ReportDataSources, dataSourceGetter root.Namespace d.Name = .ok d) ∧
      (deps.Reports.map Except.ok).Perm (root.Spec.Reports.map (reportGetter root.Namespace)) := by
  obtain ⟨rootDs, a, reports, hds, hw, hr, hdeps⟩ := GetGenerationQueryDependencies_ok h
  obtain ⟨hinv, _, hroot⟩ := memoizedWalk_inv hfq hfd root 100 0 root _ a
    Relation.ReflTransGen.refl (Accumulators.inv_empty _ _ _) hw
  obtain ⟨r1, r2⟩ := rootDataSources_spec hfd root rootDs hds
  obtain ⟨a1, a2⟩ := hinv.dataSources_spec hfq hfd hroot
  obtain ⟨d1, _, d3⟩ := dedupDataSources_spec (rootDs.values ++ a.dataSourceAccumulator.values)
    [] [] (fun n => by simp)
  subst hdeps
  refine ⟨?_, ?_, ?_⟩
  · intro n
    rw [((sortByName_perm ReportDataSource.Name _).map _).mem_iff, d1 n, List.map_append,
      List.mem_append, r1 n, a1 n]
    simp
  · intro d hd
    rw [mem_sortByName] at hd
    rcases d3 d hd with h1 | h1
    · cases h1
    · rcases List.mem_append.1 h1 with h2 | h2
      · exact r2 d h2
      · exact a2 d h2
  · rw [reportsLoop_ok reportGetter root.Namespace root.Spec.Reports reports hr]
    exact (sortByName_perm Report.Name reports).map _

/-! ## C3: the returned sequences are sorted -/

theorem Accumulators.KeyedByName.setAccum_keyed {a : Accumulators} (h : a.KeyedByName) (dyn : Bool)
    (g : ReportGenerationQuery) : (a.setAccum dyn g.Name g).KeyedByName := by
  obtain ⟨h1, h2, h3⟩ := h
  cases dyn
  · exact ⟨h1.insert g, h2, h3⟩
  · exact ⟨h1, h2.insert g, h3⟩

theorem queryNamesLoop_keyedByName (queryGetter : reportGenerationQueryGetter)
    (dataSourceGetter : reportDataSourceGetter)
    (recurse : ReportGenerationQuery → Accumulators → Except GoError Accumulators)
    (hrec : ∀ g a a', a.KeyedByName → recurse g a = .ok a' → a'.KeyedByName)
    (ns : String) (dyn : Bool) :
    ∀ (names : List String) (a a' : Accumulators), a.KeyedByName →
      queryNamesLoop queryGetter dataSourceGetter recurse ns dyn names a = .ok a' →
      a'.KeyedByName := by
  intro names
  induction names with
  | nil =>
    intro a a' hk h
    simp only [queryNamesLoop, Except.ok.injEq] at h
    exact h ▸ hk
  | cons n rest ih =>
    intro a a' hk h
    unfold queryNamesLoop at h
    split at h
    · exact ih a a' hk h
    · split at h
      · cases h
      · rename_i g _
        split at h
        · cases h
        · rename_i ds hds
          split at h
          · cases h
          · rename_i a2 ha2
            have hk1 : Accumulators.KeyedByName { a with dataSourceAccumulator := ds } :=
              ⟨hk.1, hk.2.1, dataSourcesLoop_keyedByName _ _ _ _ _ hk.2.2 hds⟩
            exact ih _ a' ((hrec g _ a2 hk1 ha2).setAccum_keyed dyn g) h

theorem memoizedWalk_keyedByName (queryGetter : reportGenerationQueryGetter)
    (dataSourceGetter : reportDataSourceGetter) :
    ∀ (fuel : Nat) (depth : Int) (q : ReportGenerationQuery) (a a' : Accumulators),
      a.KeyedByName →
      memoizedWalk queryGetter dataSourceGetter fuel depth q a = .ok a' → a'.KeyedByName := by
  intro fuel
  induction fuel with
  | zero =>
    intro depth q a a' _ h
    simp [memoizedWalk] at h
  | succ fuel ih =>
    intro depth q a a' hk h
    unfold memoizedWalk at h
    split at h
    · cases h
    · rename_i a1 ha1
      have hk1 := queryNamesLoop_keyedByName queryGetter dataSourceGetter _
        (fun g b b' hb hw => ih (depth + 1) g b b' hb hw) _ false _ a a1 hk ha1
      exact queryNamesLoop_keyedByName queryGetter dataSourceGetter _
        (fun g b b' hb hw => ih (depth + 1) g b b' hb hw) _ true _ a1 a' hk1 h

/-- Under a faithful lookup the reports returned by the loop carry the names asked for. -/
theorem reportsLoop_names {reportGetter : reportGetter}
    (hfr : FaithfulReportGetter reportGetter) (ns : String) :
    ∀ (names : List String) (reports : List Report),
      reportsLoop reportGetter ns names = .ok reports → reports.map Report.Name = names := by
  intro names
  induction names with
  | nil =>
    intro reports h
    simp only [reportsLoop, Except.ok.injEq] at h
    subst h; rfl
  | cons n rest ih =>
    intro reports h
    unfold reportsLoop at h
    split at h
    · cases h
    · rename_i r hr
      split at h
      · cases h
      · rename_i rs hrs
        simp only [Except.ok.injEq] at h
        subst h
        simp [(hfr _ _ _ hr).2, ih rs hrs]

theorem reportsLoop_length (reportGetter : reportGetter) (ns : String)
    (names : List String) (reports : List Report)
    (h : reportsLoop reportGetter ns names = .ok reports) : reports.length = names.length := by
  have := congrArg List.length (reportsLoop_ok reportGetter ns names reports h)
  simpa using this.symm

/-- C3, as stated, fails for `Reports`: for a root that lists the report `r1` twice the
resolution succeeds and returns that report twice, so two entries of `Reports` have the
same name. -/
theorem C3_counterexample :
    GetGenerationQueryDependencies sampleQueryGetter sampleDataSourceGetter sampleReportGetter
        rootDuplicateReport = .ok depsDuplicateReport ∧
      ¬ (depsDuplicateReport.Reports.map Report.Name).Nodup :=
  ⟨rfl, by decide⟩

/-- C3, amended. For every root query and every lookup environment, if
`GetGenerationQueryDependencies` succeeds then the static queries, the dynamic queries and
the data sources are each strictly ascending by name (sorted, no name twice); the reports
are ascending by name and hold one entry for each entry of `Spec.Reports` of the root, so
that under a faithful report lookup their names are those of `Spec.Reports` up to order,
and no name occurs twice among them iff none occurs twice in `Spec.Reports`. -/
theorem C3_sorted_sequences (queryGetter : reportGenerationQueryGetter)
    (dataSourceGetter : reportDataSourceGetter) (reportGetter : reportGetter)
    (root : ReportGenerationQuery) (deps : ReportGenerationQueryDependencies)
    (h : GetGenerationQueryDependencies queryGetter dataSourceGetter reportGetter root =
      .ok deps) :
    deps.ReportGenerationQueries.Pairwise (fun x y => x.Name < y.Name) ∧
      deps.DynamicReportGenerationQueries.Pairwise (fun x y => x.Name < y.Name) ∧
      deps.ReportDataSources.Pairwise (fun x y => x.Name < y.Name) ∧
      deps.Reports.Pairwise (fun x y => x.Name ≤ y.Name) ∧
      deps.Reports.length = root.Spec.Reports.length ∧
      (FaithfulReportGetter reportGetter →
        (deps.Reports.map Report.Name).Perm root.Spec.Reports ∧
          ((deps.Reports.map Report.Name).Nodup ↔ root.Spec.Reports.Nodup)) := by
  obtain ⟨rootDs, a, reports, _, hw, hr, hdeps⟩ := GetGenerationQueryDependencies_ok h
  obtain ⟨k1, k2, _⟩ := memoizedWalk_keyedByName queryGetter dataSourceGetter 100 0 root _ a
    ⟨GoMap.keyedByName_nil _, GoMap.keyedByName_nil _, GoMap.keyedByName_nil _⟩ hw
  obtain ⟨_, d2, _⟩ := dedupDataSources_spec (rootDs.values ++ a.dataSourceAccumulator.values)
    [] [] (fun n => by simp)
  subst hdeps
  refine ⟨sortByName_strict _ _ k1.nodup_names, sortByName_strict _ _ k2.nodup_names,
    sortByName_strict _ _ (d2 List.nodup_nil), sortByName_sorted _ _, ?_, ?_⟩
  · rw [(sortByName_perm Report.Name reports).length_eq]
    exact reportsLoop_length reportGetter _ _ _ hr
  · intro hfr
    have hp : ((sortByName Report.Name reports).map Report.Name).Perm root.Spec.Reports := by
      have := (sortByName_perm Report.Name reports).map Report.Name
      rwa [reportsLoop_names hfr _ _ _ hr] at this
    exact ⟨hp, hp.nodup_iff⟩

/-! ## C4: resolution of graphs of bounded depth -/

theorem RefPath.of_step {queryGetter : reportGenerationQueryGetter} {k : Nat}
    {q m : ReportGenerationQuery} (hs : Step queryGetter q m)
    (h : ∀ g, ¬ RefPath queryGetter (k + 1) q g) : ∀ g, ¬ RefPath queryGetter k m g :=
  fun g hp => h g (RefPath.cons hs hp)

/-- The inner loop succeeds when the lookups of its names and of the data sources of the
queries found succeed and every recursive visit of a query one edge away succeeds. -/
theorem queryNamesLoop_succeeds (queryGetter : reportGenerationQueryGetter)
    (dataSourceGetter : reportDataSourceGetter)
    (recurse : ReportGenerationQuery → Accumulators → Except GoError Accumulators)
    (q : ReportGenerationQuery)
    (hrec : ∀ g a, Step queryGetter q g → ∃ a', recurse g a = .ok a')
    (hq : ∀ n ∈ queryRefs q, ∃ g, queryGetter q.Namespace n = .ok g)
    (hd : ∀ g, Step queryGetter q g →
      ∀ n ∈ g.Spec.DataSources, ∃ d, dataSourceGetter g.Namespace n = .ok d)
    (dyn : Bool) :
    ∀ (names : List String) (a : Accumulators), (∀ n ∈ names, n ∈ queryRefs q) →
      ∃ a', queryNamesLoop queryGetter dataSourceGetter recurse q.Namespace dyn names a =
        .ok a' := by
  intro names
  induction names with
  | nil => intro a _; exact ⟨a, rfl⟩
  | cons n rest ih =>
    intro a hnames
    have hrest : ∀ m ∈ rest, m ∈ queryRefs q :=
      fun m hm => hnames m (List.mem_cons_of_mem _ hm)
    have hn : n ∈ queryRefs q := hnames n (List.mem_cons_self _ _)
    obtain ⟨g, hg⟩ := hq n hn
    have hstep : Step queryGetter q g := ⟨n, hn, hg⟩
    obtain ⟨ds, hds⟩ := dataSourcesLoop_ok dataSourceGetter g.Namespace g.Spec.DataSources
      a.dataSourceAccumulator (hd g hstep)
    obtain ⟨a2, ha2⟩ := hrec g { a with dataSourceAccumulator := ds } hstep
    unfold queryNamesLoop
    split
    · exact ih a hrest
    · simp only [hg, GetDependentDataSourcesMemoized, hds, ha2]
      exact ih _ hrest

/-- The traversal from `q` with `fuel` levels succeeds when no path of `fuel` edges starts
at `q` and every lookup the reachable part of the graph asks for succeeds. -/
theorem memoizedWalk_succeeds (queryGetter : reportGenerationQueryGetter)
    (dataSourceGetter : reportDataSourceGetter) :
    ∀ (fuel : Nat) (depth : Int) (q : ReportGenerationQuery) (a : Accumulators),
      (∀ g, ¬ RefPath queryGetter fuel q g) →
      (∀ g, ReachableOrRoot queryGetter q g →
        ∀ n ∈ queryRefs g, ∃ g', queryGetter g.Namespace n = .ok g') →
      (∀ g, Reachable queryGetter q g →
        ∀ n ∈ g.Spec.DataSources, ∃ d, dataSourceGetter g.Namespace n = .ok d) →
      ∃ a', memoizedWalk queryGetter dataSourceGetter fuel depth q a = .ok a' := by
  intro fuel
  induction fuel with
  | zero =>
    intro depth q a hpath _ _
    exact absurd (RefPath.nil q) (hpath q)
  | succ fuel ih =>
    intro depth q a hpath hq hd
    have hrec : ∀ g b, Step queryGetter q g →
        ∃ b', memoizedWalk queryGetter dataSourceGetter fuel (depth + 1) g b = .ok b' := by
      intro g b hs
      refine ih (depth + 1) g b (RefPath.of_step hs hpath) ?_ ?_
      · intro g' hg'
        exact hq g' (Relation.ReflTransGen.head hs hg')
      · intro g' hg'
        exact hd g' (Relation.TransGen.head hs hg')
    have hq0 := hq q Relation.ReflTransGen.refl
    have hd0 : ∀ g, Step queryGetter q g →
        ∀ n ∈ g.Spec.DataSources, ∃ d, dataSourceGetter g.Namespace n = .ok d :=
      fun g hs => hd g (Relation.TransGen.single hs)
    obtain ⟨a1, ha1⟩ := queryNamesLoop_succeeds queryGetter dataSourceGetter _ q hrec hq0 hd0
      false q.Spec.ReportQueries a (fun n hn => List.mem_append_left _ hn)
    obtain ⟨a2, ha2⟩ := queryNamesLoop_succeeds queryGetter dataSourceGetter _ q hrec hq0 hd0
      true q.Spec.DynamicReportQueries a1 (fun n hn => List.mem_append_right _ hn)
    exact ⟨a2, by unfold memoizedWalk; simp only [ha1, ha2]⟩

/-- Resolution succeeds when its three parts do. -/
theorem GetGenerationQueryDependencies_succeeds {queryGetter : reportGenerationQueryGetter}
    {dataSourceGetter : reportDataSourceGetter} {reportGetter : reportGetter}
    {root : ReportGenerationQuery} {rootDs : GoMap ReportDataSource} {a : Accumulators}
    {reports : List Report}
    (h1 : dataSourcesLoop dataSourceGetter root.Namespace root.Spec.DataSources [] = .ok rootDs)
    (h2 : memoizedWalk queryGetter dataSourceGetter 100 0 root ⟨[], [], []⟩ = .ok a)
    (h3 : reportsLoop reportGetter root.Namespace root.Spec.Reports = .ok reports) :
    ∃ deps, GetGenerationQueryDependencies queryGetter dataSourceGetter reportGetter root =
      .ok deps := by
  have hfuel : (maxDepth - 0).toNat = 100 := by decide
  unfold GetGenerationQueryDependencies GetDependentDataSources GetDependentDataSourcesMemoized
    GetDependentGenerationQueries GetDependentGenerationQueriesWithDataSourcesMemoized
    GetDependentReports
  rw [hfuel]
  simp only [h1, h2, h3]
  exact ⟨_, rfl⟩

/-- C4, amended. If every query, data source and report referenced from the root or from a
query reachable from it can be looked up, and no path of the reference graph (static and
dynamic refs together) that starts at the root has 100 edges or more, then
`GetGenerationQueryDependencies` returns a dependency set. (Such a graph has no cycle
reachable from the root; an acyclic graph with a path of 100 edges is not covered.) -/
theorem C4_bounded_graphs_resolve (queryGetter : reportGenerationQueryGetter)
    (dataSourceGetter : reportDataSourceGetter) (reportGetter : reportGetter)
    (root : ReportGenerationQuery)
    (hq : ∀ g, ReachableOrRoot queryGetter root g →
      ∀ n ∈ queryRefs g, ∃ g', queryGetter g.Namespace n = .ok g')
    (hd : ∀ g, ReachableOrRoot queryGetter root g →
      ∀ n ∈ g.Spec.DataSources, ∃ d, dataSourceGetter g.Namespace n = .ok d)
    (hr : ∀ n ∈ root.Spec.Reports, ∃ r, reportGetter root.Namespace n = .ok r)
    (hdepth : ∀ g, ¬ RefPath queryGetter 100 root g) :
    ∃ deps, GetGenerationQueryDependencies queryGetter dataSourceGetter reportGetter root =
      .ok deps := by
  obtain ⟨rootDs, h1⟩ := dataSourcesLoop_ok dataSourceGetter root.Namespace
    root.Spec.DataSources [] (hd root Relation.ReflTransGen.refl)
  obtain ⟨a, h2⟩ := memoizedWalk_succeeds queryGetter dataSourceGetter 100 0 root ⟨[], [], []⟩
    hdepth hq (fun g hg => hd g hg.reachableOrRoot)
  obtain ⟨reports, h3⟩ := reportsLoop_succeeds reportGetter root.Namespace root.Spec.Reports hr
  exact GetGenerationQueryDependencies_succeeds h1 h2 h3

/-! ## The sample stores -/

theorem sampleQueryGetter_faithful : FaithfulQueryGetter sampleQueryGetter := by
  intro ns n g h
  unfold sampleQueryGetter at h
  split_ifs at h with h1 h2 h3 <;> simp only [Except.ok.injEq] at h <;> subst h <;>
    simp [mkQuery, *]

theorem sampleDataSourceGetter_faithful : FaithfulDataSourceGetter sampleDataSourceGetter := by
  intro ns n d h
  unfold sampleDataSourceGetter at h
  split_ifs at h
  simp only [Except.ok.injEq] at h
  subst h; simp

theorem sampleReportGetter_faithful : FaithfulReportGetter sampleReportGetter := by
  intro ns n r h
  unfold sampleReportGetter at h
  split_ifs at h
  simp only [Except.ok.injEq] at h
  subst h; simp

/-- The resolution of `sampleRoot` in the sample stores. -/
theorem sample_resolution :
    GetGenerationQueryDependencies sampleQueryGetter sampleDataSourceGetter sampleReportGetter
      sampleRoot = .ok sampleDeps := by
  rfl

/-- Along a measure that decreases on every edge, a path is no longer than the measure of
its start. -/
theorem RefPath.le_measure {queryGetter : reportGenerationQueryGetter}
    (μ : ReportGenerationQuery → Nat)
    (hμ : ∀ q g, Step queryGetter q g → μ g < μ q) :
    ∀ {k : Nat} {q g : ReportGenerationQuery}, RefPath queryGetter k q g → k + μ g ≤ μ q := by
  intro k q g h
  induction h with
  | nil q => omega
  | cons hs _ ih => have := hμ _ _ hs; omega

theorem sampleMeasure_step (q g : ReportGenerationQuery)
    (h : Step sampleQueryGetter q g) : sampleMeasure g < sampleMeasure q := by
  obtain ⟨n, hn, hg⟩ := h
  have hne : queryRefs q ≠ [] := List.ne_nil_of_mem hn
  unfold sampleQueryGetter at hg
  split_ifs at hg with h1 h2 h3 <;> simp only [Except.ok.injEq] at hg <;> subst hg
  · have hc : queryRefs q ≠ ["c"] := by
      intro hc; rw [hc, h1] at hn; simp at hn
    have hq : sampleMeasure q = 2 := by simp only [sampleMeasure, if_neg hne, if_neg hc]
    have hg : sampleMeasure (mkQuery q.Namespace "a" ["c"] [] ["d2"] []) = 1 := by
      simp [sampleMeasure, queryRefs, mkQuery]
    omega
  · have hc : queryRefs q ≠ ["c"] := by
      intro hc; rw [hc, h2] at hn; simp at hn
    have hq : sampleMeasure q = 2 := by simp only [sampleMeasure, if_neg hne, if_neg hc]
    have hg : sampleMeasure (mkQuery q.Namespace "b" ["c"] [] ["d1"] []) = 1 := by
      simp [sampleMeasure, queryRefs, mkQuery]
    omega
  · have hg : sampleMeasure (mkQuery q.Namespace "c" [] [] [] []) = 0 := by
      simp [sampleMeasure, queryRefs, mkQuery]
    have hq : 0 < sampleMeasure q := by
      simp only [sampleMeasure, if_neg hne]
      split_ifs <;> omega
    omega

/-- Every query reachable from `sampleRoot` is one of the three stored queries, and every
lookup it asks for succeeds. -/
theorem sample_reachable (g : ReportGenerationQuery)
    (h : ReachableOrRoot sampleQueryGetter sampleRoot g) :
    g ∈ [sampleRoot, mkQuery "ns" "a" ["c"] [] ["d2"] [], mkQuery "ns" "b" ["c"] [] ["d1"] [],
      mkQuery "ns" "c" [] [] [] []] := by
  induction h with
  | refl => simp
  | tail _ hs ih =>
    obtain ⟨n, hn, hg⟩ := hs
    simp only [List.mem_cons, List.mem_singleton, List.not_mem_nil, or_false] at ih
    rcases ih with rfl | rfl | rfl | rfl <;>
      simp [queryRefs, mkQuery, sampleRoot] at hn <;>
      (try rcases hn with rfl | rfl) <;>
      simp [sampleQueryGetter, mkQuery, sampleRoot] at hg <;> subst hg <;>
      simp [mkQuery, sampleRoot]

theorem sample_lookups (g : ReportGenerationQuery)
    (h : ReachableOrRoot sampleQueryGetter sampleRoot g) :
    (∀ n ∈ queryRefs g, ∃ g', sampleQueryGetter g.Namespace n = .ok g') ∧
      ∀ n ∈ g.Spec.DataSources, ∃ d, sampleDataSourceGetter g.Namespace n = .ok d := by
  have hg := sample_reachable g h
  simp only [List.mem_cons, List.mem_singleton, List.not_mem_nil, or_false] at hg
  rcases hg with rfl | rfl | rfl | rfl <;>
    simp [queryRefs, mkQuery, sampleRoot, sampleQueryGetter, sampleDataSourceGetter]

theorem sample_reports :
    ∀ n ∈ sampleRoot.Spec.Reports, ∃ r, sampleReportGetter sampleRoot.Namespace n = .ok r := by
  simp [mkQuery, sampleRoot, sampleReportGetter]

theorem sample_depth (g : ReportGenerationQuery) :
    ¬ RefPath sampleQueryGetter 100 sampleRoot g := by
  intro h
  have h1 := RefPath.le_measure sampleMeasure sampleMeasure_step h
  have h2 : sampleMeasure sampleRoot = 2 := by decide
  omega

/-- Witness for C1: the sample stores and `sampleRoot`. -/
theorem C1_query_closure_witness :
    GetGenerationQueryDependencies sampleQueryGetter sampleDataSourceGetter sampleReportGetter
        sampleRoot = .ok sampleDeps ∧
      ((∀ n, n ∈ sampleDeps.ReportGenerationQueries.map ReportGenerationQuery.Name ↔
          ∃ q, ReachableOrRoot sampleQueryGetter sampleRoot q ∧ n ∈ q.Spec.ReportQueries) ∧
        (∀ n, n ∈ sampleDeps.DynamicReportGenerationQueries.map ReportGenerationQuery.Name ↔
          ∃ q, ReachableOrRoot sampleQueryGetter sampleRoot q ∧
            n ∈ q.Spec.DynamicReportQueries) ∧
        (∀ e ∈ sampleDeps.ReportGenerationQueries,
          sampleQueryGetter sampleRoot.Namespace e.Name = .ok e) ∧
        (∀ e ∈ sampleDeps.DynamicReportGenerationQueries,
          sampleQueryGetter sampleRoot.Namespace e.Name = .ok e)) :=
  ⟨sample_resolution,
    C1_query_closure sampleQueryGetter_faithful sampleDataSourceGetter_faithful sampleRoot
      sampleDeps sample_resolution⟩

/-- Witness for C2: the sample stores and `sampleRoot`. -/
theorem C2_data_source_closure_witness :
    GetGenerationQueryDependencies sampleQueryGetter sampleDataSourceGetter sampleReportGetter
        sampleRoot = .ok sampleDeps ∧
      ((∀ n, n ∈ sampleDeps.ReportDataSources.map ReportDataSource.Name ↔
          n ∈ sampleRoot.Spec.DataSources ∨
            ∃ q, Reachable sampleQueryGetter sampleRoot q ∧ n ∈ q.Spec.DataSources) ∧
        (∀ d ∈ sampleDeps.ReportDataSources,
          sampleDataSourceGetter sampleRoot.Namespace d.Name = .ok d) ∧
        (sampleDeps.Reports.map Except.ok).Perm
          (sampleRoot.Spec.Reports.map (sampleReportGetter sampleRoot.Namespace))) :=
  ⟨sample_resolution,
    C2_data_source_closure sampleQueryGetter_faithful sampleDataSourceGetter_faithful sampleRoot
      sampleDeps sample_resolution⟩

/-- Witness for C3 (amended): the sample stores and `sampleRoot`. -/
theorem C3_sorted_sequences_witness :
    GetGenerationQueryDependencies sampleQueryGetter sampleDataSourceGetter sampleReportGetter
        sampleRoot = .ok sampleDeps ∧
      (sampleDeps.ReportGenerationQueries.Pairwise (fun x y => x.Name < y.Name) ∧
        sampleDeps.DynamicReportGenerationQueries.Pairwise (fun x y => x.Name < y.Name) ∧
        sampleDeps.ReportDataSources.Pairwise (fun x y => x.Name < y.Name) ∧
        sampleDeps.Reports.Pairwise (fun x y => x.Name ≤ y.Name) ∧
        sampleDeps.Reports.length = sampleRoot.Spec.Reports.length ∧
        (FaithfulReportGetter sampleReportGetter →
          (sampleDeps.Reports.map Report.Name).Perm sampleRoot.Spec.Reports ∧
            ((sampleDeps.Reports.map Report.Name).Nodup ↔ sampleRoot.Spec.Reports.Nodup))) :=
  ⟨sample_resolution,
    C3_sorted_sequences sampleQueryGetter sampleDataSourceGetter sampleReportGetter sampleRoot
      sampleDeps sample_resolution⟩

/-- Witness for C4 (amended): the sample stores and `sampleRoot`, whose longest path has
two edges. -/
theorem C4_bounded_graphs_resolve_witness :
    (∀ g, ¬ RefPath sampleQueryGetter 100 sampleRoot g) ∧
      ∃ deps, GetGenerationQueryDependencies sampleQueryGetter sampleDataSourceGetter
        sampleReportGetter sampleRoot = .ok deps :=
  ⟨sample_depth,
    C4_bounded_graphs_resolve sampleQueryGetter sampleDataSourceGetter sampleReportGetter
      sampleRoot (fun g hg => (sample_lookups g hg).1) (fun g hg => (sample_lookups g hg).2)
      sample_reports sample_depth⟩

/-! ## The chain store -/

theorem chainQueryGetter_faithful : FaithfulQueryGetter chainQueryGetter := by
  intro ns n g h
  simp only [chainQueryGetter, Except.ok.injEq] at h
  subst h
  exact ⟨rfl, rfl⟩

theorem chain_step_isChainQuery {q g : ReportGenerationQuery}
    (h : Step chainQueryGetter q g) : IsChainQuery g := by
  obtain ⟨n, _, hg⟩ := h
  simp only [chainQueryGetter, Except.ok.injEq] at hg
  subst hg
  rfl

theorem chain_step_length {q g : ReportGenerationQuery} (hq : IsChainQuery q)
    (h : Step chainQueryGetter q g) : g.Name.length = q.Name.length + 1 := by
  obtain ⟨n, hn, hg⟩ := h
  simp only [chainQueryGetter, Except.ok.injEq] at hg
  subst hg
  rw [hq] at hn
  simp only [queryRefs, mkQuery, List.append_nil] at hn
  split_ifs at hn
  · rw [List.mem_singleton] at hn
    subst hn
    simp [mkQuery, String.length_push]
  · cases hn

theorem chain_transGen_length {q g : ReportGenerationQuery}
    (h : Relation.TransGen (Step chainQueryGetter) q g) (hq : IsChainQuery q) :
    IsChainQuery g ∧ q.Name.length < g.Name.length := by
  induction h with
  | single hs =>
    exact ⟨chain_step_isChainQuery hs, by rw [chain_step_length hq hs]; omega⟩
  | tail _ hs ih =>
    exact ⟨chain_step_isChainQuery hs, by rw [chain_step_length ih.1 hs]; omega⟩

/-- The chain store has no cycle at all. -/
theorem chain_acyclic (g : ReportGenerationQuery) :
    ¬ Relation.TransGen (Step chainQueryGetter) g g := by
  intro h
  have hg : IsChainQuery g := by
    cases h with
    | single hs => exact chain_step_isChainQuery hs
    | tail _ hs => exact chain_step_isChainQuery hs
  have := (chain_transGen_length h hg).2
  omega

/-- Every query reachable from a root that reads no data source, in the chain store, reads
no data source. -/
theorem chain_dataSources (root g : ReportGenerationQuery) (hroot : root.Spec.DataSources = [])
    (h : ReachableOrRoot chainQueryGetter root g) : g.Spec.DataSources = [] := by
  cases h with
  | refl => exact hroot
  | tail _ hs =>
    have := chain_step_isChainQuery hs
    rw [this]; rfl

set_option maxRecDepth 100000 in
/-- In the chain store the resolution of `chainRoot` fails at depth 100. -/
theorem chain_fails :
    GetGenerationQueryDependencies chainQueryGetter sampleDataSourceGetter sampleReportGetter
      chainRoot = .error (GoError.cycleDetected 100 (chainName 100)) := by
  rfl

/-- C4, as stated, fails: in the chain store every lookup is faithful and succeeds and the
reference graph has no cycle, yet the resolution of `chainRoot`, whose chain of refs is 100
edges long, returns the cycle-detected error. -/
theorem C4_counterexample :
    FaithfulQueryGetter chainQueryGetter ∧
      FaithfulDataSourceGetter sampleDataSourceGetter ∧
      FaithfulReportGetter sampleReportGetter ∧
      (∀ g, ReachableOrRoot chainQueryGetter chainRoot g →
        ∀ n ∈ queryRefs g, ∃ g', chainQueryGetter g.Namespace n = .ok g') ∧
      (∀ g, ReachableOrRoot chainQueryGetter chainRoot g →
        ∀ n ∈ g.Spec.DataSources, ∃ d, sampleDataSourceGetter g.Namespace n = .ok d) ∧
      (∀ n ∈ chainRoot.Spec.Reports, ∃ r, sampleReportGetter chainRoot.Namespace n = .ok r) ∧
      (∀ g, ReachableOrRoot chainQueryGetter chainRoot g →
        ¬ Relation.TransGen (Step chainQueryGetter) g g) ∧
      GetGenerationQueryDependencies chainQueryGetter sampleDataSourceGetter
          sampleReportGetter chainRoot =
        .error (GoError.cycleDetected 100 (chainName 100)) := by
  refine ⟨chainQueryGetter_faithful, sampleDataSourceGetter_faithful,
    sampleReportGetter_faithful, ?_, ?_, ?_, fun g _ => chain_acyclic g, chain_fails⟩
  · intro g _ n _
    exact ⟨_, rfl⟩
  · intro g hg n hn
    rw [chain_dataSources chainRoot g rfl hg] at hn
    cases hn
  · intro n hn
    cases hn

/-! ## C5: cycles are rejected -/

/-- The source form of the recursion: the test `depth >= maxDepth`, then the two loops,
whose recursive calls are made at `depth + 1` with the same `maxDepth`. -/
theorem GetDependentGenerationQueriesWithDataSourcesMemoized_unfold
    (queryGetter : reportGenerationQueryGetter) (dataSourceGetter : reportDataSourceGetter)
    (generationQuery : ReportGenerationQuery) (depth maxDepth : Int) (a : Accumulators) :
    GetDependentGenerationQueriesWithDataSourcesMemoized queryGetter dataSourceGetter
        generationQuery depth maxDepth a =
      if depth ≥ maxDepth then
        .error (GoError.cycleDetected depth generationQuery.Name)
      else
        match queryNamesLoop queryGetter dataSourceGetter
            (fun genQuery a' => GetDependentGenerationQueriesWithDataSourcesMemoized
              queryGetter dataSourceGetter genQuery (depth + 1) maxDepth a')
            generationQuery.Namespace false generationQuery.Spec.ReportQueries a with
        | .error err => .error err
        | .ok a1 =>
          queryNamesLoop queryGetter dataSourceGetter
            (fun genQuery a' => GetDependentGenerationQueriesWithDataSourcesMemoized
              queryGetter dataSourceGetter genQuery (depth + 1) maxDepth a')
            generationQuery.Namespace true generationQuery.Spec.DynamicReportQueries a1 := by
  unfold GetDependentGenerationQueriesWithDataSourcesMemoized
  by_cases h : depth ≥ maxDepth
  · have h0 : (maxDepth - depth).toNat = 0 := by omega
    rw [if_pos h, h0]
    rfl
  · obtain ⟨k, hk⟩ : ∃ k, (maxDepth - depth).toNat = k + 1 := ⟨(maxDepth - depth).toNat - 1, by omega⟩
    have hk' : (maxDepth - (depth + 1)).toNat = k := by omega
    rw [if_neg h, hk, hk']
    rfl

/-- With all lookups succeeding, the inner loop can only fail with an error of a recursive
visit. -/
theorem queryNamesLoop_error (queryGetter : reportGenerationQueryGetter)
    (dataSourceGetter : reportDataSourceGetter)
    (recurse : ReportGenerationQuery → Accumulators → Except GoError Accumulators)
    (q : ReportGenerationQuery) (P : GoError → Prop)
    (hrec : ∀ g a e, Step queryGetter q g → recurse g a = .error e → P e)
    (hq : ∀ n ∈ queryRefs q, ∃ g, queryGetter q.Namespace n = .ok g)
    (hd : ∀ g, Step queryGetter q g →
      ∀ n ∈ g.Spec.DataSources, ∃ d, dataSourceGetter g.Namespace n = .ok d)
    (dyn : Bool) :
    ∀ (names : List String) (a : Accumulators) (e : GoError),
      (∀ n ∈ names, n ∈ queryRefs q) →
      queryNamesLoop queryGetter dataSourceGetter recurse q.Namespace dyn names a = .error e →
      P e := by
  intro names
  induction names with
  | nil => intro a e _ h; simp [queryNamesLoop] at h
  | cons n rest ih =>
    intro a e hnames h
    have hrest : ∀ m ∈ rest, m ∈ queryRefs q :=
      fun m hm => hnames m (List.mem_cons_of_mem _ hm)
    have hn : n ∈ queryRefs q := hnames n (List.mem_cons_self _ _)
    obtain ⟨g, hg⟩ := hq n hn
    have hstep : Step queryGetter q g := ⟨n, hn, hg⟩
    obtain ⟨ds, hds⟩ := dataSourcesLoop_ok dataSourceGetter g.Namespace g.Spec.DataSources
      a.dataSourceAccumulator (hd g hstep)
    unfold queryNamesLoop at h
    split at h
    · exact ih a e hrest h
    · simp only [hg, GetDependentDataSourcesMemoized, hds] at h
      split at h
      · rename_i e' he'
        simp only [Except.error.injEq] at h
        subst h
        exact hrec g _ _ hstep he'
      · exact ih _ e hrest h

/-- With all lookups succeeding, the traversal can only fail with the cycle-detected error,
raised where the depth reaches its bound. -/
theorem memoizedWalk_error (queryGetter : reportGenerationQueryGetter)
    (dataSourceGetter : reportDataSourceGetter) :
    ∀ (fuel : Nat) (depth : Int) (q : ReportGenerationQuery) (a : Accumulators) (e : GoError),
      (∀ g, ReachableOrRoot queryGetter q g →
        ∀ n ∈ queryRefs g, ∃ g', queryGetter g.Namespace n = .ok g') →
      (∀ g, Reachable queryGetter q g →
        ∀ n ∈ g.Spec.DataSources, ∃ d, dataSourceGetter g.Namespace n = .ok d) →
      memoizedWalk queryGetter dataSourceGetter fuel depth q a = .error e →
      ∃ name, e = GoError.cycleDetected (depth + fuel) name := by
  intro fuel
  induction fuel with
  | zero =>
    intro depth q a e _ _ h
    simp only [memoizedWalk, Except.error.injEq] at h
    exact ⟨q.Name, by rw [← h]; simp⟩
  | succ fuel ih =>
    intro depth q a e hq hd h
    have hrec : ∀ g b e', Step queryGetter q g →
        memoizedWalk queryGetter dataSourceGetter fuel (depth + 1) g b = .error e' →
        ∃ name, e' = GoError.cycleDetected (depth + (fuel + 1 : Nat)) name := by
      intro g b e' hs hw
      obtain ⟨name, hname⟩ := ih (depth + 1) g b e'
        (fun g' hg' => hq g' (Relation.ReflTransGen.head hs hg'))
        (fun g' hg' => hd g' (Relation.TransGen.head hs hg')) hw
      refine ⟨name, ?_⟩
      rw [hname]
      congr 1
      push_cast
      ring
    have hq0 := hq q Relation.ReflTransGen.refl
    have hd0 : ∀ g, Step queryGetter q g →
        ∀ n ∈ g.Spec.DataSources, ∃ d, dataSourceGetter g.Namespace n = .ok d :=
      fun g hs => hd g (Relation.TransGen.single hs)
    unfold memoizedWalk at h
    split at h
    · rename_i e1 he1
      simp only [Except.error.injEq] at h
      subst h
      exact queryNamesLoop_error queryGetter dataSourceGetter _ q _ hrec hq0 hd0 false _ a _
        (fun n hn => List.mem_append_left _ hn) he1
    · rename_i a1 _
      exact queryNamesLoop_error queryGetter dataSourceGetter _ q _ hrec hq0 hd0 true _ a1 _
        (fun n hn => List.mem_append_right _ hn) h

/-- After a successful traversal from the root, refs between reachable queries go down in
rank, so no reachable query lies on a cycle. -/
theorem Accumulators.Inv.acyclic {queryGetter : reportGenerationQueryGetter}
    {dataSourceGetter : reportDataSourceGetter} (hfq : FaithfulQueryGetter queryGetter)
    {root : ReportGenerationQuery} {a : Accumulators}
    (hinv : a.Inv queryGetter dataSourceGetter root) (hroot : a.Resolves root)
    (q : ReportGenerationQuery) (hq : ReachableOrRoot queryGetter root q) :
    ¬ Relation.TransGen (Step queryGetter) q q := by
  intro hcyc
  have hq' : Reachable queryGetter root q := Relation.TransGen.trans_right hq hcyc
  obtain ⟨h, hh⟩ := hinv.ranked
  have hstep : ∀ m g, Reachable queryGetter root m → Step queryGetter m g →
      h g.Name < h m.Name := by
    intro m g hm hs
    obtain ⟨d, hd⟩ := hinv.mem_of_reachable hfq hroot hm
    obtain ⟨n, hn, hg⟩ := hs
    obtain ⟨d', hd'⟩ := exists_kindRefs_of_mem_queryRefs hn
    rw [(hfq _ _ _ hg).2]
    exact hh d _ m hd d' n hd'
  have hlt : ∀ g, Relation.TransGen (Step queryGetter) q g →
      Reachable queryGetter root g ∧ h g.Name < h q.Name := by
    intro g hg
    induction hg with
    | single hs => exact ⟨Relation.TransGen.tail hq' hs, hstep _ _ hq' hs⟩
    | tail _ hs ih =>
      exact ⟨Relation.TransGen.tail ih.1 hs, lt_trans (hstep _ _ ih.1 hs) ih.2⟩
  exact lt_irrefl _ (hlt q hcyc).2

/-- C5. Cycles are rejected: under faithful lookups, if every query and data source
referenced from the root or from a reachable query can be looked up and some query that is
the root or reachable from it lies on a reference cycle (of static refs, dynamic refs or
both), then `GetGenerationQueryDependencies` returns the cycle-detected error, raised at
depth 100, and no dependency set. The function is total: it recurses on the number of
levels left below depth 100. -/
theorem C5_cycles_rejected {queryGetter : reportGenerationQueryGetter}
    {dataSourceGetter : reportDataSourceGetter} (reportGetter : reportGetter)
    (hfq : FaithfulQueryGetter queryGetter) (hfd : FaithfulDataSourceGetter dataSourceGetter)
    (root : ReportGenerationQuery)
    (hq : ∀ g, ReachableOrRoot queryGetter root g →
      ∀ n ∈ queryRefs g, ∃ g', queryGetter g.Namespace n = .ok g')
    (hd : ∀ g, ReachableOrRoot queryGetter root g →
      ∀ n ∈ g.Spec.DataSources, ∃ d, dataSourceGetter g.Namespace n = .ok d)
    (hcyc : ∃ q, ReachableOrRoot queryGetter root q ∧
      Relation.TransGen (Step queryGetter) q q) :
    ∃ name, GetGenerationQueryDependencies queryGetter dataSourceGetter reportGetter root =
      .error (GoError.cycleDetected 100 name) := by
  obtain ⟨rootDs, h1⟩ := dataSourcesLoop_ok dataSourceGetter root.Namespace
    root.Spec.DataSources [] (hd root Relation.ReflTransGen.refl)
  have hfuel : (maxDepth - 0).toNat = 100 := by decide
  cases h2 : memoizedWalk queryGetter dataSourceGetter 100 0 root ⟨[], [], []⟩ with
  | ok a =>
    obtain ⟨hinv, _, hroot⟩ := memoizedWalk_inv hfq hfd root 100 0 root _ a
      Relation.ReflTransGen.refl (Accumulators.inv_empty _ _ _) h2
    obtain ⟨q, hq1, hq2⟩ := hcyc
    exact absurd hq2 (hinv.acyclic hfq hroot q hq1)
  | error e =>
    obtain ⟨name, hname⟩ := memoizedWalk_error queryGetter dataSourceGetter 100 0 root _ e hq
      (fun g hg => hd g hg.reachableOrRoot) h2
    refine ⟨name, ?_⟩
    unfold GetGenerationQueryDependencies GetDependentDataSources
      GetDependentDataSourcesMemoized GetDependentGenerationQueries
      GetDependentGenerationQueriesWithDataSourcesMemoized
    rw [hfuel]
    simp only [h1, h2, hname]
    norm_num

/-! ## The cyclic store -/

theorem cyclicQueryGetter_faithful : FaithfulQueryGetter cyclicQueryGetter := by
  intro ns n g h
  unfold cyclicQueryGetter at h
  split_ifs at h with h1 <;> simp only [Except.ok.injEq] at h <;> subst h <;>
    simp [mkQuery, *]

theorem cyclicQueryGetter_total (ns n : String) : ∃ g, cyclicQueryGetter ns n = .ok g := by
  unfold cyclicQueryGetter
  split_ifs <;> exact ⟨_, rfl⟩

theorem cyclic_dataSources (g : ReportGenerationQuery)
    (h : ReachableOrRoot cyclicQueryGetter cyclicRoot g) : g.Spec.DataSources = [] := by
  cases h with
  | refl => rfl
  | tail _ hs =>
    obtain ⟨n, _, hg⟩ := hs
    unfold cyclicQueryGetter at hg
    split_ifs at hg <;> simp only [Except.ok.injEq] at hg <;> subst hg <;> rfl

/-- The query `a` of the cyclic store is reachable from `cyclicRoot` and lies on a cycle. -/
theorem cyclic_cycle :
    ∃ q, ReachableOrRoot cyclicQueryGetter cyclicRoot q ∧
      Relation.TransGen (Step cyclicQueryGetter) q q := by
  refine ⟨mkQuery "ns" "a" [] ["b"] [] [], ?_, ?_⟩
  · exact Relation.ReflTransGen.single ⟨"a", by decide, rfl⟩
  · exact Relation.TransGen.tail
      (Relation.TransGen.single (b := mkQuery "ns" "b" ["a"] [] [] []) ⟨"b", by decide, rfl⟩)
      ⟨"a", by decide, rfl⟩

/-- Witness for C5: the cyclic store, where `a` and `b` refer to each other. -/
theorem C5_cycles_rejected_witness :
    (∃ q, ReachableOrRoot cyclicQueryGetter cyclicRoot q ∧
        Relation.TransGen (Step cyclicQueryGetter) q q) ∧
      ∃ name, GetGenerationQueryDependencies cyclicQueryGetter sampleDataSourceGetter
        sampleReportGetter cyclicRoot = .error (GoError.cycleDetected 100 name) :=
  ⟨cyclic_cycle,
    C5_cycles_rejected sampleReportGetter cyclicQueryGetter_faithful
      sampleDataSourceGetter_faithful cyclicRoot
      (fun g _ n _ => cyclicQueryGetter_total g.Namespace n)
      (fun g hg n hn => by rw [cyclic_dataSources g hg] at hn; cases hn)
      cyclic_cycle⟩

/-! ## C6: a failed lookup aborts the call -/

/-- Under faithful lookups a successful resolution has made every lookup it depends on,
and each of them succeeded. -/
theorem allLookupsSucceed_of_ok {queryGetter : reportGenerationQueryGetter}
    {dataSourceGetter : reportDataSourceGetter} {reportGetter : reportGetter}
    (hfq : FaithfulQueryGetter queryGetter) (hfd : FaithfulDataSourceGetter dataSourceGetter)
    {root : ReportGenerationQuery} {deps : ReportGenerationQueryDependencies}
    (h : GetGenerationQueryDependencies queryGetter dataSourceGetter reportGetter root =
      .ok deps) :
    AllLookupsSucceed queryGetter dataSourceGetter reportGetter root := by
  obtain ⟨rootDs, a, reports, hds, hw, hr, _⟩ := GetGenerationQueryDependencies_ok h
  obtain ⟨hinv, _, hroot⟩ := memoizedWalk_inv hfq hfd root 100 0 root _ a
    Relation.ReflTransGen.refl (Accumulators.inv_empty _ _ _) hw
  obtain ⟨r1, r2⟩ := rootDataSources_spec hfd root rootDs hds
  obtain ⟨a1, a2⟩ := hinv.dataSources_spec hfq hfd hroot
  refine ⟨?_, ?_, ?_, ?_⟩
  · intro n hn
    obtain ⟨d, hd, rfl⟩ := List.mem_map.1 ((r1 n).2 hn)
    exact ⟨d, r2 d hd⟩
  · intro q hq n hn
    obtain ⟨dyn, hdyn⟩ := exists_kindRefs_of_mem_queryRefs hn
    obtain ⟨v, hv⟩ := GoMap.exists_of_mem_keys
      (hinv.resolves_of_reachableOrRoot hfq hroot hq dyn n hdyn)
    rw [hq.namespace_eq hfq]
    exact ⟨v, hinv.query_lookup dyn n v hv⟩
  · intro q hq n hn
    obtain ⟨d, hd, rfl⟩ := List.mem_map.1 ((a1 n).2 ⟨q, hq, hn⟩)
    rw [hq.reachableOrRoot.namespace_eq hfq]
    exact ⟨d, a2 d hd⟩
  · intro n hn
    have hmem : reportGetter root.Namespace n ∈ reports.map Except.ok := by
      rw [← reportsLoop_ok reportGetter root.Namespace root.Spec.Reports reports hr]
      exact List.mem_map_of_mem _ hn
    obtain ⟨r, _, hr'⟩ := List.mem_map.1 hmem
    exact ⟨r, hr'.symm⟩

/-- The sample root with a second static ref, to a name the sample store does not hold. -/
theorem sample_missing_ref :
    ¬ AllLookupsSucceed sampleQueryGetter sampleDataSourceGetter sampleReportGetter
      rootMissingRef := by
  rintro ⟨_, h, _, _⟩
  obtain ⟨g, hg⟩ := h rootMissingRef Relation.ReflTransGen.refl "missing" (by decide)
  simp [sampleQueryGetter, rootMissingRef, mkQuery] at hg

/-- C6. Lookup failure aborts the call: under faithful lookups, if
`GetGenerationQueryDependencies` returns a dependency set then every lookup it depends on
succeeded (the data sources of the root, the static and dynamic refs of the root and of
every reachable query, the data sources of every reachable query, the reports of the
root); equivalently, if one of these lookups fails, the call returns an error and no
dependency set. -/
theorem C6_lookup_failure_aborts {queryGetter : reportGenerationQueryGetter}
    {dataSourceGetter : reportDataSourceGetter} (reportGetter : reportGetter)
    (hfq : FaithfulQueryGetter queryGetter) (hfd : FaithfulDataSourceGetter dataSourceGetter)
    (root : ReportGenerationQuery) :
    (∀ deps, GetGenerationQueryDependencies queryGetter dataSourceGetter reportGetter root =
        .ok deps → AllLookupsSucceed queryGetter dataSourceGetter reportGetter root) ∧
      (¬ AllLookupsSucceed queryGetter dataSourceGetter reportGetter root →
        ∃ err, GetGenerationQueryDependencies queryGetter dataSourceGetter reportGetter root =
          .error err) := by
  refine ⟨fun deps h => allLookupsSucceed_of_ok hfq hfd h, ?_⟩
  intro hnot
  cases h : GetGenerationQueryDependencies queryGetter dataSourceGetter reportGetter root with
  | error err => exact ⟨err, rfl⟩
  | ok deps => exact absurd (allLookupsSucceed_of_ok hfq hfd h) hnot

/-- Witness for C6: `sampleRoot` resolves, so all its lookups succeed; `rootMissingRef`
has a ref that cannot be looked up, so its resolution fails. -/
theorem C6_lookup_failure_aborts_witness :
    AllLookupsSucceed sampleQueryGetter sampleDataSourceGetter sampleReportGetter sampleRoot ∧
      ∃ err, GetGenerationQueryDependencies sampleQueryGetter sampleDataSourceGetter
        sampleReportGetter rootMissingRef = .error err :=
  ⟨(C6_lookup_failure_aborts sampleReportGetter sampleQueryGetter_faithful
      sampleDataSourceGetter_faithful sampleRoot).1 sampleDeps sample_resolution,
    (C6_lookup_failure_aborts sampleReportGetter sampleQueryGetter_faithful
      sampleDataSourceGetter_faithful rootMissingRef).2 sample_missing_ref⟩

/-! ## C7: the listing order of the root -/

theorem SameUpToListingOrder.symm {r1 r2 : ReportGenerationQuery}
    (h : SameUpToListingOrder r1 r2) : SameUpToListingOrder r2 r1 := by
  obtain ⟨h1, h2, h3, h4, h5, h6, h7, h8, h9⟩ := h
  exact ⟨h1.symm, h2.symm, h3.symm, h4.symm, h5.symm, h6.symm, h7.symm, h8.symm, h9.symm⟩

theorem SameUpToListingOrder.mem_kindRefs {r1 r2 : ReportGenerationQuery}
    (h : SameUpToListingOrder r1 r2) (dyn : Bool) (n : String) :
    n ∈ kindRefs dyn r1 ↔ n ∈ kindRefs dyn r2 := by
  cases dyn
  · exact h.2.2.2.2.2.1.mem_iff
  · exact h.2.2.2.2.2.2.1.mem_iff

theorem SameUpToListingOrder.mem_queryRefs {r1 r2 : ReportGenerationQuery}
    (h : SameUpToListingOrder r1 r2) (n : String) :
    n ∈ queryRefs r1 ↔ n ∈ queryRefs r2 := by
  simp only [queryRefs, List.mem_append]
  rw [h.2.2.2.2.2.1.mem_iff, h.2.2.2.2.2.2.1.mem_iff]

theorem SameUpToListingOrder.step_transfer {queryGetter : reportGenerationQueryGetter}
    {r1 r2 : ReportGenerationQuery} (h : SameUpToListingOrder r1 r2)
    {g : ReportGenerationQuery} (hs : Step queryGetter r1 g) : Step queryGetter r2 g := by
  obtain ⟨n, hn, hg⟩ := hs
  exact ⟨n, (h.mem_queryRefs n).1 hn, by rw [← h.1]; exact hg⟩

theorem SameUpToListingOrder.reachable {queryGetter : reportGenerationQueryGetter}
    {r1 r2 : ReportGenerationQuery} (h : SameUpToListingOrder r1 r2)
    {g : ReportGenerationQuery} (hr : Reachable queryGetter r1 g) :
    Reachable queryGetter r2 g := by
  obtain ⟨m, hs, hm⟩ := Relation.TransGen.head'_iff.1 hr
  exact Relation.TransGen.head' (h.step_transfer hs) hm

theorem SameUpToListingOrder.sources {queryGetter : reportGenerationQueryGetter}
    {r1 r2 : ReportGenerationQuery} (h : SameUpToListingOrder r1 r2) (dyn : Bool)
    (n : String) (hn : ∃ q, ReachableOrRoot queryGetter r1 q ∧ n ∈ kindRefs dyn q) :
    ∃ q, ReachableOrRoot queryGetter r2 q ∧ n ∈ kindRefs dyn q := by
  obtain ⟨q, hq, hmem⟩ := hn
  rcases Relation.reflTransGen_iff_eq_or_transGen.1 hq with heq | hreach
  · subst heq
    exact ⟨r2, Relation.ReflTransGen.refl, (h.mem_kindRefs dyn n).1 hmem⟩
  · exact ⟨q, (h.reachable hreach).reachableOrRoot, hmem⟩

theorem SameUpToListingOrder.refPath {queryGetter : reportGenerationQueryGetter}
    {r1 r2 : ReportGenerationQuery} (h : SameUpToListingOrder r1 r2) {k : Nat}
    (hp : ∀ g, ¬ RefPath queryGetter (k + 1) r1 g) :
    ∀ g, ¬ RefPath queryGetter (k + 1) r2 g := by
  intro g hg
  cases hg with
  | cons hs hrest => exact hp g (RefPath.cons (h.symm.step_transfer hs) hrest)

theorem SameUpToListingOrder.allLookupsSucceed {queryGetter : reportGenerationQueryGetter}
    {dataSourceGetter : reportDataSourceGetter} {reportGetter : reportGetter}
    {r1 r2 : ReportGenerationQuery} (h : SameUpToListingOrder r1 r2)
    (hall : AllLookupsSucceed queryGetter dataSourceGetter reportGetter r1) :
    AllLookupsSucceed queryGetter dataSourceGetter reportGetter r2 := by
  obtain ⟨a1, a2, a3, a4⟩ := hall
  refine ⟨?_, ?_, ?_, ?_⟩
  · intro n hn
    rw [← h.1]
    exact a1 n (h.2.2.2.2.2.2.2.1.mem_iff.2 hn)
  · intro q hq n hn
    rcases Relation.reflTransGen_iff_eq_or_transGen.1 hq with heq | hreach
    · subst heq
      rw [← h.1]
      exact a2 r1 Relation.ReflTransGen.refl n ((h.mem_queryRefs n).2 hn)
    · exact a2 q (h.symm.reachable hreach).reachableOrRoot n hn
  · intro q hq n hn
    exact a3 q (h.symm.reachable hq) n hn
  · intro n hn
    rw [← h.1]
    exact a4 n (h.2.2.2.2.2.2.2.2.mem_iff.2 hn)

/-- The members of an accumulator after a successful traversal from the root. -/
theorem Accumulators.Inv.mem_values_iff {queryGetter : reportGenerationQueryGetter}
    {dataSourceGetter : reportDataSourceGetter} (hfq : FaithfulQueryGetter queryGetter)
    {root : ReportGenerationQuery} {a : Accumulators}
    (hinv : a.Inv queryGetter dataSourceGetter root) (hroot : a.Resolves root)
    (dyn : Bool) (v : ReportGenerationQuery) :
    v ∈ (a.accum dyn).values ↔
      queryGetter root.Namespace v.Name = .ok v ∧
        ∃ q, ReachableOrRoot queryGetter root q ∧ v.Name ∈ kindRefs dyn q := by
  constructor
  · intro hv
    obtain ⟨⟨k, v'⟩, hm, rfl⟩ := List.mem_map.1 hv
    have hname := hinv.name_eq hfq hm
    simp only at hname ⊢
    rw [hname]
    exact ⟨hinv.query_lookup dyn k v' hm, hinv.query_source dyn k v' hm⟩
  · rintro ⟨hl, hsrc⟩
    obtain ⟨v', hv'⟩ := GoMap.exists_of_mem_keys ((hinv.mem_keys_iff hfq hroot dyn _).2 hsrc)
    have := hinv.query_lookup dyn _ v' hv'
    rw [hl] at this
    rw [Except.ok.inj this]
    exact List.mem_map.2 ⟨_, hv', rfl⟩

/-- The reports returned by the loop are the successful lookups of the names, in order. -/
theorem reportsLoop_filterMap (reportGetter : reportGetter) (ns : String) :
    ∀ (names : List String) (reports : List Report),
      reportsLoop reportGetter ns names = .ok reports →
      reports = names.filterMap (fun n => (reportGetter ns n).toOption) := by
  intro names
  induction names with
  | nil =>
    intro reports h
    simp only [reportsLoop, Except.ok.injEq] at h
    subst h; rfl
  | cons n rest ih =>
    intro reports h
    unfold reportsLoop at h
    split at h
    · cases h
    · rename_i r hr
      split at h
      · cases h
      · rename_i rs hrs
        simp only [Except.ok.injEq] at h
        subst h
        rw [List.filterMap_cons, hr, ← ih rs hrs]
        rfl

/-- Sorting two lists with the same entries, in which the name determines the entry, gives
the same list. -/
theorem sortByName_eq_of_perm {α : Type} (name : α → String) (l1 l2 : List α)
    (hp : l1.Perm l2) (hinj : ∀ x ∈ l1, ∀ y ∈ l1, name x = name y → x = y) :
    sortByName name l1 = sortByName name l2 := by
  have hasym : IsAntisymm α (fun x y => name x ≤ name y ∧ (name y ≤ name x → x = y)) :=
    ⟨fun x y h1 h2 => h1.2 h2.1⟩
  have hs : ∀ l : List α, l.Perm l1 →
      (sortByName name l).Pairwise
        (fun x y => name x ≤ name y ∧ (name y ≤ name x → x = y)) := by
    intro l hl
    refine (sortByName_sorted name l).imp_of_mem ?_
    intro x y hx hy hle
    refine ⟨hle, fun hge => ?_⟩
    have hx' : x ∈ l1 := hl.mem_iff.1 ((mem_sortByName name l x).1 hx)
    have hy' : y ∈ l1 := hl.mem_iff.1 ((mem_sortByName name l y).1 hy)
    exact hinj x hx' y hy' (le_antisymm hle hge)
  have hperm : (sortByName name l1).Perm (sortByName name l2) :=
    ((sortByName_perm name l1).trans hp).trans (sortByName_perm name l2).symm
  exact List.eq_of_perm_of_sorted hperm (hs l1 (List.Perm.refl _)) (hs l2 hp.symm)

/-- The members of the four sequences of a successful resolution under faithful lookups. -/
theorem resolution_members {queryGetter : reportGenerationQueryGetter}
    {dataSourceGetter : reportDataSourceGetter} {reportGetter : reportGetter}
    (hfq : FaithfulQueryGetter queryGetter) (hfd : FaithfulDataSourceGetter dataSourceGetter)
    {root : ReportGenerationQuery} {deps : ReportGenerationQueryDependencies}
    (h : GetGenerationQueryDependencies queryGetter dataSourceGetter reportGetter root =
      .ok deps) :
    (∀ v, v ∈ deps.ReportGenerationQueries ↔
        queryGetter root.Namespace v.Name = .ok v ∧
          ∃ q, ReachableOrRoot queryGetter root q ∧ v.Name ∈ kindRefs false q) ∧
      (∀ v, v ∈ deps.DynamicReportGenerationQueries ↔
        queryGetter root.Namespace v.Name = .ok v ∧
          ∃ q, ReachableOrRoot queryGetter root q ∧ v.Name ∈ kindRefs true q) ∧
      (∀ x, x ∈ deps.ReportDataSources ↔
        dataSourceGetter root.Namespace x.Name = .ok x ∧
          (x.Name ∈ root.Spec.DataSources ∨
            ∃ q, Reachable queryGetter root q ∧ x.Name ∈ q.Spec.DataSources)) ∧
      deps.Reports = sortByName Report.Name
        (root.Spec.Reports.filterMap (fun n => (reportGetter root.Namespace n).toOption)) := by
  obtain ⟨rootDs, a, reports, hds, hw, hr, hdeps⟩ := GetGenerationQueryDependencies_ok h
  obtain ⟨hinv, _, hroot⟩ := memoizedWalk_inv hfq hfd root 100 0 root _ a
    Relation.ReflTransGen.refl (Accumulators.inv_empty _ _ _) hw
  obtain ⟨r1, r2⟩ := rootDataSources_spec hfd root rootDs hds
  obtain ⟨a1, a2⟩ := hinv.dataSources_spec hfq hfd hroot
  obtain ⟨d1, _, d3⟩ := dedupDataSources_spec (rootDs.values ++ a.dataSourceAccumulator.values)
    [] [] (fun n => by simp)
  subst hdeps
  refine ⟨?_, ?_, ?_, ?_⟩
  · intro v
    rw [mem_sortByName]
    exact hinv.mem_values_iff hfq hroot false v
  · intro v
    rw [mem_sortByName]
    exact hinv.mem_values_iff hfq hroot true v
  · intro x
    simp only [mem_sortByName]
    have hlook : ∀ y ∈ rootDs.values ++ a.dataSourceAccumulator.values,
        dataSourceGetter root.Namespace y.Name = .ok y := by
      intro y hy
      rcases List.mem_append.1 hy with h2 | h2
      · exact r2 y h2
      · exact a2 y h2
    have hnames : ∀ n, n ∈ (rootDs.values ++ a.dataSourceAccumulator.values).map
        ReportDataSource.Name ↔ n ∈ root.Spec.DataSources ∨
          ∃ q, Reachable queryGetter root q ∧ n ∈ q.Spec.DataSources := by
      intro n
      rw [List.map_append, List.mem_append, r1 n, a1 n]
    constructor
    · intro hx
      have hxl : x ∈ rootDs.values ++ a.dataSourceAccumulator.values := by
        rcases d3 x hx with h1 | h1
        · cases h1
        · exact h1
      exact ⟨hlook x hxl, (hnames x.Name).1 (List.mem_map_of_mem _ hxl)⟩
    · rintro ⟨hl, hsrc⟩
      have hn : x.Name ∈ (dedupDataSources
          (rootDs.values ++ a.dataSourceAccumulator.values) [] []).map ReportDataSource.Name :=
        (d1 x.Name).2 (Or.inr ((hnames x.Name).2 hsrc))
      obtain ⟨y, hy, hyx⟩ := List.mem_map.1 hn
      have hyl : y ∈ rootDs.values ++ a.dataSourceAccumulator.values := by
        rcases d3 y hy with h1 | h1
        · cases h1
        · exact h1
      have := hlook y hyl
      rw [hyx, hl] at this
      rw [Except.ok.inj this]
      exact hy
  · rw [reportsLoop_filterMap reportGetter root.Namespace root.Spec.Reports reports hr]

/-- The three sequences that come out of maps are strictly ascending by name. -/
theorem resolution_strict {queryGetter : reportGenerationQueryGetter}
    {dataSourceGetter : reportDataSourceGetter} {reportGetter : reportGetter}
    {root : ReportGenerationQuery} {deps : ReportGenerationQueryDependencies}
    (h : GetGenerationQueryDependencies queryGetter dataSourceGetter reportGetter root =
      .ok deps) :
    deps.ReportGenerationQueries.Pairwise (fun x y => x.Name < y.Name) ∧
      deps.DynamicReportGenerationQueries.Pairwise (fun x y => x.Name < y.Name) ∧
      deps.ReportDataSources.Pairwise (fun x y => x.Name < y.Name) := by
  obtain ⟨rootDs, a, reports, _, hw, _, hdeps⟩ := GetGenerationQueryDependencies_ok h
  obtain ⟨k1, k2, _⟩ := memoizedWalk_keyedByName queryGetter dataSourceGetter 100 0 root _ a
    ⟨GoMap.keyedByName_nil _, GoMap.keyedByName_nil _, GoMap.keyedByName_nil _⟩ hw
  obtain ⟨_, d2, _⟩ := dedupDataSources_spec (rootDs.values ++ a.dataSourceAccumulator.values)
    [] [] (fun n => by simp)
  subst hdeps
  exact ⟨sortByName_strict _ _ k1.nodup_names, sortByName_strict _ _ k2.nodup_names,
    sortByName_strict _ _ (d2 List.nodup_nil)⟩

/-- Resolution succeeds when all lookups do and no path from the root has 100 edges. -/
theorem resolution_succeeds {queryGetter : reportGenerationQueryGetter}
    {dataSourceGetter : reportDataSourceGetter} {reportGetter : reportGetter}
    {root : ReportGenerationQuery}
    (hall : AllLookupsSucceed queryGetter dataSourceGetter reportGetter root)
    (hdepth : ∀ g, ¬ RefPath queryGetter 100 root g) :
    ∃ deps, GetGenerationQueryDependencies queryGetter dataSourceGetter reportGetter root =
      .ok deps := by
  obtain ⟨a1, a2, a3, a4⟩ := hall
  obtain ⟨rootDs, h1⟩ := dataSourcesLoop_ok dataSourceGetter root.Namespace
    root.Spec.DataSources [] a1
  obtain ⟨a, h2⟩ := memoizedWalk_succeeds queryGetter dataSourceGetter 100 0 root ⟨[], [], []⟩
    hdepth a2 a3
  obtain ⟨reports, h3⟩ := reportsLoop_succeeds reportGetter root.Namespace root.Spec.Reports a4
  exact GetGenerationQueryDependencies_succeeds h1 h2 h3

/-- Two successful resolutions of roots that differ only in listing order agree. -/
theorem resolution_eq_of_sameUpToListingOrder {queryGetter : reportGenerationQueryGetter}
    {dataSourceGetter : reportDataSourceGetter} {reportGetter : reportGetter}
    (hfq : FaithfulQueryGetter queryGetter) (hfd : FaithfulDataSourceGetter dataSourceGetter)
    (hfr : FaithfulReportGetter reportGetter) {r1 r2 : ReportGenerationQuery}
    (hsame : SameUpToListingOrder r1 r2) {d1 d2 : ReportGenerationQueryDependencies}
    (h1 : GetGenerationQueryDependencies queryGetter dataSourceGetter reportGetter r1 = .ok d1)
    (h2 : GetGenerationQueryDependencies queryGetter dataSourceGetter reportGetter r2 = .ok d2) :
    d1 = d2 := by
  obtain ⟨m1, m2, m3, m4⟩ := resolution_members hfq hfd h1
  obtain ⟨n1, n2, n3, n4⟩ := resolution_members hfq hfd h2
  obtain ⟨s1, s2, s3⟩ := resolution_strict h1
  obtain ⟨t1, t2, t3⟩ := resolution_strict h2
  have hns : r1.Namespace = r2.Namespace := hsame.1
  have e1 : d1.ReportGenerationQueries = d2.ReportGenerationQueries := by
    apply eq_of_strict_of_mem_iff ReportGenerationQuery.Name _ _ s1 t1
    intro v
    rw [m1 v, n1 v, hns]
    exact and_congr_right fun _ => ⟨hsame.sources false _, hsame.symm.sources false _⟩
  have e2 : d1.DynamicReportGenerationQueries = d2.DynamicReportGenerationQueries := by
    apply eq_of_strict_of_mem_iff ReportGenerationQuery.Name _ _ s2 t2
    intro v
    rw [m2 v, n2 v, hns]
    exact and_congr_right fun _ => ⟨hsame.sources true _, hsame.symm.sources true _⟩
  have e3 : d1.ReportDataSources = d2.ReportDataSources := by
    apply eq_of_strict_of_mem_iff ReportDataSource.Name _ _ s3 t3
    intro x
    rw [m3 x, n3 x, hns, hsame.2.2.2.2.2.2.2.1.mem_iff]
    refine and_congr_right fun _ => or_congr_right ?_
    constructor
    · rintro ⟨q, hq, hn⟩; exact ⟨q, hsame.reachable hq, hn⟩
    · rintro ⟨q, hq, hn⟩; exact ⟨q, hsame.symm.reachable hq, hn⟩
  have e4 : d1.Reports = d2.Reports := by
    rw [m4, n4, hns]
    apply sortByName_eq_of_perm
    · exact hsame.2.2.2.2.2.2.2.2.filterMap _
    · intro x hx y hy hxy
      obtain ⟨nx, _, hnx⟩ := List.mem_filterMap.1 hx
      obtain ⟨ny, _, hny⟩ := List.mem_filterMap.1 hy
      have hx' : reportGetter r2.Namespace nx = .ok x := by
        cases hc : reportGetter r2.Namespace nx with
        | error e => rw [hc] at hnx; cases hnx
        | ok r => rw [hc] at hnx; cases hnx; rfl
      have hy' : reportGetter r2.Namespace ny = .ok y := by
        cases hc : reportGetter r2.Namespace ny with
        | error e => rw [hc] at hny; cases hny
        | ok r => rw [hc] at hny; cases hny; rfl
      have hnxy : nx = ny := by
        rw [← (hfr _ _ _ hx').2, ← (hfr _ _ _ hy').2, hxy]
      rw [hnxy, hy'] at hx'
      exact (Except.ok.inj hx').symm
  cases d1; cases d2
  simp only at e1 e2 e3 e4
  subst e1 e2 e3 e4
  rfl

theorem shortcut_sameUpToListingOrder :
    SameUpToListingOrder shortcutRoot shortcutRootSwapped :=
  ⟨rfl, rfl, rfl, rfl, rfl, List.Perm.swap _ _ _, List.Perm.refl _, List.Perm.refl _,
    List.Perm.refl _⟩

set_option maxRecDepth 100000 in
/-- With the last query of the chain listed first, it is recorded at depth 1 and the chain
is walked without reaching depth 100. -/
theorem shortcut_resolves :
    ∃ deps, GetGenerationQueryDependencies chainQueryGetter sampleDataSourceGetter
      sampleReportGetter shortcutRoot = .ok deps := by
  have h : (GetGenerationQueryDependencies chainQueryGetter sampleDataSourceGetter
      sampleReportGetter shortcutRoot).toBool = true := by rfl
  cases hres : GetGenerationQueryDependencies chainQueryGetter sampleDataSourceGetter
      sampleReportGetter shortcutRoot with
  | ok deps => exact ⟨deps, rfl⟩
  | error e => rw [hres] at h; cases h

set_option maxRecDepth 100000 in
/-- With the head of the chain listed first, its last query is visited at depth 100. -/
theorem shortcut_swapped_fails :
    GetGenerationQueryDependencies chainQueryGetter sampleDataSourceGetter sampleReportGetter
      shortcutRootSwapped = .error (GoError.cycleDetected 100 (chainName 100)) := by
  rfl

/-- C7, as stated, fails: in the chain store, under faithful lookups, the roots
`shortcutRoot` and `shortcutRootSwapped` differ only in the order of their two static refs,
yet the first resolves and the second returns the cycle-detected error. -/
theorem C7_counterexample :
    FaithfulQueryGetter chainQueryGetter ∧
      FaithfulDataSourceGetter sampleDataSourceGetter ∧
      FaithfulReportGetter sampleReportGetter ∧
      SameUpToListingOrder shortcutRoot shortcutRootSwapped ∧
      (∃ deps, GetGenerationQueryDependencies chainQueryGetter sampleDataSourceGetter
        sampleReportGetter shortcutRoot = .ok deps) ∧
      GetGenerationQueryDependencies chainQueryGetter sampleDataSourceGetter
          sampleReportGetter shortcutRootSwapped =
        .error (GoError.cycleDetected 100 (chainName 100)) :=
  ⟨chainQueryGetter_faithful, sampleDataSourceGetter_faithful, sampleReportGetter_faithful,
    shortcut_sameUpToListingOrder, shortcut_resolves, shortcut_swapped_fails⟩

/-- C7, amended. Under faithful lookups, for two root queries that differ only in the
order in which names are listed inside their four ref lists: if
`GetGenerationQueryDependencies` succeeds on both, the two dependency sets are equal; and
if no path of the reference graph from the root has 100 edges or more, it succeeds on one
iff it succeeds on the other. -/
theorem C7_listing_order {queryGetter : reportGenerationQueryGetter}
    {dataSourceGetter : reportDataSourceGetter} {reportGetter : reportGetter}
    (hfq : FaithfulQueryGetter queryGetter) (hfd : FaithfulDataSourceGetter dataSourceGetter)
    (hfr : FaithfulReportGetter reportGetter) (r1 r2 : ReportGenerationQuery)
    (hsame : SameUpToListingOrder r1 r2) :
    (∀ d1 d2,
        GetGenerationQueryDependencies queryGetter dataSourceGetter reportGetter r1 = .ok d1 →
        GetGenerationQueryDependencies queryGetter dataSourceGetter reportGetter r2 = .ok d2 →
        d1 = d2) ∧
      ((∀ g, ¬ RefPath queryGetter 100 r1 g) →
        ((∃ d1, GetGenerationQueryDependencies queryGetter dataSourceGetter reportGetter r1 =
            .ok d1) ↔
          ∃ d2, GetGenerationQueryDependencies queryGetter dataSourceGetter reportGetter r2 =
            .ok d2)) := by
  refine ⟨fun d1 d2 h1 h2 => resolution_eq_of_sameUpToListingOrder hfq hfd hfr hsame h1 h2, ?_⟩
  intro hdepth
  constructor
  · rintro ⟨d1, h1⟩
    exact resolution_succeeds (hsame.allLookupsSucceed (allLookupsSucceed_of_ok hfq hfd h1))
      (hsame.refPath hdepth)
  · rintro ⟨d2, h2⟩
    exact resolution_succeeds
      (hsame.symm.allLookupsSucceed (allLookupsSucceed_of_ok hfq hfd h2)) hdepth

theorem sample_sameUpToListingOrder : SameUpToListingOrder sampleRoot sampleRootSwapped :=
  ⟨rfl, rfl, rfl, rfl, rfl, List.Perm.refl _, List.Perm.refl _, List.Perm.refl _,
    List.Perm.swap _ _ _⟩

/-- Witness for C7 (amended): `sampleRoot` and the same root with its two reports listed
in the other order. -/
theorem C7_listing_order_witness :
    SameUpToListingOrder sampleRoot sampleRootSwapped ∧
      ((∀ d1 d2,
          GetGenerationQueryDependencies sampleQueryGetter sampleDataSourceGetter
            sampleReportGetter sampleRoot = .ok d1 →
          GetGenerationQueryDependencies sampleQueryGetter sampleDataSourceGetter
            sampleReportGetter sampleRootSwapped = .ok d2 →
          d1 = d2) ∧
        ((∀ g, ¬ RefPath sampleQueryGetter 100 sampleRoot g) →
          ((∃ d1, GetGenerationQueryDependencies sampleQueryGetter sampleDataSourceGetter
              sampleReportGetter sampleRoot = .ok d1) ↔
            ∃ d2, GetGenerationQueryDependencies sampleQueryGetter sampleDataSourceGetter
              sampleReportGetter sampleRootSwapped = .ok d2))) :=
  ⟨sample_sameUpToListingOrder,
    C7_listing_order sampleQueryGetter_faithful sampleDataSourceGetter_faithful
      sampleReportGetter_faithful sampleRoot sampleRootSwapped sample_sameUpToListingOrder⟩

/-! ## The iteration order of the maps does not matter

The values of a Go map are ranged over in an unspecified order. The sequences built from
the accumulators are sorted by name, and names are unique among them, so every order gives
the same result. -/

theorem dedupDataSources_acc :
    ∀ (l : List ReportDataSource) (seen : List String) (acc : List ReportDataSource),
      dedupDataSources l seen acc = acc ++ dedupDataSources l seen [] := by
  intro l
  induction l with
  | nil => intro seen acc; simp [dedupDataSources]
  | cons d rest ih =>
    intro seen acc
    unfold dedupDataSources
    split
    · exact ih seen acc
    · rw [ih (d.Name :: seen) (acc ++ [d]), ih (d.Name :: seen) ([] ++ [d])]
      simp

theorem dedupDataSources_seen_congr :
    ∀ (l : List ReportDataSource) (seen seen' : List String) (acc : List ReportDataSource),
      (∀ n, n ∈ seen ↔ n ∈ seen') →
      dedupDataSources l seen acc = dedupDataSources l seen' acc := by
  intro l
  induction l with
  | nil => intro seen seen' acc _; simp [dedupDataSources]
  | cons d rest ih =>
    intro seen seen' acc h
    have hc : seen.contains d.Name = seen'.contains d.Name := by
      rw [Bool.eq_iff_iff]; simpa using h d.Name
    unfold dedupDataSources
    rw [hc]
    split
    · exact ih seen seen' acc h
    · apply ih
      intro n
      simp only [List.mem_cons, h n]

theorem dedupDataSources_cons (d : ReportDataSource) (rest : List ReportDataSource)
    (seen : List String) (acc : List ReportDataSource) :
    dedupDataSources (d :: rest) seen acc =
      if seen.contains d.Name then dedupDataSources rest seen acc
      else dedupDataSources rest (d.Name :: seen) (acc ++ [d]) := by
  rw [dedupDataSources]

theorem dedupDataSources_filter :
    ∀ (l : List ReportDataSource) (seen : List String),
      (l.map ReportDataSource.Name).Nodup →
      dedupDataSources l seen [] = l.filter (fun x => !seen.contains x.Name) := by
  intro l
  induction l with
  | nil => intro seen _; simp [dedupDataSources]
  | cons d rest ih =>
    intro seen hnd
    rw [List.map_cons, List.nodup_cons] at hnd
    rw [dedupDataSources_cons, List.filter_cons]
    by_cases hc : seen.contains d.Name = true
    · have hc' : (!seen.contains d.Name) = false := by rw [hc]; rfl
      rw [if_pos hc, ih seen hnd.2, hc']
      simp
    · rw [if_neg hc, dedupDataSources_acc, ih (d.Name :: seen) hnd.2]
      have hc' : (!seen.contains d.Name) = true := by simpa using hc
      rw [if_pos hc']
      simp only [List.nil_append, List.singleton_append, List.cons.injEq, true_and]
      apply List.filter_congr
      intro x hx
      have hne : x.Name ≠ d.Name := fun heq => hnd.1 (heq ▸ List.mem_map_of_mem _ hx)
      simp [List.contains_cons, hne]

theorem dedupDataSources_append :
    ∀ (l1 l2 : List ReportDataSource) (seen : List String) (acc : List ReportDataSource),
      dedupDataSources (l1 ++ l2) seen acc =
        dedupDataSources l2 (l1.map ReportDataSource.Name ++ seen)
          (dedupDataSources l1 seen acc) := by
  intro l1
  induction l1 with
  | nil => intro l2 seen acc; simp [dedupDataSources]
  | cons d rest ih =>
    intro l2 seen acc
    rw [List.cons_append, dedupDataSources_cons, dedupDataSources_cons d rest seen acc]
    by_cases hc : seen.contains d.Name = true
    · rw [if_pos hc, if_pos hc, ih l2 seen acc]
      apply dedupDataSources_seen_congr
      intro n
      have : d.Name ∈ seen := by simpa using hc
      simp only [List.map_cons, List.cons_append, List.mem_cons, List.mem_append]
      constructor
      · intro h; exact Or.inr h
      · rintro (h | h)
        · exact Or.inr (h ▸ this)
        · exact h
    · rw [if_neg hc, if_neg hc, ih l2 (d.Name :: seen) (acc ++ [d])]
      apply dedupDataSources_seen_congr
      intro n
      simp only [List.map_cons, List.cons_append, List.mem_cons, List.mem_append]
      tauto

/-- With unique names inside each of the two lists, deduplication keeps the first list and
the entries of the second whose names the first lacks. -/
theorem dedupDataSources_two (p1 p2 : List ReportDataSource)
    (h1 : (p1.map ReportDataSource.Name).Nodup) (h2 : (p2.map ReportDataSource.Name).Nodup) :
    dedupDataSources (p1 ++ p2) [] [] =
      p1 ++ p2.filter (fun x => !(p1.map ReportDataSource.Name).contains x.Name) := by
  rw [dedupDataSources_append, dedupDataSources_acc, dedupDataSources_filter p1 [] h1,
    dedupDataSources_filter p2 _ h2]
  simp

/-- Ranging over the map of static (or dynamic) queries in another order gives the same
sorted sequence. -/
theorem sortByName_order_independent {α : Type} (name : α → String) (l1 l2 : List α)
    (hp : l1.Perm l2) (hnd : (l1.map name).Nodup) :
    sortByName name l1 = sortByName name l2 :=
  sortByName_eq_of_perm name l1 l2 hp
    (fun _ hx _ hy hxy => List.inj_on_of_nodup_map hnd hx hy hxy)

/-- Ranging over the two maps of data sources in other orders gives the same deduplicated
and sorted sequence. -/
theorem dataSources_order_independent (p1 p2 q1 q2 : List ReportDataSource)
    (hp1 : p1.Perm q1) (hp2 : p2.Perm q2)
    (h1 : (p1.map ReportDataSource.Name).Nodup) (h2 : (p2.map ReportDataSource.Name).Nodup) :
    sortByName ReportDataSource.Name (dedupDataSources (p1 ++ p2) [] []) =
      sortByName ReportDataSource.Name (dedupDataSources (q1 ++ q2) [] []) := by
  have h1' : (q1.map ReportDataSource.Name).Nodup := (hp1.map _).nodup_iff.1 h1
  have h2' : (q2.map ReportDataSource.Name).Nodup := (hp2.map _).nodup_iff.1 h2
  have hnd : ((dedupDataSources (p1 ++ p2) [] []).map ReportDataSource.Name).Nodup :=
    (dedupDataSources_spec (p1 ++ p2) [] [] (fun n => by simp)).2.1 List.nodup_nil
  apply sortByName_order_independent _ _ _ _ hnd
  rw [dedupDataSources_two p1 p2 h1 h2, dedupDataSources_two q1 q2 h1' h2']
  refine hp1.append ?_
  have hf : (fun x : ReportDataSource => !(p1.map ReportDataSource.Name).contains x.Name) =
      (fun x : ReportDataSource => !(q1.map ReportDataSource.Name).contains x.Name) := by
    funext x
    congr 1
    rw [Bool.eq_iff_iff]
    simpa using (hp1.map ReportDataSource.Name).mem_iff
  rw [hf]
  exact hp2.filter _

/-! ## C11, C12, C20: the uninitialized predicate, the hooks, the error message -/

/-- C11. Uninitialized-dependency predicate: `IsUninitializedDependencyError` of the
validation result is true iff the dependency set holds a static query with an enabled view
and an empty view name, or a data source with an empty table name, or a report with an
empty table name, whether or not a static query is disabled; on `depsMixed`, which has a
disabled static query and an uninitialized data source, both `IsInvalidDependencyError`
and `IsUninitializedDependencyError` are true of the same error. -/
theorem C11_uninitialized_dependency_predicate {σ : Type}
    (deps : ReportGenerationQueryDependencies)
    (handler : Option (UninitialiedDependendenciesHandler σ)) (s : σ) :
    (IsUninitializedDependencyError (ValidateGenerationQueryDependencies deps handler s).1 =
          true ↔
        (∃ q ∈ deps.ReportGenerationQueries,
            q.Spec.View.Disabled = false ∧ q.Status.ViewName = "") ∨
          (∃ d ∈ deps.ReportDataSources, d.Status.TableName = "") ∨
          (∃ r ∈ deps.Reports, r.Status.TableName = "")) ∧
      (IsInvalidDependencyError
          (ValidateGenerationQueryDependencies depsMixed
            (none : Option (UninitialiedDependendenciesHandler Unit)) ()).1 = true ∧
        IsUninitializedDependencyError
          (ValidateGenerationQueryDependencies depsMixed
            (none : Option (UninitialiedDependendenciesHandler Unit)) ()).1 = true) := by
  refine ⟨?_, by decide, by decide⟩
  have hq : (expectedClassification deps).uninitializedQueryNames = [] ↔
      ¬ ∃ q ∈ deps.ReportGenerationQueries,
        q.Spec.View.Disabled = false ∧ q.Status.ViewName = "" := by
    simp [expectedClassification, List.filter_eq_nil_iff]
  have hd : (expectedClassification deps).uninitializedDataSourceNames = [] ↔
      ¬ ∃ d ∈ deps.ReportDataSources, d.Status.TableName = "" := by
    simp [expectedClassification, List.filter_eq_nil_iff]
  have hr : (expectedClassification deps).uninitializedReportNames = [] ↔
      ¬ ∃ r ∈ deps.Reports, r.Status.TableName = "" := by
    simp [expectedClassification, List.filter_eq_nil_iff]
  rw [validate_fst]
  split
  · rename_i h
    have h2 := hq.1 h.2.1
    have h3 := hd.1 h.2.2.1
    have h4 := hr.1 h.2.2.2
    simp only [IsUninitializedDependencyError]
    constructor
    · intro hc; cases hc
    · rintro (hc | hc | hc)
      · exact absurd hc h2
      · exact absurd hc h3
      · exact absurd hc h4
  · simp only [IsUninitializedDependencyError, bne_iff_ne, ne_eq, List.length_eq_zero,
      Bool.or_eq_true, decide_eq_true_eq, Bool.or_self]
    rw [hq, hd, hr]
    simp only [not_not]
    constructor
    · rintro (((h1 | h1) | h1) | h1)
      · exact Or.inl h1
      · exact Or.inr (Or.inl h1)
      · exact Or.inr (Or.inr h1)
      · exact Or.inr (Or.inr h1)
    · rintro (h1 | h1 | h1)
      · exact Or.inl (Or.inl (Or.inl h1))
      · exact Or.inl (Or.inl (Or.inr h1))
      · exact Or.inr h1

theorem foldl_append_singleton {α β : Type} (f : α → β) (l : List α) (init : List β) :
    l.foldl (fun s x => s ++ [f x]) init = init ++ l.map f := by
  induction l generalizing init with
  | nil => simp
  | cons x rest ih => simp [ih]

/-- The state the hooks leave behind, for any handler. -/
theorem validate_snd {σ : Type} (deps : ReportGenerationQueryDependencies)
    (handler : Option (UninitialiedDependendenciesHandler σ)) (s : σ) :
    (ValidateGenerationQueryDependencies deps handler s).2 =
      match handler with
      | none => s
      | some h =>
        (uninitializedDataSourcesOf deps).foldl
          (fun s d => h.HandleUninitializedReportDataSource d s)
          ((uninitializedStaticQueries deps).foldl
            (fun s q => h.HandleUninitializedReportGenerationQuery q s) s) := by
  have h2 : (ValidateGenerationQueryDependencies deps handler s).2 =
      validateNotify handler (validateClassify deps) s := by
    unfold ValidateGenerationQueryDependencies
    simp only
    split <;> rfl
  rw [h2]
  obtain ⟨hq, hd⟩ := validateClassify_uninitialized deps
  cases handler with
  | none => rfl
  | some h =>
    simp only [validateNotify, hq, hd]
    rfl

/-- The error returned by the validator depends on the dependency set alone. -/
theorem validate_fst_independent {σ τ : Type} (deps : ReportGenerationQueryDependencies)
    (handler : Option (UninitialiedDependendenciesHandler σ)) (s : σ)
    (handler' : Option (UninitialiedDependendenciesHandler τ)) (s' : τ) :
    (ValidateGenerationQueryDependencies deps handler s).1 =
      (ValidateGenerationQueryDependencies deps handler' s').1 := by
  rw [validate_fst, validate_fst]

/-! ## Validation on pointers: lemmas -/

theorem foldl_validateQueryStepAt {τ : Type} (mem : Memory τ) (ps : List Nat)
    (v : validateLocalsAt) :
    (ps.foldl (validateQueryStepAt mem) v).validationErr.disabledViewQueryNames =
        v.validationErr.disabledViewQueryNames ++
          (ps.filter (fun p => (mem.queries p).Spec.View.Disabled)).map
            (fun p => (mem.queries p).Name) ∧
      (ps.foldl (validateQueryStepAt mem) v).validationErr.uninitializedQueryNames =
        v.validationErr.uninitializedQueryNames ++
          (ps.filter (fun p => (mem.queries p).Spec.View.Disabled = false ∧
            (mem.queries p).Status.ViewName = "")).map (fun p => (mem.queries p).Name) ∧
      (ps.foldl (validateQueryStepAt mem) v).uninitializedQueries =
        v.uninitializedQueries ++
          ps.filter (fun p => (mem.queries p).Spec.View.Disabled = false ∧
            (mem.queries p).Status.ViewName = "") ∧
      (ps.foldl (validateQueryStepAt mem) v).validationErr.uninitializedDataSourceNames =
        v.validationErr.uninitializedDataSourceNames ∧
      (ps.foldl (validateQueryStepAt mem) v).validationErr.uninitializedReportNames =
        v.validationErr.uninitializedReportNames ∧
      (ps.foldl (validateQueryStepAt mem) v).uninitializedDataSources =
        v.uninitializedDataSources := by
  induction ps generalizing v with
  | nil => simp
  | cons q qs ih =>
    rw [List.foldl_cons]
    obtain ⟨h1, h2, h3, h4, h5, h6⟩ := ih (validateQueryStepAt mem v q)
    rw [h1, h2, h3, h4, h5, h6]
    by_cases hd : (mem.queries q).Spec.View.Disabled = true
    · simp [validateQueryStepAt, hd]
    · have hd' : (mem.queries q).Spec.View.Disabled = false := by simpa using hd
      by_cases hv : (mem.queries q).Status.ViewName = ""
      · simp [validateQueryStepAt, hd', hv]
      · simp [validateQueryStepAt, hd', hv]

theorem foldl_validateDataSourceStepAt {τ : Type} (mem : Memory τ) (ps : List Nat)
    (v : validateLocalsAt) :
    (ps.foldl (validateDataSourceStepAt mem) v).validationErr.disabledViewQueryNames =
        v.validationErr.disabledViewQueryNames ∧
      (ps.foldl (validateDataSourceStepAt mem) v).validationErr.uninitializedQueryNames =
        v.validationErr.uninitializedQueryNames ∧
      (ps.foldl (validateDataSourceStepAt mem) v).uninitializedQueries =
        v.uninitializedQueries ∧
      (ps.foldl (validateDataSourceStepAt mem) v).validationErr.uninitializedDataSourceNames =
        v.validationErr.uninitializedDataSourceNames ++
          (ps.filter (fun p => (mem.dataSources p).Status.TableName = "")).map
            (fun p => (mem.dataSources p).Name) ∧
      (ps.foldl (validateDataSourceStepAt mem) v).validationErr.uninitializedReportNames =
        v.validationErr.uninitializedReportNames ∧
      (ps.foldl (validateDataSourceStepAt mem) v).uninitializedDataSources =
        v.uninitializedDataSources ++
          ps.filter (fun p => (mem.dataSources p).Status.TableName = "") := by
  induction ps generalizing v with
  | nil => simp
  | cons d ds ih =>
    rw [List.foldl_cons]
    obtain ⟨h1, h2, h3, h4, h5, h6⟩ := ih (validateDataSourceStepAt mem v d)
    rw [h1, h2, h3, h4, h5, h6]
    by_cases ht : (mem.dataSources d).Status.TableName = ""
    · simp [validateDataSourceStepAt, ht]
    · simp [validateDataSourceStepAt, ht]

theorem foldl_validateReportStepAt {τ : Type} (mem : Memory τ) (ps : List Nat)
    (v : validateLocalsAt) :
    (ps.foldl (validateReportStepAt mem) v).validationErr.disabledViewQueryNames =
        v.validationErr.disabledViewQueryNames ∧
      (ps.foldl (validateReportStepAt mem) v).validationErr.uninitializedQueryNames =
        v.validationErr.uninitializedQueryNames ∧
      (ps.foldl (validateReportStepAt mem) v).uninitializedQueries = v.uninitializedQueries ∧
      (ps.foldl (validateReportStepAt mem) v).validationErr.uninitializedDataSourceNames =
        v.validationErr.uninitializedDataSourceNames ∧
      (ps.foldl (validateReportStepAt mem) v).validationErr.uninitializedReportNames =
        v.validationErr.uninitializedReportNames ++
          (ps.filter (fun p => (mem.reports p).Status.TableName = "")).map
            (fun p => (mem.reports p).Name) ∧
      (ps.foldl (validateReportStepAt mem) v).uninitializedDataSources =
        v.uninitializedDataSources := by
  induction ps generalizing v with
  | nil => simp
  | cons r rs ih =>
    rw [List.foldl_cons]
    obtain ⟨h1, h2, h3, h4, h5, h6⟩ := ih (validateReportStepAt mem v r)
    rw [h1, h2, h3, h4, h5, h6]
    by_cases ht : (mem.reports r).Status.TableName = ""
    · simp [validateReportStepAt, ht]
    · simp [validateReportStepAt, ht]

/-- The error value the classification loops on pointers build is the expected
classification of the objects the pointers lead to in the memory the loops read. -/
theorem validateClassifyAt_validationErr {τ : Type} (mem : Memory τ)
    (deps : ReportGenerationQueryDependenciesAt) :
    (validateClassifyAt mem deps).validationErr = expectedClassification (mem.load deps) := by
  obtain ⟨a1, a2, _, a4, a5, _⟩ := foldl_validateQueryStepAt mem deps.ReportGenerationQueries
    ⟨[], [], ⟨[], [], [], []⟩⟩
  obtain ⟨b1, b2, _, b4, b5, _⟩ := foldl_validateDataSourceStepAt mem deps.ReportDataSources
    (deps.ReportGenerationQueries.foldl (validateQueryStepAt mem) ⟨[], [], ⟨[], [], [], []⟩⟩)
  obtain ⟨c1, c2, _, c4, c5, _⟩ := foldl_validateReportStepAt mem deps.Reports
    (deps.ReportDataSources.foldl (validateDataSourceStepAt mem)
      (deps.ReportGenerationQueries.foldl (validateQueryStepAt mem)
        ⟨[], [], ⟨[], [], [], []⟩⟩))
  have e : ∀ x y : reportGenerationQueryDependenciesValidationError,
      x.uninitializedQueryNames = y.uninitializedQueryNames →
      x.disabledViewQueryNames = y.disabledViewQueryNames →
      x.uninitializedDataSourceNames = y.uninitializedDataSourceNames →
      x.uninitializedReportNames = y.uninitializedReportNames → x = y := by
    intro x y h1 h2 h3 h4
    cases x; cases y; simp_all
  apply e
  · simp only [validateClassifyAt]; rw [c2, b2, a2]
    simp [expectedClassification, Memory.load, List.filter_map, Function.comp_def]
  · simp only [validateClassifyAt]; rw [c1, b1, a1]
    simp [expectedClassification, Memory.load, List.filter_map, Function.comp_def]
  · simp only [validateClassifyAt]; rw [c4, b4, a4]
    simp [expectedClassification, Memory.load, List.filter_map, Function.comp_def]
  · simp only [validateClassifyAt]; rw [c5, b5, a5]
    simp [expectedClassification, Memory.load, List.filter_map, Function.comp_def]

/-- The pointers handed to the hooks are those to the objects that are uninitialized in
the memory the loops read, in sequence order. -/
theorem validateClassifyAt_uninitialized {τ : Type} (mem : Memory τ)
    (deps : ReportGenerationQueryDependenciesAt) :
    (validateClassifyAt mem deps).uninitializedQueries = uninitializedQueryPointers mem deps ∧
      (validateClassifyAt mem deps).uninitializedDataSources =
        uninitializedDataSourcePointers mem deps := by
  obtain ⟨_, _, a3, _, _, a6⟩ := foldl_validateQueryStepAt mem deps.ReportGenerationQueries
    ⟨[], [], ⟨[], [], [], []⟩⟩
  obtain ⟨_, _, b3, _, _, b6⟩ := foldl_validateDataSourceStepAt mem deps.ReportDataSources
    (deps.ReportGenerationQueries.foldl (validateQueryStepAt mem) ⟨[], [], ⟨[], [], [], []⟩⟩)
  obtain ⟨_, _, c3, _, _, c6⟩ := foldl_validateReportStepAt mem deps.Reports
    (deps.ReportDataSources.foldl (validateDataSourceStepAt mem)
      (deps.ReportGenerationQueries.foldl (validateQueryStepAt mem)
        ⟨[], [], ⟨[], [], [], []⟩⟩))
  constructor
  · simp only [validateClassifyAt]; rw [c3, b3, a3]; simp [uninitializedQueryPointers]
  · simp only [validateClassifyAt]; rw [c6, b6, a6]; simp [uninitializedDataSourcePointers]

/-- The error returned on pointers is the error returned on the objects the pointers lead
to in the memory on entry, whatever the hooks do. -/
theorem validateAt_fst {τ σ : Type} (deps : ReportGenerationQueryDependenciesAt)
    (handler : Option (UninitialiedDependendenciesHandlerAt τ)) (mem : Memory τ)
    (handler' : Option (UninitialiedDependendenciesHandler σ)) (s : σ) :
    (ValidateGenerationQueryDependenciesAt deps handler mem).1 =
      (ValidateGenerationQueryDependencies (mem.load deps) handler' s).1 := by
  unfold ValidateGenerationQueryDependenciesAt ValidateGenerationQueryDependencies
  simp only [validateClassifyAt_validationErr, validateClassify_validationErr]
  split <;> rfl

/-- The memory the hooks leave behind, for any handler on pointers. -/
theorem validateAt_snd {τ : Type} (deps : ReportGenerationQueryDependenciesAt)
    (handler : Option (UninitialiedDependendenciesHandlerAt τ)) (mem : Memory τ) :
    (ValidateGenerationQueryDependenciesAt deps handler mem).2 =
      match handler with
      | none => mem
      | some h =>
        (uninitializedDataSourcePointers mem deps).foldl
          (fun m p => h.HandleUninitializedReportDataSource p m)
          ((uninitializedQueryPointers mem deps).foldl
            (fun m p => h.HandleUninitializedReportGenerationQuery p m) mem) := by
  have h2 : (ValidateGenerationQueryDependenciesAt deps handler mem).2 =
      validateNotifyAt handler (validateClassifyAt mem deps) mem := by
    unfold ValidateGenerationQueryDependenciesAt
    simp only
    split <;> rfl
  rw [h2]
  obtain ⟨hq, hd⟩ := validateClassifyAt_uninitialized mem deps
  cases handler with
  | none => rfl
  | some h =>
    simp only [validateNotifyAt, hq, hd]

theorem foldl_onPointers_queries {σ : Type} (h : UninitialiedDependendenciesHandler σ)
    (ps : List Nat) (m : Memory σ) :
    ps.foldl (fun m p => h.onPointers.HandleUninitializedReportGenerationQuery p m) m =
      { m with
        ext := (ps.map m.queries).foldl
          (fun s q => h.HandleUninitializedReportGenerationQuery q s) m.ext } := by
  induction ps generalizing m with
  | nil => rfl
  | cons p ps ih =>
    rw [List.foldl_cons, ih]
    rfl

theorem foldl_onPointers_dataSources {σ : Type} (h : UninitialiedDependendenciesHandler σ)
    (ps : List Nat) (m : Memory σ) :
    ps.foldl (fun m p => h.onPointers.HandleUninitializedReportDataSource p m) m =
      { m with
        ext := (ps.map m.dataSources).foldl
          (fun s d => h.HandleUninitializedReportDataSource d s) m.ext } := by
  induction ps generalizing m with
  | nil => rfl
  | cons p ps ih =>
    rw [List.foldl_cons, ih]
    rfl

/-- With hooks that do not write through their pointers, validation on pointers is the
validation on the objects: same error, same hook state, memory otherwise unchanged. -/
theorem validateAt_onPointers {σ : Type} (deps : ReportGenerationQueryDependenciesAt)
    (h : UninitialiedDependendenciesHandler σ) (mem : Memory σ) :
    ValidateGenerationQueryDependenciesAt deps (some h.onPointers) mem =
      ((ValidateGenerationQueryDependencies (mem.load deps) (some h) mem.ext).1,
        { mem with
          ext := (ValidateGenerationQueryDependencies (mem.load deps) (some h) mem.ext).2 }) := by
  apply Prod.ext
  · exact validateAt_fst deps (some h.onPointers) mem (some h) mem.ext
  · rw [validateAt_snd, validate_snd]
    simp only [foldl_onPointers_queries, foldl_onPointers_dataSources]
    simp [uninitializedQueryPointers, uninitializedDataSourcePointers,
      uninitializedStaticQueries, uninitializedDataSourcesOf, Memory.load, List.filter_map,
      Function.comp_def]

/-- C12. Hook notifications: with a present handler the validator calls
`HandleUninitializedReportGenerationQuery` once for each static query with an enabled view
and an empty view name, in sequence order, and then `HandleUninitializedReportDataSource`
once for each data source with an empty table name, in sequence order, and nothing else:
this holds for the state any handler leaves behind and for the trace of the recording
handler. So every call in the trace is for an uninitialized static query or data source
(none for a disabled static query, a dynamic query or a report); when the static sequence
has no duplicate, each uninitialized static query occurs exactly once in the trace; with
an absent handler the state is untouched; and the returned error is the same for every
handler and state.

All classification is finished before the first hook runs: in the model on pointers, where
a hook may overwrite any object in memory, for every handler and every memory `mem` on
entry the returned error is the classification of the objects as they are in `mem`, and
the memory left behind is that of the query hook run on the pointers to the static queries
uninitialized in `mem`, in sequence order, followed by the data-source hook run on the
pointers to the data sources uninitialized in `mem`, in sequence order. So nothing a hook
writes changes the error or the hooks that are called. An absent handler leaves the memory
as it is and returns the same error. The model on pointers with a handler that does not
write through its pointers is the model on objects of the first part. -/
theorem C12_hook_notifications {σ : Type} (deps : ReportGenerationQueryDependencies)
    (handler : UninitialiedDependendenciesHandler σ) (s : σ) :
    (ValidateGenerationQueryDependencies deps (some handler) s).2 =
        (uninitializedDataSourcesOf deps).foldl
          (fun s d => handler.HandleUninitializedReportDataSource d s)
          ((uninitializedStaticQueries deps).foldl
            (fun s q => handler.HandleUninitializedReportGenerationQuery q s) s) ∧
      (ValidateGenerationQueryDependencies deps (some recordingHandler) []).2 =
        (uninitializedStaticQueries deps).map HookCall.HandleUninitializedReportGenerationQuery ++
          (uninitializedDataSourcesOf deps).map HookCall.HandleUninitializedReportDataSource ∧
      (∀ c ∈ (ValidateGenerationQueryDependencies deps (some recordingHandler) []).2,
        (∃ q ∈ deps.ReportGenerationQueries, q.Spec.View.Disabled = false ∧
            q.Status.ViewName = "" ∧ c = HookCall.HandleUninitializedReportGenerationQuery q) ∨
          ∃ d ∈ deps.ReportDataSources, d.Status.TableName = "" ∧
            c = HookCall.HandleUninitializedReportDataSource d) ∧
      (deps.ReportGenerationQueries.Nodup →
        ∀ q ∈ deps.ReportGenerationQueries, q.Spec.View.Disabled = false →
          q.Status.ViewName = "" →
          ((ValidateGenerationQueryDependencies deps (some recordingHandler) []).2.count
            (HookCall.HandleUninitializedReportGenerationQuery q)) = 1) ∧
      (ValidateGenerationQueryDependencies deps
          (none : Option (UninitialiedDependendenciesHandler σ)) s).2 = s ∧
      (ValidateGenerationQueryDependencies deps
          (none : Option (UninitialiedDependendenciesHandler σ)) s).1 =
        (ValidateGenerationQueryDependencies deps (some handler) s).1 ∧
      (∀ (τ : Type) (ptrs : ReportGenerationQueryDependenciesAt)
          (h : UninitialiedDependendenciesHandlerAt τ) (mem : Memory τ),
        (ValidateGenerationQueryDependenciesAt ptrs (some h) mem).1 =
            (if (expectedClassification (mem.load ptrs)).disabledViewQueryNames = [] ∧
                (expectedClassification (mem.load ptrs)).uninitializedQueryNames = [] ∧
                (expectedClassification (mem.load ptrs)).uninitializedDataSourceNames = [] ∧
                (expectedClassification (mem.load ptrs)).uninitializedReportNames = [] then none
              else some (GoError.validation (expectedClassification (mem.load ptrs)))) ∧
          (ValidateGenerationQueryDependenciesAt ptrs (some h) mem).2 =
            (uninitializedDataSourcePointers mem ptrs).foldl
              (fun m p => h.HandleUninitializedReportDataSource p m)
              ((uninitializedQueryPointers mem ptrs).foldl
                (fun m p => h.HandleUninitializedReportGenerationQuery p m) mem) ∧
          ValidateGenerationQueryDependenciesAt ptrs none mem =
            ((ValidateGenerationQueryDependenciesAt ptrs (some h) mem).1, mem)) ∧
      (∀ (ptrs : ReportGenerationQueryDependenciesAt) (mem : Memory σ),
        mem.load ptrs = deps → mem.ext = s →
          ValidateGenerationQueryDependenciesAt ptrs (some handler.onPointers) mem =
            ((ValidateGenerationQueryDependencies deps (some handler) s).1,
              { mem with
                ext := (ValidateGenerationQueryDependencies deps (some handler) s).2 })) := by
  have htrace : (ValidateGenerationQueryDependencies deps (some recordingHandler) []).2 =
      (uninitializedStaticQueries deps).map HookCall.HandleUninitializedReportGenerationQuery ++
        (uninitializedDataSourcesOf deps).map HookCall.HandleUninitializedReportDataSource := by
    rw [validate_snd]
    simp only [recordingHandler]
    rw [foldl_append_singleton, foldl_append_singleton, List.nil_append]
  refine ⟨validate_snd deps (some handler) s, htrace, ?_, ?_, validate_snd deps none s,
    validate_fst_independent deps none s (some handler) s, ?_, ?_⟩
  · intro c hc
    rw [htrace, List.mem_append] at hc
    rcases hc with hc | hc
    · obtain ⟨q, hq, rfl⟩ := List.mem_map.1 hc
      simp only [uninitializedStaticQueries, List.mem_filter, decide_eq_true_eq] at hq
      exact Or.inl ⟨q, hq.1, hq.2.1, hq.2.2, rfl⟩
    · obtain ⟨d, hd, rfl⟩ := List.mem_map.1 hc
      simp only [uninitializedDataSourcesOf, List.mem_filter, decide_eq_true_eq] at hd
      exact Or.inr ⟨d, hd.1, hd.2, rfl⟩
  · intro hnd q hq hdis hview
    rw [htrace, List.count_append]
    have hinj : Function.Injective HookCall.HandleUninitializedReportGenerationQuery :=
      fun a b hab => by cases hab; rfl
    have h1 : ((uninitializedStaticQueries deps).map
        HookCall.HandleUninitializedReportGenerationQuery).count
        (HookCall.HandleUninitializedReportGenerationQuery q) = 1 := by
      rw [List.count_map_of_injective _ _ hinj]
      apply List.count_eq_one_of_mem
      · exact hnd.filter _
      · simp only [uninitializedStaticQueries, List.mem_filter, decide_eq_true_eq]
        exact ⟨hq, hdis, hview⟩
    have h2 : ((uninitializedDataSourcesOf deps).map
        HookCall.HandleUninitializedReportDataSource).count
        (HookCall.HandleUninitializedReportGenerationQuery q) = 0 := by
      apply List.count_eq_zero_of_not_mem
      intro hmem
      obtain ⟨d, _, hd⟩ := List.mem_map.1 hmem
      cases hd
    rw [h1, h2]
  · intro τ ptrs h mem
    refine ⟨?_, validateAt_snd ptrs (some h) mem, ?_⟩
    · rw [validateAt_fst ptrs (some h) mem
        (none : Option (UninitialiedDependendenciesHandler Unit)) (), validate_fst]
    · apply Prod.ext
      · exact (validateAt_fst ptrs none mem
          (none : Option (UninitialiedDependendenciesHandler Unit)) ()).trans
          (validateAt_fst ptrs (some h) mem
            (none : Option (UninitialiedDependendenciesHandler Unit)) ()).symm
      · exact validateAt_snd ptrs none mem
  · intro ptrs mem hload hext
    rw [← hload, ← hext]
    exact validateAt_onPointers ptrs handler mem

/-- The message is rendered as soon as one of the four lists is non-empty. -/
theorem Error_isSome (e : reportGenerationQueryDependenciesValidationError)
    (h : e.disabledViewQueryNames ≠ [] ∨ e.uninitializedQueryNames ≠ [] ∨
      e.uninitializedDataSourceNames ≠ [] ∨ e.uninitializedReportNames ≠ []) :
    ∃ msg, e.Error = some msg := by
  have hlen : ∀ l : List String, (l.length != 0) = true ↔ l ≠ [] := by
    intro l; simp
  unfold reportGenerationQueryDependenciesValidationError.Error
  simp only [hlen]
  by_cases h1 : e.uninitializedDataSourceNames = [] <;>
    by_cases h2 : e.disabledViewQueryNames = [] <;>
    by_cases h3 : e.uninitializedQueryNames = [] <;>
    by_cases h4 : e.uninitializedReportNames = [] <;>
    simp_all

/-- C20. Rendering a validation error never panics: if
`ValidateGenerationQueryDependencies` returns a non-nil error, the error is a validation
error, at least one of its four name lists is non-empty, and `Error` returns a message
(the branch that panics is not reached). -/
theorem C20_error_never_panics {σ : Type} (deps : ReportGenerationQueryDependencies)
    (handler : Option (UninitialiedDependendenciesHandler σ)) (s : σ) (err : GoError)
    (h : (ValidateGenerationQueryDependencies deps handler s).1 = some err) :
    ∃ e, err = GoError.validation e ∧
      (e.disabledViewQueryNames ≠ [] ∨ e.uninitializedQueryNames ≠ [] ∨
        e.uninitializedDataSourceNames ≠ [] ∨ e.uninitializedReportNames ≠ []) ∧
      ∃ msg, e.Error = some msg := by
  rw [validate_fst] at h
  split at h
  · cases h
  · rename_i hne
    simp only [Option.some.injEq] at h
    have hlists : (expectedClassification deps).disabledViewQueryNames ≠ [] ∨
        (expectedClassification deps).uninitializedQueryNames ≠ [] ∨
        (expectedClassification deps).uninitializedDataSourceNames ≠ [] ∨
        (expectedClassification deps).uninitializedReportNames ≠ [] := by
      by_contra hc
      apply hne
      simp only [not_or, not_not] at hc
      exact hc
    exact ⟨expectedClassification deps, h.symm, hlists, Error_isSome _ hlists⟩

/-- Witness for C20: the validation error of `depsMixed` and its message. -/
theorem C20_error_never_panics_witness :
    (ValidateGenerationQueryDependencies depsMixed
        (none : Option (UninitialiedDependendenciesHandler Unit)) ()).1 =
      some (GoError.validation
        { uninitializedQueryNames := ["b"], disabledViewQueryNames := ["a"],
          uninitializedDataSourceNames := ["d"], uninitializedReportNames := ["r"] }) ∧
      ∃ e, GoError.validation
          { uninitializedQueryNames := ["b"], disabledViewQueryNames := ["a"],
            uninitializedDataSourceNames := ["d"], uninitializedReportNames := ["r"] } =
          GoError.validation e ∧
        (e.disabledViewQueryNames ≠ [] ∨ e.uninitializedQueryNames ≠ [] ∨
          e.uninitializedDataSourceNames ≠ [] ∨ e.uninitializedReportNames ≠ []) ∧
        ∃ msg, e.Error = some msg :=
  ⟨by decide, C20_error_never_panics depsMixed none () _ (by decide)⟩

/-! ## Query inputs: lemmas -/

theorem GoMap.find?_insert_self {V : Type} (m : GoMap V) (k : String) (v : V) :
    (m.insert k v).find? k = some v := by
  induction m with
  | nil => simp [GoMap.insert, GoMap.find?]
  | cons e t ih =>
    obtain ⟨k', v'⟩ := e
    by_cases h : k' = k
    · simp [GoMap.insert, GoMap.find?, h]
    · simp [GoMap.insert, GoMap.find?, h, ih]

theorem GoMap.find?_insert_ne {V : Type} (m : GoMap V) (k k' : String) (v : V)
    (hne : k' ≠ k) : (m.insert k v).find? k' = m.find? k' := by
  induction m with
  | nil =>
    have : ¬ k = k' := fun h => hne h.symm
    simp [GoMap.insert, GoMap.find?, this]
  | cons e t ih =>
    obtain ⟨k1, v1⟩ := e
    by_cases h : k1 = k
    · subst h
      have : ¬ k1 = k' := fun h => hne h.symm
      simp [GoMap.insert, GoMap.find?, this]
    · by_cases h2 : k1 = k'
      · subst h2
        simp [GoMap.insert, GoMap.find?, h]
      · simp [GoMap.insert, GoMap.find?, h, h2, ih]

/-- A conversion error is returned as it is, whatever follows. -/
theorem inputsLoop_first_error {T : Type} (env : InputsEnv T) (q : ReportGenerationQuery) :
    ∀ (pre : List ReportGenerationQueryInputValue) (v : ReportGenerationQueryInputValue)
      (post : List ReportGenerationQueryInputValue) (m : GoMap (InputValue T))
      (given : List String) (err : GoError),
      (∀ w ∈ pre, ∃ x, convertQueryInputValueFromDefinition env w
        (inputDefinitionFor q w.Name) = .ok x) →
      convertQueryInputValueFromDefinition env v (inputDefinitionFor q v.Name) = .error err →
      inputsLoop env q (pre ++ v :: post) m given = .error err := by
  intro pre
  induction pre with
  | nil =>
    intro v post m given err _ hv
    simp only [List.nil_append, inputsLoop, hv]
  | cons w rest ih =>
    intro v post m given err hpre hv
    obtain ⟨x, hx⟩ := hpre w (List.mem_cons_self _ _)
    simp only [List.cons_append, inputsLoop, hx]
    exact ih v post _ _ err (fun w' hw' => hpre w' (List.mem_cons_of_mem _ hw')) hv

/-- What a successful pass over the supplied values has done. -/
theorem inputsLoop_ok {T : Type} (env : InputsEnv T) (q : ReportGenerationQuery) :
    ∀ (inputs : List ReportGenerationQueryInputValue) (m m' : GoMap (InputValue T))
      (given given' : List String),
      inputsLoop env q inputs m given = .ok (m', given') →
      given' = given ++ inputs.map ReportGenerationQueryInputValue.Name ∧
        (∀ k, k ∈ m'.keys ↔
          k ∈ m.keys ∨ k ∈ inputs.map ReportGenerationQueryInputValue.Name) ∧
        (∀ v ∈ inputs, ∃ x, convertQueryInputValueFromDefinition env v
          (inputDefinitionFor q v.Name) = .ok x) ∧
        (∀ k, k ∉ inputs.map ReportGenerationQueryInputValue.Name →
          m'.find? k = m.find? k) ∧
        (∀ pre v post, inputs = pre ++ v :: post → (∀ w ∈ post, w.Name ≠ v.Name) →
          ∃ x, convertQueryInputValueFromDefinition env v (inputDefinitionFor q v.Name) =
            .ok x ∧ m'.find? v.Name = some x) := by
  intro inputs
  induction inputs with
  | nil =>
    intro m m' given given' h
    simp only [inputsLoop, Except.ok.injEq, Prod.mk.injEq] at h
    obtain ⟨rfl, rfl⟩ := h
    refine ⟨by simp, by simp, by simp, fun _ _ => rfl, ?_⟩
    intro pre v post hp
    cases pre <;> cases hp
  | cons w rest ih =>
    intro m m' given given' h
    unfold inputsLoop at h
    simp only at h
    split at h
    · cases h
    · rename_i x hx
      obtain ⟨h1, h2, h3, h4, h5⟩ := ih _ m' _ given' h
      refine ⟨?_, ?_, ?_, ?_, ?_⟩
      · rw [h1]; simp
      · intro k
        rw [h2 k, GoMap.mem_keys_insert, List.map_cons, List.mem_cons]
        tauto
      · intro v hv
        rcases List.mem_cons.1 hv with rfl | hv
        · exact ⟨x, hx⟩
        · exact h3 v hv
      · intro k hk
        rw [List.map_cons, List.mem_cons, not_or] at hk
        rw [h4 k hk.2, GoMap.find?_insert_ne _ _ _ _ hk.1]
      · intro pre v post hp hpost
        cases pre with
        | nil =>
          simp only [List.nil_append, List.cons.injEq] at hp
          obtain ⟨rfl, rfl⟩ := hp
          refine ⟨x, hx, ?_⟩
          have hk : w.Name ∉ rest.map ReportGenerationQueryInputValue.Name := by
            intro hmem
            obtain ⟨w', hw', hname⟩ := List.mem_map.1 hmem
            exact hpost w' hw' hname
          rw [h4 _ hk, GoMap.find?_insert_self]
        | cons p pre' =>
          simp only [List.cons_append, List.cons.injEq] at hp
          exact h5 pre' v post hp.2 hpost

/-- The pass over the supplied values succeeds when each of them converts. -/
theorem inputsLoop_succeeds {T : Type} (env : InputsEnv T) (q : ReportGenerationQuery) :
    ∀ (inputs : List ReportGenerationQueryInputValue) (m : GoMap (InputValue T))
      (given : List String),
      (∀ v ∈ inputs, ∃ x, convertQueryInputValueFromDefinition env v
        (inputDefinitionFor q v.Name) = .ok x) →
      ∃ m' given', inputsLoop env q inputs m given = .ok (m', given') := by
  intro inputs
  induction inputs with
  | nil => intro m given _; exact ⟨m, given, rfl⟩
  | cons w rest ih =>
    intro m given hall
    obtain ⟨x, hx⟩ := hall w (List.mem_cons_self _ _)
    simp only [inputsLoop, hx]
    exact ih _ _ (fun v hv => hall v (List.mem_cons_of_mem _ hv))

/-- The pass over the input definitions: the missing names are those of the required
definitions without a key, the expected names are all the declared names, in order. -/
theorem expectedLoop_eq {V : Type} (m : GoMap V) :
    ∀ (defs : List ReportGenerationQueryInputDefinition) (missing expected : List String),
      expectedLoop m defs missing expected =
        (missing ++ (defs.filter (fun d => d.Required && !m.contains d.Name)).map
            ReportGenerationQueryInputDefinition.Name,
          expected ++ defs.map ReportGenerationQueryInputDefinition.Name) := by
  intro defs
  induction defs with
  | nil => intro missing expected; simp [expectedLoop]
  | cons d rest ih =>
    intro missing expected
    unfold expectedLoop
    by_cases hr : d.Required = true
    · by_cases hc : m.contains d.Name = true
      · simp [hr, hc, ih]
      · simp [hr, hc, ih]
    · simp [hr, ih]

theorem GoMap.find?_eq_none {V : Type} (m : GoMap V) (k : String) (h : k ∉ m.keys) :
    m.find? k = none := by
  induction m with
  | nil => rfl
  | cons e t ih =>
    obtain ⟨k', v⟩ := e
    simp only [GoMap.keys, List.map_cons, List.mem_cons, not_or] at h
    have hne : ¬ k' = k := fun heq => h.1 heq.symm
    simp only [GoMap.find?, beq_iff_eq, hne, if_false]
    exact ih h.2

theorem foldl_insert_keys (defs : List ReportGenerationQueryInputDefinition) :
    ∀ (m : GoMap ReportGenerationQueryInputDefinition) (k : String),
      k ∈ (defs.foldl (fun m d => m.insert d.Name d) m).keys ↔
        k ∈ m.keys ∨ k ∈ defs.map ReportGenerationQueryInputDefinition.Name := by
  induction defs with
  | nil => intro m k; simp
  | cons d rest ih =>
    intro m k
    rw [List.foldl_cons, ih, GoMap.mem_keys_insert, List.map_cons, List.mem_cons]
    tauto

theorem foldl_insert_find?_of_not_mem (defs : List ReportGenerationQueryInputDefinition) :
    ∀ (m : GoMap ReportGenerationQueryInputDefinition) (k : String),
      k ∉ defs.map ReportGenerationQueryInputDefinition.Name →
      (defs.foldl (fun m d => m.insert d.Name d) m).find? k = m.find? k := by
  induction defs with
  | nil => intro m k _; rfl
  | cons d rest ih =>
    intro m k hk
    rw [List.map_cons, List.mem_cons, not_or] at hk
    rw [List.foldl_cons, ih _ k hk.2, GoMap.find?_insert_ne _ _ _ _ hk.1]

/-- A name that no input definition declares reads the zero definition. -/
theorem inputDefinitionFor_undeclared (q : ReportGenerationQuery) (name : String)
    (h : name ∉ q.Spec.Inputs.map ReportGenerationQueryInputDefinition.Name) :
    inputDefinitionFor q name = zeroInputDefinition := by
  unfold inputDefinitionFor inputDefinitionsOf
  rw [foldl_insert_find?_of_not_mem _ _ _ h]
  rfl

/-- A declared name reads the last definition that declares it. -/
theorem inputDefinitionFor_declared (q : ReportGenerationQuery)
    (pre : List ReportGenerationQueryInputDefinition) (d : ReportGenerationQueryInputDefinition)
    (post : List ReportGenerationQueryInputDefinition) (h : q.Spec.Inputs = pre ++ d :: post)
    (hpost : ∀ e ∈ post, e.Name ≠ d.Name) : inputDefinitionFor q d.Name = d := by
  unfold inputDefinitionFor inputDefinitionsOf
  rw [h, List.foldl_append, List.foldl_cons]
  have hk : d.Name ∉ post.map ReportGenerationQueryInputDefinition.Name := by
    intro hmem
    obtain ⟨e, he, hname⟩ := List.mem_map.1 hmem
    exact hpost e he hname
  rw [foldl_insert_find?_of_not_mem _ _ _ hk, GoMap.find?_insert_self]
  rfl

/-- The outcome of the validation once the pass over the supplied values has succeeded. -/
theorem validateInputs_of_inputsLoop {T : Type} (env : InputsEnv T)
    (q : ReportGenerationQuery) (inputs : List ReportGenerationQueryInputValue)
    (m : GoMap (InputValue T)) (given : List String)
    (h : inputsLoop env q inputs [] [] = .ok (m, given)) :
    ValidateReportGenerationQueryInputs env q inputs =
      if (q.Spec.Inputs.filter (fun d => d.Required && !m.contains d.Name)) = [] then .ok m
      else .error (GoError.missingInputs q.Name
        (sortStrings (q.Spec.Inputs.map ReportGenerationQueryInputDefinition.Name))
        (sortStrings (suppliedNames inputs))) := by
  obtain ⟨hg, _⟩ := inputsLoop_ok env q inputs [] m [] given h
  unfold ValidateReportGenerationQueryInputs
  rw [h]
  simp only [expectedLoop_eq, List.nil_append, hg, suppliedNames]
  by_cases hm : (q.Spec.Inputs.filter (fun d => d.Required && !m.contains d.Name)) = []
  · simp [hm]
  · simp [hm]

/-- After a successful pass the keys of the map are the supplied names. -/
theorem inputsLoop_contains {T : Type} (env : InputsEnv T) (q : ReportGenerationQuery)
    (inputs : List ReportGenerationQueryInputValue) (m : GoMap (InputValue T))
    (given : List String) (h : inputsLoop env q inputs [] [] = .ok (m, given)) (k : String) :
    m.contains k = true ↔ k ∈ suppliedNames inputs := by
  obtain ⟨_, hk, _⟩ := inputsLoop_ok env q inputs [] m [] given h
  rw [GoMap.contains_iff, hk k]
  simp [GoMap.keys, suppliedNames]

/-- The definitions that make the validation fail: required, and not supplied. -/
theorem missing_filter_ne_nil_iff {T : Type} (env : InputsEnv T) (q : ReportGenerationQuery)
    (inputs : List ReportGenerationQueryInputValue) (m : GoMap (InputValue T))
    (given : List String) (h : inputsLoop env q inputs [] [] = .ok (m, given)) :
    (q.Spec.Inputs.filter (fun d => d.Required && !m.contains d.Name)) ≠ [] ↔
      ∃ d ∈ q.Spec.Inputs, d.Required = true ∧ d.Name ∉ suppliedNames inputs := by
  rw [Ne, List.filter_eq_nil_iff]
  push_neg
  constructor
  · rintro ⟨d, hd, hcond⟩
    simp only [Bool.and_eq_true, Bool.not_eq_true', ← Bool.not_eq_true] at hcond
    exact ⟨d, hd, hcond.1, fun hmem =>
      hcond.2 ((inputsLoop_contains env q inputs m given h d.Name).2 hmem)⟩
  · rintro ⟨d, hd, hreq, hnot⟩
    refine ⟨d, hd, ?_⟩
    have : m.contains d.Name = false := by
      rw [← Bool.not_eq_true]
      exact fun hc => hnot ((inputsLoop_contains env q inputs m given h d.Name).1 hc)
    simp [hreq, this]

/-! ## C13-C18: validation of the query inputs -/

/-- C13. Missing required inputs: when every supplied value converts without error,
`ValidateReportGenerationQueryInputs` fails with the missing-required-inputs error iff
some input definition of `Spec.Inputs` with `Required` true has a name that is not the
name of a supplied value, and it returns a map otherwise; a supplied value with a nil
payload converts to the explicit nil, so it counts as given. -/
theorem C13_missing_required_inputs {T : Type} (env : InputsEnv T)
    (q : ReportGenerationQuery) (inputs : List ReportGenerationQueryInputValue)
    (hconv : ∀ v ∈ inputs, ∃ x, convertQueryInputValueFromDefinition env v
      (inputDefinitionFor q v.Name) = .ok x) :
    ((∃ expected given, ValidateReportGenerationQueryInputs env q inputs =
          .error (GoError.missingInputs q.Name expected given)) ↔
        ∃ d ∈ q.Spec.Inputs, d.Required = true ∧ d.Name ∉ suppliedNames inputs) ∧
      ((¬ ∃ d ∈ q.Spec.Inputs, d.Required = true ∧ d.Name ∉ suppliedNames inputs) →
        ∃ m, ValidateReportGenerationQueryInputs env q inputs = .ok m) ∧
      (∀ (v : ReportGenerationQueryInputValue) (d : ReportGenerationQueryInputDefinition),
        v.Value = none → convertQueryInputValueFromDefinition env v d = .ok InputValue.null) := by
  obtain ⟨m, given, hloop⟩ := inputsLoop_succeeds env q inputs [] [] hconv
  have hval := validateInputs_of_inputsLoop env q inputs m given hloop
  have hiff := missing_filter_ne_nil_iff env q inputs m given hloop
  refine ⟨?_, ?_, ?_⟩
  · constructor
    · rintro ⟨expected, given', herr⟩
      rw [hval] at herr
      split at herr
      · cases herr
      · rename_i hne
        exact hiff.1 hne
    · intro hd
      rw [hval, if_neg (hiff.2 hd)]
      exact ⟨_, _, rfl⟩
  · intro hnot
    have hnil : (q.Spec.Inputs.filter (fun d => d.Required && !m.contains d.Name)) = [] := by
      by_contra hne
      exact hnot (hiff.1 hne)
    rw [hval, if_pos hnil]
    exact ⟨m, rfl⟩
  · intro v d hv
    simp only [convertQueryInputValueFromDefinition, hv]

/-- Witness for C13: the required input `limit` is supplied with a nil payload, so the
validation succeeds and stores the explicit nil. -/
theorem C13_missing_required_inputs_witness :
    ValidateReportGenerationQueryInputs sampleInputsEnv
        (queryWithInputs [⟨"limit", "int", true⟩, ⟨"name", "", false⟩]) [⟨"limit", none⟩] =
      .ok [("limit", InputValue.null)] ∧
    (((∃ expected given, ValidateReportGenerationQueryInputs sampleInputsEnv
          (queryWithInputs [⟨"limit", "int", true⟩, ⟨"name", "", false⟩]) [⟨"limit", none⟩] =
          .error (GoError.missingInputs
            (queryWithInputs [⟨"limit", "int", true⟩, ⟨"name", "", false⟩]).Name
            expected given)) ↔
        ∃ d ∈ (queryWithInputs [⟨"limit", "int", true⟩, ⟨"name", "", false⟩]).Spec.Inputs,
          d.Required = true ∧ d.Name ∉ suppliedNames [⟨"limit", none⟩]) ∧
      ((¬ ∃ d ∈ (queryWithInputs [⟨"limit", "int", true⟩, ⟨"name", "", false⟩]).Spec.Inputs,
          d.Required = true ∧ d.Name ∉ suppliedNames [⟨"limit", none⟩]) →
        ∃ m, ValidateReportGenerationQueryInputs sampleInputsEnv
          (queryWithInputs [⟨"limit", "int", true⟩, ⟨"name", "", false⟩])
          [⟨"limit", none⟩] = .ok m) ∧
      (∀ (v : ReportGenerationQueryInputValue) (d : ReportGenerationQueryInputDefinition),
        v.Value = none →
          convertQueryInputValueFromDefinition sampleInputsEnv v d = .ok InputValue.null)) :=
  ⟨rfl, C13_missing_required_inputs sampleInputsEnv
    (queryWithInputs [⟨"limit", "int", true⟩, ⟨"name", "", false⟩]) [⟨"limit", none⟩]
    (fun v hv => by
      rw [List.mem_singleton] at hv
      subst hv
      exact ⟨InputValue.null, rfl⟩)⟩

/-- C14. Result map on success: when `ValidateReportGenerationQueryInputs` returns a map,
its keys are exactly the names of the supplied values, so a name that was not supplied,
declared or not, has no entry (no default is substituted). The entry of a supplied name is
the conversion of the last supplied value with that name: against the last definition of
`Spec.Inputs` that declares the name, when there is one, and against the zero definition
when no definition declares it, in which case a non-nil payload under a name that is not
reserved is decoded as a string (the lower case of the empty type being empty). -/
theorem C14_result_map {T : Type} (env : InputsEnv T) (q : ReportGenerationQuery)
    (inputs : List ReportGenerationQueryInputValue) (m : GoMap (InputValue T))
    (h : ValidateReportGenerationQueryInputs env q inputs = .ok m) :
    (∀ k, k ∈ m.keys ↔ k ∈ suppliedNames inputs) ∧
      (∀ k, k ∉ suppliedNames inputs → m.find? k = none) ∧
      (∀ pre v post, inputs = pre ++ v :: post → (∀ w ∈ post, w.Name ≠ v.Name) →
        ∀ dpre d dpost, q.Spec.Inputs = dpre ++ d :: dpost → d.Name = v.Name →
          (∀ e ∈ dpost, e.Name ≠ v.Name) →
          ∃ x, convertQueryInputValueFromDefinition env v d = .ok x ∧
            m.find? v.Name = some x) ∧
      (∀ pre v post, inputs = pre ++ v :: post → (∀ w ∈ post, w.Name ≠ v.Name) →
        v.Name ∉ q.Spec.Inputs.map ReportGenerationQueryInputDefinition.Name →
          (∃ x, convertQueryInputValueFromDefinition env v zeroInputDefinition = .ok x ∧
            m.find? v.Name = some x) ∧
          ∀ raw, v.Value = some raw → v.Name ≠ env.ReportingStartInputName →
            v.Name ≠ env.ReportingEndInputName → env.ToLower "" = "" →
            ∃ s, env.unmarshalString raw = .ok s ∧
              m.find? v.Name = some (InputValue.string s)) := by
  have hloop : ∃ given, inputsLoop env q inputs [] [] = .ok (m, given) := by
    unfold ValidateReportGenerationQueryInputs at h
    split at h
    · cases h
    · rename_i m' given hl
      split at h
      split at h
      · cases h
      · simp only [Except.ok.injEq] at h
        subst h
        exact ⟨given, hl⟩
  obtain ⟨given, hloop⟩ := hloop
  obtain ⟨_, hk, _, hf, hl⟩ := inputsLoop_ok env q inputs [] m [] given hloop
  refine ⟨?_, ?_, ?_, ?_⟩
  · intro k
    rw [hk k]
    simp [GoMap.keys, suppliedNames]
  · intro k hk'
    rw [hf k hk']
    rfl
  · intro pre v post hin hpost dpre d dpost hdefs hname hdpost
    obtain ⟨x, hx, hfind⟩ := hl pre v post hin hpost
    have hd : inputDefinitionFor q v.Name = d := by
      rw [← hname]
      exact inputDefinitionFor_declared q dpre d dpost hdefs
        (fun e he => by rw [hname]; exact hdpost e he)
    rw [hd] at hx
    exact ⟨x, hx, hfind⟩
  · intro pre v post hin hpost hund
    obtain ⟨x, hx, hfind⟩ := hl pre v post hin hpost
    rw [inputDefinitionFor_undeclared q v.Name hund] at hx
    refine ⟨⟨x, hx, hfind⟩, ?_⟩
    intro raw hraw hs he hlow
    simp only [convertQueryInputValueFromDefinition, hraw, zeroInputDefinition, hlow, hs, he,
      or_self, if_false, true_or, if_true] at hx
    cases hu : env.unmarshalString raw with
    | error e => rw [hu] at hx; cases hx
    | ok s =>
      rw [hu] at hx
      simp only [Except.ok.injEq] at hx
      exact ⟨s, rfl, by rw [hfind, hx]⟩

theorem sampleInputs_validate :
    ValidateReportGenerationQueryInputs sampleInputsEnv sampleInputsQuery sampleInputs =
      .ok sampleInputsResult := by
  rfl

/-- Witness for C14: `sampleInputs` holds a reserved name, the name `limit`, declared
first as a string and last as an int and stored as the int 7, and an undeclared name
supplied twice and stored as its last string; the optional input `note` gets no key. -/
theorem C14_result_map_witness :
    ValidateReportGenerationQueryInputs sampleInputsEnv sampleInputsQuery sampleInputs =
        .ok sampleInputsResult ∧
      sampleInputsResult.find? "limit" = some (InputValue.int 7) ∧
      sampleInputsResult.find? "note" = none ∧
      ((∀ k, k ∈ sampleInputsResult.keys ↔ k ∈ suppliedNames sampleInputs) ∧
        (∀ k, k ∉ suppliedNames sampleInputs → sampleInputsResult.find? k = none) ∧
        (∀ pre v post, sampleInputs = pre ++ v :: post → (∀ w ∈ post, w.Name ≠ v.Name) →
          ∀ dpre d dpost, sampleInputsQuery.Spec.Inputs = dpre ++ d :: dpost →
            d.Name = v.Name → (∀ e ∈ dpost, e.Name ≠ v.Name) →
            ∃ x, convertQueryInputValueFromDefinition sampleInputsEnv v d = .ok x ∧
              sampleInputsResult.find? v.Name = some x) ∧
        (∀ pre v post, sampleInputs = pre ++ v :: post → (∀ w ∈ post, w.Name ≠ v.Name) →
          v.Name ∉ sampleInputsQuery.Spec.Inputs.map
            ReportGenerationQueryInputDefinition.Name →
            (∃ x, convertQueryInputValueFromDefinition sampleInputsEnv v
                zeroInputDefinition = .ok x ∧
              sampleInputsResult.find? v.Name = some x) ∧
            ∀ raw, v.Value = some raw → v.Name ≠ sampleInputsEnv.ReportingStartInputName →
              v.Name ≠ sampleInputsEnv.ReportingEndInputName →
              sampleInputsEnv.ToLower "" = "" →
              ∃ s, sampleInputsEnv.unmarshalString raw = .ok s ∧
                sampleInputsResult.find? v.Name = some (InputValue.string s))) :=
  ⟨sampleInputs_validate, rfl, rfl,
    C14_result_map sampleInputsEnv sampleInputsQuery sampleInputs sampleInputsResult
      sampleInputs_validate⟩

/-- C15. Reserved names are always times: for a supplied value with a non-nil payload
whose name is `ReportingStartInputName` or `ReportingEndInputName`, and for every input
definition (whatever type it declares, supported or not, and also the zero definition read
when none is declared), `convertQueryInputValueFromDefinition` decodes the payload as a
time: it returns the time when the payload decodes, the type-mismatch error for the
expected type `time` otherwise, and never the unsupported-type error. -/
theorem C15_reserved_names_are_times {T : Type} (env : InputsEnv T)
    (v : ReportGenerationQueryInputValue) (d : ReportGenerationQueryInputDefinition)
    (raw : RawMessage) (hraw : v.Value = some raw)
    (hname : v.Name = env.ReportingStartInputName ∨ v.Name = env.ReportingEndInputName) :
    (∀ t, env.unmarshalTime raw = .ok t →
        convertQueryInputValueFromDefinition env v d = .ok (InputValue.time t)) ∧
      (∀ err, env.unmarshalTime raw = .error err →
        convertQueryInputValueFromDefinition env v d =
          .error (GoError.inputNotValid v.Name "time" raw err)) ∧
      (∀ inputType, convertQueryInputValueFromDefinition env v d ≠
        .error (GoError.unsupportedInputType inputType)) := by
  have hconv : convertQueryInputValueFromDefinition env v d =
      match env.unmarshalTime raw with
      | .error err => .error (GoError.inputNotValid v.Name "time" raw err)
      | .ok dst => .ok (InputValue.time dst) := by
    simp only [convertQueryInputValueFromDefinition, hraw, hname, if_true]
    rfl
  refine ⟨?_, ?_, ?_⟩
  · intro t ht
    rw [hconv, ht]
  · intro err herr
    rw [hconv, herr]
  · intro inputType
    rw [hconv]
    cases env.unmarshalTime raw <;> simp

/-- Witness for C15: `ReportingStart` declared as an int, once with a timestamp and once
with a payload that is no timestamp. -/
theorem C15_reserved_names_are_times_witness :
    convertQueryInputValueFromDefinition sampleInputsEnv
        ⟨"ReportingStart", some "\"2020-01-01T00:00:00Z\""⟩ ⟨"ReportingStart", "int", true⟩ =
      .ok (InputValue.time "2020-01-01T00:00:00Z") ∧
    convertQueryInputValueFromDefinition sampleInputsEnv
        ⟨"ReportingEnd", some "12"⟩ ⟨"ReportingEnd", "float", true⟩ =
      .error (GoError.inputNotValid "ReportingEnd" "time" "12" "not a time") :=
  ⟨(C15_reserved_names_are_times sampleInputsEnv
      ⟨"ReportingStart", some "\"2020-01-01T00:00:00Z\""⟩ ⟨"ReportingStart", "int", true⟩
      "\"2020-01-01T00:00:00Z\"" rfl (Or.inl rfl)).1 "2020-01-01T00:00:00Z" rfl,
    (C15_reserved_names_are_times sampleInputsEnv
      ⟨"ReportingEnd", some "12"⟩ ⟨"ReportingEnd", "float", true⟩ "12" rfl
      (Or.inr rfl)).2.1 "not a time" rfl⟩

/-- C16, as stated, fails: the declared type `integer` is none of `string`, `time`, `int`
and is not empty, the name `limit` is not reserved and the payload is not nil, yet the
value is decoded as an int and the validation returns a map. -/
theorem C16_counterexample :
    inputDefinitionFor (queryWithInputs [⟨"limit", "integer", false⟩]) "limit" =
        ⟨"limit", "integer", false⟩ ∧
      "integer" ∉ ["", "string", "time", "int"] ∧
      "limit" ≠ sampleInputsEnv.ReportingStartInputName ∧
      "limit" ≠ sampleInputsEnv.ReportingEndInputName ∧
      ValidateReportGenerationQueryInputs sampleInputsEnv
          (queryWithInputs [⟨"limit", "integer", false⟩]) [⟨"limit", some "5"⟩] =
        .ok [("limit", InputValue.int 5)] :=
  ⟨rfl, by decide, by decide, by decide, rfl⟩

/-- C16, amended. For a supplied value with a non-nil payload whose name is not reserved
and whose input definition declares a type that in lower case is none of the empty text,
`string`, `time`, `int` and `integer`: its conversion fails with the unsupported-type
error for that lower-case type, `ValidateReportGenerationQueryInputs` returns an error and
no map, and that error is the unsupported-type error when every value supplied before it
converts. -/
theorem C16_unsupported_types_rejected {T : Type} (env : InputsEnv T)
    (q : ReportGenerationQuery) (pre : List ReportGenerationQueryInputValue)
    (v : ReportGenerationQueryInputValue) (post : List ReportGenerationQueryInputValue)
    (raw : RawMessage) (hraw : v.Value = some raw)
    (hstart : v.Name ≠ env.ReportingStartInputName)
    (hend : v.Name ≠ env.ReportingEndInputName)
    (htype : env.ToLower (inputDefinitionFor q v.Name).Type_ ∉
      ["", "string", "time", "int", "integer"]) :
    convertQueryInputValueFromDefinition env v (inputDefinitionFor q v.Name) =
        .error (GoError.unsupportedInputType
          (env.ToLower (inputDefinitionFor q v.Name).Type_)) ∧
      (∃ err, ValidateReportGenerationQueryInputs env q (pre ++ v :: post) = .error err) ∧
      ((∀ w ∈ pre, ∃ x, convertQueryInputValueFromDefinition env w
          (inputDefinitionFor q w.Name) = .ok x) →
        ValidateReportGenerationQueryInputs env q (pre ++ v :: post) =
          .error (GoError.unsupportedInputType
            (env.ToLower (inputDefinitionFor q v.Name).Type_))) := by
  simp only [List.mem_cons, List.mem_singleton, List.not_mem_nil, or_false, not_or] at htype
  obtain ⟨t1, t2, t3, t4, t5⟩ := htype
  have hconv : convertQueryInputValueFromDefinition env v (inputDefinitionFor q v.Name) =
      .error (GoError.unsupportedInputType
        (env.ToLower (inputDefinitionFor q v.Name).Type_)) := by
    simp only [convertQueryInputValueFromDefinition, hraw, hstart, hend, or_self, if_false,
      t1, t2, t3, t4, t5]
  refine ⟨hconv, ?_, ?_⟩
  · cases hres : ValidateReportGenerationQueryInputs env q (pre ++ v :: post) with
    | error err => exact ⟨err, rfl⟩
    | ok m =>
      exfalso
      unfold ValidateReportGenerationQueryInputs at hres
      split at hres
      · cases hres
      · rename_i m' given hl
        obtain ⟨_, _, hc, _⟩ := inputsLoop_ok env q _ [] m' [] given hl
        obtain ⟨x, hx⟩ := hc v (List.mem_append_right _ (List.mem_cons_self _ _))
        rw [hconv] at hx
        cases hx
  · intro hpre
    unfold ValidateReportGenerationQueryInputs
    rw [inputsLoop_first_error env q pre v post [] [] _ hpre hconv]

/-- Witness for C16 (amended): the declared type `float`. -/
theorem C16_unsupported_types_rejected_witness :
    "float" ∉ ["", "string", "time", "int", "integer"] ∧
      ValidateReportGenerationQueryInputs sampleInputsEnv
          (queryWithInputs [⟨"ratio", "Float", false⟩]) ([] ++ ⟨"ratio", some "5"⟩ :: []) =
        .error (GoError.unsupportedInputType "float") :=
  ⟨by decide,
    (C16_unsupported_types_rejected sampleInputsEnv
      (queryWithInputs [⟨"ratio", "Float", false⟩]) [] ⟨"ratio", some "5"⟩ [] "5" rfl
      (by decide) (by decide) (by decide)).2.2 (fun w hw => by cases hw)⟩

/-- C17. Decode failure is a type mismatch: if the values supplied before `v` convert, the
payload of `v` is not nil and fails to decode as the resolved type of `v` (`time` for a
reserved name, else the declared type in lower case, among the empty text, `string`,
`time`, `int`, `integer`), then `ValidateReportGenerationQueryInputs` returns no map but
the type-mismatch error that carries the name of `v`, that type, the raw payload and the
decoding error, whether or not a required input is missing. -/
theorem C17_decode_failure {T : Type} (env : InputsEnv T) (q : ReportGenerationQuery)
    (pre : List ReportGenerationQueryInputValue) (v : ReportGenerationQueryInputValue)
    (post : List ReportGenerationQueryInputValue) (raw : RawMessage) (err : String)
    (hpre : ∀ w ∈ pre, ∃ x, convertQueryInputValueFromDefinition env w
      (inputDefinitionFor q w.Name) = .ok x)
    (hraw : v.Value = some raw)
    (hfail : DecodeFails env (resolvedInputType env v.Name (inputDefinitionFor q v.Name))
      raw err) :
    ValidateReportGenerationQueryInputs env q (pre ++ v :: post) =
      .error (GoError.inputNotValid v.Name
        (resolvedInputType env v.Name (inputDefinitionFor q v.Name)) raw err) := by
  have hconv : convertQueryInputValueFromDefinition env v (inputDefinitionFor q v.Name) =
      .error (GoError.inputNotValid v.Name
        (resolvedInputType env v.Name (inputDefinitionFor q v.Name)) raw err) := by
    have hunfold : convertQueryInputValueFromDefinition env v (inputDefinitionFor q v.Name) =
        (let inputType := resolvedInputType env v.Name (inputDefinitionFor q v.Name)
         if inputType = "" ∨ inputType = "string" then
           match env.unmarshalString raw with
           | .error err => .error (GoError.inputNotValid v.Name inputType raw err)
           | .ok dst => .ok (InputValue.string dst)
         else if inputType = "time" then
           match env.unmarshalTime raw with
           | .error err => .error (GoError.inputNotValid v.Name inputType raw err)
           | .ok dst => .ok (InputValue.time dst)
         else if inputType = "int" ∨ inputType = "integer" then
           match env.unmarshalInt raw with
           | .error err => .error (GoError.inputNotValid v.Name inputType raw err)
           | .ok dst => .ok (InputValue.int dst)
         else .error (GoError.unsupportedInputType inputType)) := by
      simp only [convertQueryInputValueFromDefinition, hraw, resolvedInputType]
    rw [hunfold]
    generalize resolvedInputType env v.Name (inputDefinitionFor q v.Name) = t at hfail ⊢
    dsimp only
    rcases hfail with ⟨ht, hu⟩ | ⟨ht, hu⟩ | ⟨ht, hu⟩
    · rw [if_pos ht, hu]
    · subst ht
      rw [if_neg (by decide), if_pos rfl, hu]
    · have h1 : ¬ (t = "" ∨ t = "string") := by rcases ht with ht | ht <;> rw [ht] <;> decide
      have h2 : ¬ t = "time" := by rcases ht with ht | ht <;> rw [ht] <;> decide
      rw [if_neg h1, if_neg h2, if_pos ht, hu]
  unfold ValidateReportGenerationQueryInputs
  rw [inputsLoop_first_error env q pre v post [] [] _ hpre hconv]

/-- Witness for C17: the definition `limit` (int, required) and the supplied value
`"notanumber"` for it. -/
theorem C17_decode_failure_witness :
    ValidateReportGenerationQueryInputs sampleInputsEnv
        (queryWithInputs [⟨"limit", "int", true⟩])
        ([] ++ ⟨"limit", some "\"notanumber\""⟩ :: []) =
      .error (GoError.inputNotValid "limit" "int" "\"notanumber\"" "not a number") :=
  C17_decode_failure sampleInputsEnv (queryWithInputs [⟨"limit", "int", true⟩]) []
    ⟨"limit", some "\"notanumber\""⟩ [] "\"notanumber\"" "not a number"
    (fun w hw => by cases hw) rfl (Or.inr (Or.inr ⟨Or.inl rfl, rfl⟩))

/-- An error of the pass over the supplied values is the error of one conversion. -/
theorem inputsLoop_error {T : Type} (env : InputsEnv T) (q : ReportGenerationQuery) :
    ∀ (inputs : List ReportGenerationQueryInputValue) (m : GoMap (InputValue T))
      (given : List String) (err : GoError),
      inputsLoop env q inputs m given = .error err →
      ∃ v ∈ inputs, convertQueryInputValueFromDefinition env v (inputDefinitionFor q v.Name) =
        .error err := by
  intro inputs
  induction inputs with
  | nil => intro m given err h; simp [inputsLoop] at h
  | cons w rest ih =>
    intro m given err h
    unfold inputsLoop at h
    simp only at h
    split at h
    · rename_i e he
      simp only [Except.error.injEq] at h
      subst h
      exact ⟨w, List.mem_cons_self _ _, he⟩
    · obtain ⟨v, hv, hc⟩ := ih _ _ err h
      exact ⟨v, List.mem_cons_of_mem _ hv, hc⟩

/-- A conversion never fails with the missing-required-inputs error. -/
theorem convert_ne_missingInputs {T : Type} (env : InputsEnv T)
    (v : ReportGenerationQueryInputValue) (d : ReportGenerationQueryInputDefinition)
    (name : String) (expected given : List String) :
    convertQueryInputValueFromDefinition env v d ≠
      .error (GoError.missingInputs name expected given) := by
  unfold convertQueryInputValueFromDefinition
  intro h
  split at h
  · cases h
  · dsimp only at h
    split_ifs at h <;> (try split at h) <;> cases h

/-- C18. Content of the missing-required-inputs error: when
`ValidateReportGenerationQueryInputs` fails with it, some required input is not supplied,
and the error carries the name of the query, as expected names all the declared input
names (required and optional, one per definition) sorted ascending, and as given names all
the names of the supplied values sorted ascending. -/
theorem C18_missing_inputs_error {T : Type} (env : InputsEnv T) (q : ReportGenerationQuery)
    (inputs : List ReportGenerationQueryInputValue) (name : String)
    (expected given : List String)
    (h : ValidateReportGenerationQueryInputs env q inputs =
      .error (GoError.missingInputs name expected given)) :
    name = q.Name ∧
      expected = sortStrings (q.Spec.Inputs.map ReportGenerationQueryInputDefinition.Name) ∧
      given = sortStrings (suppliedNames inputs) ∧
      expected.Pairwise (· ≤ ·) ∧
      expected.Perm (q.Spec.Inputs.map ReportGenerationQueryInputDefinition.Name) ∧
      given.Pairwise (· ≤ ·) ∧ given.Perm (suppliedNames inputs) ∧
      ∃ d ∈ q.Spec.Inputs, d.Required = true ∧ d.Name ∉ suppliedNames inputs := by
  cases hloop : inputsLoop env q inputs [] [] with
  | error err =>
    exfalso
    have hv : ValidateReportGenerationQueryInputs env q inputs = .error err := by
      unfold ValidateReportGenerationQueryInputs
      rw [hloop]
    rw [hv] at h
    simp only [Except.error.injEq] at h
    obtain ⟨v, _, hc⟩ := inputsLoop_error env q inputs [] [] err hloop
    rw [h] at hc
    exact convert_ne_missingInputs env v _ name expected given hc
  | ok r =>
    obtain ⟨m, given'⟩ := r
    rw [validateInputs_of_inputsLoop env q inputs m given' hloop] at h
    split at h
    · cases h
    · rename_i hne
      simp only [Except.error.injEq, GoError.missingInputs.injEq] at h
      obtain ⟨h1, h2, h3⟩ := h
      subst h1 h2 h3
      exact ⟨rfl, rfl, rfl, sortByName_sorted id _, sortByName_perm id _,
        sortByName_sorted id _, sortByName_perm id _,
        (missing_filter_ne_nil_iff env q inputs m given' hloop).1 hne⟩

/-- Witness for C18: the definitions `reportingStart` (required) and `limit` (optional)
with nothing supplied. -/
theorem C18_missing_inputs_error_witness :
    ValidateReportGenerationQueryInputs sampleInputsEnv
        (queryWithInputs [⟨"reportingStart", "string", true⟩, ⟨"limit", "int", false⟩]) [] =
      .error (GoError.missingInputs "query" ["limit", "reportingStart"] []) ∧
    ("query" = (queryWithInputs
          [⟨"reportingStart", "string", true⟩, ⟨"limit", "int", false⟩]).Name ∧
      ["limit", "reportingStart"] = sortStrings ((queryWithInputs
          [⟨"reportingStart", "string", true⟩, ⟨"limit", "int", false⟩]).Spec.Inputs.map
            ReportGenerationQueryInputDefinition.Name) ∧
      ([] : List String) = sortStrings (suppliedNames []) ∧
      (["limit", "reportingStart"] : List String).Pairwise (· ≤ ·) ∧
      (["limit", "reportingStart"] : List String).Perm ((queryWithInputs
          [⟨"reportingStart", "string", true⟩, ⟨"limit", "int", false⟩]).Spec.Inputs.map
            ReportGenerationQueryInputDefinition.Name) ∧
      ([] : List String).Pairwise (· ≤ ·) ∧ ([] : List String).Perm (suppliedNames []) ∧
      ∃ d ∈ (queryWithInputs
          [⟨"reportingStart", "string", true⟩, ⟨"limit", "int", false⟩]).Spec.Inputs,
        d.Required = true ∧ d.Name ∉ suppliedNames []) :=
  ⟨rfl, C18_missing_inputs_error sampleInputsEnv
    (queryWithInputs [⟨"reportingStart", "string", true⟩, ⟨"limit", "int", false⟩]) []
    "query" ["limit", "reportingStart"] [] rfl⟩

/-! ## C19: the depth boundary on a simple chain -/

theorem append_eq_single {α : Type} {l1 l2 : List α} {x : α} (h : l1 ++ l2 = [x]) :
    (l1 = [] ∧ l2 = [x]) ∨ (l1 = [x] ∧ l2 = []) := by
  cases l1 with
  | nil => exact Or.inl ⟨rfl, h⟩
  | cons y rest =>
    simp only [List.cons_append, List.cons.injEq, List.append_eq_nil] at h
    obtain ⟨rfl, rfl, rfl⟩ := h
    exact Or.inr ⟨rfl, rfl⟩

theorem SimpleChain.step_eq {queryGetter : reportGenerationQueryGetter}
    {chain : Nat → ReportGenerationQuery} {n : Nat} (hc : SimpleChain queryGetter chain n)
    {i : Nat} (hi : i ≤ n) {g : ReportGenerationQuery}
    (hs : Step queryGetter (chain i) g) : i < n ∧ g = chain (i + 1) := by
  obtain ⟨name, hname, hg⟩ := hs
  rcases Nat.lt_or_ge i n with hlt | hge
  · obtain ⟨hrefs, hlook⟩ := hc.next i hlt
    rw [hrefs, List.mem_singleton] at hname
    subst hname
    rw [hlook] at hg
    exact ⟨hlt, (Except.ok.inj hg).symm⟩
  · have : i = n := Nat.le_antisymm hi hge
    subst this
    rw [hc.last] at hname
    cases hname

theorem SimpleChain.refPath_eq {queryGetter : reportGenerationQueryGetter}
    {chain : Nat → ReportGenerationQuery} {n : Nat} (hc : SimpleChain queryGetter chain n) :
    ∀ (k i : Nat) (g : ReportGenerationQuery), i ≤ n →
      RefPath queryGetter k (chain i) g → i + k ≤ n ∧ g = chain (i + k) := by
  intro k
  induction k with
  | zero =>
    intro i g hi hp
    cases hp
    exact ⟨hi, rfl⟩
  | succ k ih =>
    intro i g hi hp
    cases hp with
    | cons hs hrest =>
      obtain ⟨hlt, hm⟩ := hc.step_eq hi hs
      subst hm
      obtain ⟨h1, h2⟩ := ih (i + 1) g hlt hrest
      exact ⟨by omega, by rw [h2]; congr 1; omega⟩

theorem SimpleChain.reachable_eq {queryGetter : reportGenerationQueryGetter}
    {chain : Nat → ReportGenerationQuery} {n : Nat} (hc : SimpleChain queryGetter chain n)
    {g : ReportGenerationQuery} (h : ReachableOrRoot queryGetter (chain 0) g) :
    ∃ i, i ≤ n ∧ g = chain i := by
  induction h with
  | refl => exact ⟨0, Nat.zero_le _, rfl⟩
  | tail _ hs ih =>
    obtain ⟨i, hi, rfl⟩ := ih
    obtain ⟨hlt, hg⟩ := hc.step_eq hi hs
    exact ⟨i + 1, hlt, hg⟩

/-- On a chain at least as long as the levels left, the traversal started with empty query
accumulators runs down the chain and fails where the levels run out. -/
theorem SimpleChain.walk_fails {queryGetter : reportGenerationQueryGetter}
    {dataSourceGetter : reportDataSourceGetter}
    {chain : Nat → ReportGenerationQuery} {n : Nat} (hc : SimpleChain queryGetter chain n)
    (hd : ∀ i, i ≤ n → ∀ d ∈ (chain i).Spec.DataSources,
      ∃ ds, dataSourceGetter (chain i).Namespace d = .ok ds) :
    ∀ (fuel i : Nat) (depth : Int) (ds : GoMap ReportDataSource), i + fuel ≤ n →
      memoizedWalk queryGetter dataSourceGetter fuel depth (chain i) ⟨[], [], ds⟩ =
        .error (GoError.cycleDetected (depth + fuel) (chain (i + fuel)).Name) := by
  intro fuel
  induction fuel with
  | zero =>
    intro i depth ds _
    simp [memoizedWalk]
  | succ fuel ih =>
    intro i depth ds hi
    have hlt : i < n := by omega
    obtain ⟨hrefs, hlook⟩ := hc.next i hlt
    obtain ⟨ds', hds'⟩ := dataSourcesLoop_ok dataSourceGetter (chain (i + 1)).Namespace
      (chain (i + 1)).Spec.DataSources ds (hd (i + 1) hlt)
    have hrec := ih (i + 1) (depth + 1) ds' (by omega)
    have hres : GoError.cycleDetected (depth + 1 + (fuel : Int)) (chain (i + 1 + fuel)).Name =
        GoError.cycleDetected (depth + ((fuel + 1 : Nat) : Int)) (chain (i + (fuel + 1))).Name := by
      have h1 : depth + 1 + (fuel : Int) = depth + ((fuel + 1 : Nat) : Int) := by
        push_cast; ring
      have h2 : i + 1 + fuel = i + (fuel + 1) := by omega
      rw [h1, h2]
    rw [hres] at hrec
    have hloop : ∀ dyn, queryNamesLoop queryGetter dataSourceGetter
        (memoizedWalk queryGetter dataSourceGetter fuel (depth + 1)) (chain i).Namespace dyn
        [(chain (i + 1)).Name] ⟨[], [], ds⟩ =
        .error (GoError.cycleDetected (depth + ((fuel + 1 : Nat) : Int))
          (chain (i + (fuel + 1))).Name) := by
      intro dyn
      have hcont : (Accumulators.accum ⟨[], [], ds⟩ dyn).contains (chain (i + 1)).Name =
          false := by cases dyn <;> rfl
      simp only [queryNamesLoop, hcont, Bool.false_eq_true, if_false, hlook,
        GetDependentDataSourcesMemoized, hds', hrec]
    unfold queryRefs at hrefs
    unfold memoizedWalk
    rcases append_eq_single hrefs with ⟨h1, h2⟩ | ⟨h1, h2⟩
    · rw [h1, h2]
      simp only [queryNamesLoop]
      exact hloop true
    · rw [h1, h2, hloop false]

/-- C19. Exact depth boundary. A visit fails at its own guard, with the cycle-detected
error for the visited query and its depth, exactly when it is entered at depth 100 or
more; entered below 100 it runs its two loops, whose recursive visits are one level
deeper; the root is visited at depth 0. For every `n` and every
store in which `chain 0 → chain 1 → ... → chain n` is a simple chain (each query has the
next one as its single ref, the last has none) whose data sources and reports can be
looked up, `GetGenerationQueryDependencies` on `chain 0` succeeds iff `n ≤ 99`; when
`100 ≤ n` it fails with the cycle-detected error that reports depth 100 and the name of
`chain 100`. -/
theorem C19_depth_boundary (queryGetter : reportGenerationQueryGetter)
    (dataSourceGetter : reportDataSourceGetter) (reportGetter : reportGetter)
    (chain : Nat → ReportGenerationQuery) (n : Nat)
    (hc : SimpleChain queryGetter chain n)
    (hd : ∀ i, i ≤ n → ∀ d ∈ (chain i).Spec.DataSources,
      ∃ ds, dataSourceGetter (chain i).Namespace d = .ok ds)
    (hr : ∀ r ∈ (chain 0).Spec.Reports, ∃ rep, reportGetter (chain 0).Namespace r = .ok rep) :
    (∀ q depth a, 100 ≤ depth →
        GetDependentGenerationQueriesWithDataSourcesMemoized queryGetter dataSourceGetter
          q depth maxDepth a = .error (GoError.cycleDetected depth q.Name)) ∧
      (∀ q depth a, depth < 100 →
        GetDependentGenerationQueriesWithDataSourcesMemoized queryGetter dataSourceGetter
            q depth maxDepth a =
          match queryNamesLoop queryGetter dataSourceGetter
              (fun genQuery a' => GetDependentGenerationQueriesWithDataSourcesMemoized
                queryGetter dataSourceGetter genQuery (depth + 1) maxDepth a')
              q.Namespace false q.Spec.ReportQueries a with
          | .error err => .error err
          | .ok a1 =>
            queryNamesLoop queryGetter dataSourceGetter
              (fun genQuery a' => GetDependentGenerationQueriesWithDataSourcesMemoized
                queryGetter dataSourceGetter genQuery (depth + 1) maxDepth a')
              q.Namespace true q.Spec.DynamicReportQueries a1) ∧
      ((∃ deps, GetGenerationQueryDependencies queryGetter dataSourceGetter reportGetter
          (chain 0) = .ok deps) ↔ n ≤ 99) ∧
      (100 ≤ n →
        GetGenerationQueryDependencies queryGetter dataSourceGetter reportGetter (chain 0) =
          .error (GoError.cycleDetected 100 (chain 100).Name)) := by
  have hfail : 100 ≤ n →
      GetGenerationQueryDependencies queryGetter dataSourceGetter reportGetter (chain 0) =
        .error (GoError.cycleDetected 100 (chain 100).Name) := by
    intro hn
    obtain ⟨rootDs, h1⟩ := dataSourcesLoop_ok dataSourceGetter (chain 0).Namespace
      (chain 0).Spec.DataSources [] (hd 0 (Nat.zero_le _))
    have h2 := hc.walk_fails hd 100 0 0 [] (by omega)
    have hfuel : (maxDepth - 0).toNat = 100 := by decide
    unfold GetGenerationQueryDependencies GetDependentDataSources
      GetDependentDataSourcesMemoized GetDependentGenerationQueries
      GetDependentGenerationQueriesWithDataSourcesMemoized
    rw [hfuel]
    simp only [h1, h2]
    norm_num
  have hmax : maxDepth = 100 := rfl
  refine ⟨?_, ?_, ?_, hfail⟩
  · intro q depth a hdepth
    rw [GetDependentGenerationQueriesWithDataSourcesMemoized_unfold, if_pos]
    rw [hmax]; exact hdepth
  · intro q depth a hdepth
    rw [GetDependentGenerationQueriesWithDataSourcesMemoized_unfold, if_neg]
    rw [hmax]; omega
  · constructor
    · rintro ⟨deps, hdeps⟩
      by_contra hn
      rw [hfail (by omega)] at hdeps
      cases hdeps
    · intro hn
      apply resolution_succeeds
      · refine ⟨hd 0 (Nat.zero_le _), ?_, ?_, hr⟩
        · intro g hg name hname
          obtain ⟨i, hi, rfl⟩ := hc.reachable_eq hg
          rcases Nat.lt_or_ge i n with hlt | hge
          · obtain ⟨hrefs, hlook⟩ := hc.next i hlt
            rw [hrefs, List.mem_singleton] at hname
            subst hname
            exact ⟨_, hlook⟩
          · have : i = n := Nat.le_antisymm hi hge
            subst this
            rw [hc.last] at hname
            cases hname
        · intro g hg d hdm
          obtain ⟨i, hi, rfl⟩ := hc.reachable_eq hg.reachableOrRoot
          exact hd i hi d hdm
      · intro g hp
        have := (hc.refPath_eq 100 0 g (Nat.zero_le _) hp).1
        omega

theorem chainName_length (k : Nat) : (chainName k).length = k := by
  simp [chainName, String.length]

theorem chainName_push (k : Nat) : (chainName k).push 'q' = chainName (k + 1) := by
  simp [chainName, String.push, List.replicate_succ']

theorem chainNode_namespace (i : Nat) : (chainNode i).Namespace = "ns" := by
  unfold chainNode
  split <;> rfl

theorem chainNode_succ_name (i : Nat) : (chainNode (i + 1)).Name = chainName (i + 1) := by
  unfold chainNode
  rw [if_neg (Nat.succ_ne_zero i)]
  rfl

theorem chainNode_dataSources (i : Nat) : (chainNode i).Spec.DataSources = [] := by
  unfold chainNode
  split <;> rfl

theorem chainQueryGetter_chainNode (i : Nat) :
    chainQueryGetter "ns" (chainName (i + 1)) = .ok (chainNode (i + 1)) := by
  unfold chainQueryGetter chainNode
  rw [if_neg (Nat.succ_ne_zero i), chainName_length, chainName_push]

/-- The queries `chainNode 0`, ..., `chainNode 100` form a simple chain in the chain
store. -/
theorem chainNode_simpleChain : SimpleChain chainQueryGetter chainNode 100 where
  next := by
    intro i hi
    rw [chainNode_namespace, chainNode_succ_name]
    refine ⟨?_, chainQueryGetter_chainNode i⟩
    unfold chainNode
    split
    · rename_i h0
      subst h0
      rfl
    · rfl
  last := by
    unfold chainNode
    rw [if_neg (by decide), if_neg (by decide)]
    rfl

/-- Witness for C19: the chain of the chain store, with `n = 100`; the resolution of its
root fails at depth 100 with the name of the query number 100. -/
theorem C19_depth_boundary_witness :
    SimpleChain chainQueryGetter chainNode 100 ∧
      (((∃ deps, GetGenerationQueryDependencies chainQueryGetter sampleDataSourceGetter
            sampleReportGetter (chainNode 0) = .ok deps) ↔ 100 ≤ 99) ∧
        (100 ≤ 100 →
          GetGenerationQueryDependencies chainQueryGetter sampleDataSourceGetter
              sampleReportGetter (chainNode 0) =
            .error (GoError.cycleDetected 100 (chainNode 100).Name))) :=
  ⟨chainNode_simpleChain,
    (C19_depth_boundary chainQueryGetter sampleDataSourceGetter sampleReportGetter chainNode
      100 chainNode_simpleChain
      (fun i _ d hd => by rw [chainNode_dataSources] at hd; cases hd)
      (fun r hr => by cases hr)).2.2⟩

/-- Witness for C12: on `depsMixed` the recording handler is called for the uninitialized
static query `b` and then for the uninitialized data source `d`, and for nothing else. On
`sampleMemory` with the handler whose query hook initializes every object, the error still
names `b`, `d` and `r`, and the data-source hook is still called for `d`, which by then has
its table name. -/
theorem C12_hook_notifications_witness :
    (ValidateGenerationQueryDependencies depsMixed (some recordingHandler) []).2.map
          (fun c => match c with
            | HookCall.HandleUninitializedReportGenerationQuery q => q.Name
            | HookCall.HandleUninitializedReportDataSource d => d.Name) = ["b", "d"] ∧
      (ValidateGenerationQueryDependenciesAt samplePointers (some initializingHandler)
          sampleMemory).1 = some (GoError.validation ⟨["b"], [], ["d"], ["r"]⟩) ∧
      (ValidateGenerationQueryDependenciesAt samplePointers (some initializingHandler)
          sampleMemory).2.ext =
        [HookCall.HandleUninitializedReportGenerationQuery (sampleMemory.queries 0),
          HookCall.HandleUninitializedReportDataSource
            { Namespace := "ns", Name := "d", Status := { TableName := "table" } }] :=
  ⟨(congrArg _ (C12_hook_notifications depsMixed recordingHandler []).2.1).trans (by decide),
    (((C12_hook_notifications depsMixed recordingHandler []).2.2.2.2.2.2.1 _ samplePointers
      initializingHandler sampleMemory).1).trans (by decide),
    (congrArg Memory.ext
      (((C12_hook_notifications depsMixed recordingHandler []).2.2.2.2.2.2.1 _ samplePointers
        initializingHandler sampleMemory).2.1)).trans (by decide)⟩

end Reporting
